import Mathlib

/-! # garden-linux: a verification development

Shallow embedding of parts of the garden-linux container runtime and
theorems about them.

Conventions of the embedding:

* Go `uint64` values are `Nat`s; arithmetic that can overflow is reduced
  modulo `2 ^ 64` explicitly. Go `int64` values are `Int`s; a subtraction
  that can overflow is reduced into the range from `-2 ^ 63` to `2 ^ 63 - 1`
  explicitly.
* Go `string`s are Lean `String`s; scanning code works on `List Char`.
* A Go function returning `(value, error)` returns a pair whose second
  component is an `Option` of the error, because the source returns a
  meaningful value next to a non-nil error in several places.
* Calls to external collaborators (command runner, docker graph, registry
  session, keyed lock) are recorded in an explicit trace, and their outcomes
  are parameters of the embedded function.
-/

namespace GardenLinux

/-! ## Go standard library pieces used by the sources -/

namespace strconv

/-- The two failure kinds of `strconv.ParseUint`. -/
inductive NumError where
  | ErrSyntax
  | ErrRange
  deriving DecidableEq, Repr

/-- The digit loop of `strconv.ParseUint(s, 10, 0)` on a 64-bit platform:
`n` is the value accumulated so far. A byte that is not a decimal digit is a
syntax error; a value that does not fit 64 bits is a range error. -/
def parseLoop : List Char → Nat → Except NumError Nat
  | [], n => .ok n
  | c :: cs, n =>
    if '0' ≤ c ∧ c ≤ '9' then
      let d := c.toNat - '0'.toNat
      -- `cutoff = maxUint64/10 + 1`: beyond it `n*10` overflows
      if n ≥ (2 ^ 64 - 1) / 10 + 1 then .error .ErrRange
      else
        let n1 := n * 10 + d
        if n1 > 2 ^ 64 - 1 then .error .ErrRange
        else parseLoop cs n1
    else .error .ErrSyntax

/-- Embedding of `strconv.ParseUint(s, 10, 0)` with 64-bit `uint`. -/
def ParseUint (s : String) : Except NumError Nat :=
  if s.toList = [] then .error .ErrSyntax else parseLoop s.toList 0

end strconv

namespace regexp

/-- A character class: a list of inclusive ranges. -/
abbrev CharClass := List (Char × Char)

/-- Membership of a character in a class. -/
def CharClass.mem (cc : CharClass) (c : Char) : Bool :=
  cc.any (fun r => decide (r.1 ≤ c) && decide (c ≤ r.2))

/-- The class `\d` of Go's regexp syntax: ASCII digits. -/
def digit : CharClass := [('0', '9')]

/-- The class `[0-9a-f]`. -/
def hex : CharClass := [('0', '9'), ('a', 'f')]

/-- The class `[KMG]`. -/
def KMG : CharClass := [('K', 'K'), ('M', 'M'), ('G', 'G')]

/-- The fragment of Go's regexp syntax the sources use. Capture groups carry
their number (the position of their opening parenthesis, from 1). -/
inductive Regexp where
  | lit (c : Char)
  | plus (cc : CharClass)
  | quest (cc : CharClass)
  | cap (i : Nat) (r : Regexp)
  | seq (a b : Regexp)

/-- The regexp matching the characters of `cs` literally, followed by `r`. -/
def litsThen : List Char → Regexp → Regexp
  | [], r => r
  | c :: cs, r => .seq (.lit c) (litsThen cs r)

/-- The greedy loop of `[cc]+`: take as many characters as possible, and give
back one at a time while the continuation `k` fails. -/
def plusLoop {R : Type} (cc : CharClass) (k : List Char → Option R) :
    List Char → Option R
  | [] => none
  | c :: cs =>
    if cc.mem c then
      match plusLoop cc k cs with
      | some r => some r
      | none => k cs
    else none

/-- The text consumed between input `s` and its suffix `rest`. -/
def consumed (s rest : List Char) : String :=
  String.mk (s.take (s.length - rest.length))

/-- Backtracking matcher with leftmost-first (greedy) preference, anchored at
the start of the input. The continuation receives the remaining input and the
captures recorded so far. -/
def Regexp.run {R : Type} : Regexp → (List Char → List String → Option R) →
    List Char → List String → Option R
  | .lit c, k, s, caps =>
    match s with
    | [] => none
    | x :: xs => if x = c then k xs caps else none
  | .plus cc, k, s, caps => plusLoop cc (fun rest => k rest caps) s
  | .quest cc, k, s, caps =>
    match s with
    | [] => k [] caps
    | x :: xs =>
      if cc.mem x then
        match k xs caps with
        | some r => some r
        | none => k (x :: xs) caps
      else k (x :: xs) caps
  | .cap i r, k, s, caps =>
    r.run (fun rest caps1 => k rest (caps1.set i (consumed s rest))) s caps
  | .seq a b, k, s, caps => a.run (fun rest caps1 => b.run k rest caps1) s caps

/-- A compiled pattern: the expression and its number of capture groups. -/
structure Pattern where
  re : Regexp
  groups : Nat

/-- Match of the pattern anchored at the start of `s`; element 0 of the result
is the whole match, element `i` the text of group `i`. -/
def Pattern.matchAt (p : Pattern) (s : List Char) : Option (List String) :=
  p.re.run (fun rest caps => some (caps.set 0 (consumed s rest))) s
    (List.replicate (p.groups + 1) "")

/-- The leftmost match of the pattern in `s`, trying every start position from
the left. -/
def Pattern.find (p : Pattern) : List Char → Option (List String)
  | [] => p.matchAt []
  | c :: cs =>
    match p.matchAt (c :: cs) with
    | some m => some m
    | none => Pattern.find p cs

/-- Embedding of `(*Regexp).FindStringSubmatch`: `none` is Go's `nil`. -/
def Pattern.FindStringSubmatch (p : Pattern) (s : String) : Option (List String) :=
  p.find s.toList

end regexp

namespace path

/-- Split a path at every `/`; `cur` is the component being read, reversed. -/
def splitSlash : List Char → List Char → List (List Char)
  | [], cur => [cur.reverse]
  | c :: cs, cur =>
    if c = '/' then cur.reverse :: splitSlash cs [] else splitSlash cs (c :: cur)

/-- One step of the lexical clean-up of `path.Clean` over the components read
so far (`stack`, innermost first): empty and `.` components are dropped, `..`
removes the component before it, is dropped at the root, and is kept at the
start of a relative path. -/
def cleanStep (rooted : Bool) (stack : List (List Char)) (comp : List Char) :
    List (List Char) :=
  if comp = [] ∨ comp = ['.'] then stack
  else if comp = ['.', '.'] then
    match stack with
    | [] => if rooted then [] else [comp]
    | top :: below => if top = ['.', '.'] then comp :: stack else below
  else comp :: stack

/-- Embedding of Go's `path.Clean`. -/
def Clean (p : String) : String :=
  if p.toList = [] then "."
  else
    let rooted := p.toList.head? = some '/'
    let comps := ((splitSlash p.toList []).foldl (cleanStep rooted) []).reverse
    let body := String.mk (List.intercalate ['/'] comps)
    if rooted then "/" ++ body else if comps = [] then "." else body

/-- Embedding of Go's `path.Join`: the non-empty elements joined by `/` and
cleaned; the empty string when every element is empty. -/
def Join (elem : List String) : String :=
  match elem.filter (fun e => e ≠ "") with
  | [] => ""
  | es => Clean ("/".intercalate es)

end path

namespace exec

/-- The fields of `exec.Cmd` that the sources set and that `exec.Command`
computes from its arguments alone. `Args` holds the command name followed by
its arguments, as `exec.Command` builds it. The field `Path` is left out:
`exec.Command` sets it to the name, or, for a name without a path separator,
to what `LookPath` finds for the name on the machine. -/
structure Cmd where
  Args : List String
  Env : List String
  deriving DecidableEq, Repr

/-- Embedding of `exec.Command(name, arg...)`, as far as `Args` and `Env` go. -/
def Command (name : String) (arg : List String) : Cmd :=
  { Args := name :: arg, Env := [] }

/-- What running a command through a `command_runner.CommandRunner` does that
the sources observe: the bytes written to the command's `Stdout` and `Stderr`,
and the returned error. -/
structure RunResult where
  stdout : String
  stderr : String
  err : Option String
  deriving DecidableEq, Repr

end exec

/-! ## linux_container/bandwidth_manager/bandwidth_manager.go -/

namespace bandwidth_manager

open regexp exec

/-- The common tail ` rate (\d+)([KMG]?)bit burst (\d+)([KMG]?)b` of both
patterns. -/
def rateBurst : Regexp :=
  litsThen " rate ".toList
    (.seq (.cap 1 (.plus digit)) (.seq (.cap 2 (.quest KMG))
      (litsThen "bit burst ".toList
        (.seq (.cap 3 (.plus digit)) (.seq (.cap 4 (.quest KMG)) (.lit 'b'))))))

/-- Embedding of `IN_RATE_PATTERN` =
`qdisc tbf [0-9a-f]+: root refcnt \d+ rate (\d+)([KMG]?)bit burst (\d+)([KMG]?)b`. -/
def IN_RATE_PATTERN : Pattern where
  re := litsThen "qdisc tbf ".toList
    (.seq (.plus hex) (litsThen ": root refcnt ".toList (.seq (.plus digit) rateBurst)))
  groups := 4

/-- Embedding of `OUT_RATE_PATTERN` =
`police 0x[0-9a-f]+ rate (\d+)([KMG]?)bit burst (\d+)([KMG]?)b`. -/
def OUT_RATE_PATTERN : Pattern where
  re := litsThen "police 0x".toList (.seq (.plus hex) rateBurst)
  groups := 4

/-- Embedding of `convertUnits`. Go's `^` is bitwise exclusive or, so the
source's `1024 ^ 2` is `1024 ^^^ 2`; `uint64` products wrap modulo `2 ^ 64`. -/
def convertUnits (num : Nat) (unit : String) : Nat :=
  if unit = "K" then (num * 1024) % 2 ^ 64
  else if unit = "M" then (num * (1024 ^^^ 2)) % 2 ^ 64
  else if unit = "G" then (num * (1024 ^^^ 3)) % 2 ^ 64
  else num

/-- The four fields of `garden.ContainerBandwidthStat`. -/
structure ContainerBandwidthStat where
  InRate : Nat
  InBurst : Nat
  OutRate : Nat
  OutBurst : Nat
  deriving DecidableEq, Repr

/-- The errors `GetLimits` returns: the runner's, or a number parse error. -/
inductive Error where
  | run (msg : String)
  | parse (e : strconv.NumError)
  deriving DecidableEq, Repr

/-- The fields of `ContainerBandwidthManager` apart from the runner. -/
structure ContainerBandwidthManager where
  containerPath : String
  containerID : String

/-- What a call of `GetLimits` produces: the returned stat and error, and the
commands handed to the runner, in order. -/
structure GetLimitsResult where
  limits : ContainerBandwidthStat
  err : Option Error
  ran : List Cmd
  deriving DecidableEq, Repr

/-- The command `GetLimits` builds for the net.sh action `action`. -/
def netCmd (m : ContainerBandwidthManager) (action : String) : Cmd :=
  { Command (path.Join [m.containerPath, "net.sh"]) [action] with
    Env := ["ID=" ++ m.containerID] }

/-- The submatch at index `i`; a match of these patterns has five entries. -/
def sub (matches_ : List String) (i : Nat) : String := matches_.getD i ""

/-- Embedding of `(*ContainerBandwidthManager).GetLimits`; `runner` gives the
outcome of running each command. -/
def GetLimits (m : ContainerBandwidthManager) (runner : Cmd → RunResult) :
    GetLimitsResult :=
  let limits : ContainerBandwidthStat := ⟨0, 0, 0, 0⟩
  let egress := netCmd m "get_egress_info"
  let egressOut := (runner egress).stdout
  match (runner egress).err with
  | some e => ⟨limits, some (.run e), [egress]⟩
  | none =>
    -- the `if matches != nil` block over the egress output
    let afterIn : Except strconv.NumError ContainerBandwidthStat :=
      match IN_RATE_PATTERN.FindStringSubmatch egressOut with
      | none => .ok limits
      | some matches_ =>
        match strconv.ParseUint (sub matches_ 1) with
        | .error e => .error e
        | .ok inRate =>
          match strconv.ParseUint (sub matches_ 3) with
          | .error e => .error e
          | .ok inBurst =>
            .ok { limits with
              InRate := convertUnits inRate (sub matches_ 2) / 8
              InBurst := convertUnits inBurst (sub matches_ 4) }
    match afterIn with
    | .error e => ⟨limits, some (.parse e), [egress]⟩
    | .ok limits =>
      let ingress := netCmd m "get_ingress_info"
      let ingressOut := (runner ingress).stdout
      match (runner ingress).err with
      | some e => ⟨limits, some (.run e), [egress, ingress]⟩
      | none =>
        match OUT_RATE_PATTERN.FindStringSubmatch ingressOut with
        | none => ⟨limits, none, [egress, ingress]⟩
        | some matches_ =>
          match strconv.ParseUint (sub matches_ 1) with
          | .error e => ⟨limits, some (.parse e), [egress, ingress]⟩
          | .ok outRate =>
            match strconv.ParseUint (sub matches_ 3) with
            | .error e => ⟨limits, some (.parse e), [egress, ingress]⟩
            | .ok outBurst =>
              ⟨{ limits with
                  OutRate := convertUnits outRate (sub matches_ 2) / 8
                  OutBurst := convertUnits outBurst (sub matches_ 4) },
                none, [egress, ingress]⟩

end bandwidth_manager

namespace strings

/-- The text before and after the first occurrence of `sep` in `cs`, when there
is one; `acc` is the text already passed over, reversed. -/
def cutAt (sep : Char) : List Char → List Char → Option (List Char × List Char)
  | [], _ => none
  | c :: cs, acc => if c = sep then some (acc.reverse, cs) else cutAt sep cs (c :: acc)

/-- Embedding of `strings.SplitN(s, "=", 2)`: the whole string when it has no
`=`, otherwise the text before and the text after the first `=`. -/
def SplitN2 (s : String) : List String :=
  match cutAt '=' s.toList [] with
  | none => [s]
  | some (k, v) => [String.mk k, String.mk v]

end strings

/-! ## process (environment helpers, used by the fetcher and by `Run`) -/

namespace process

/-- A process environment: keys with their values, each key once. -/
abbrev Env := List (String × String)

/-- Set `key` to `value`: an existing key keeps its place and takes the new
value, a new key is added at the end. -/
def Env.set : Env → String → String → Env
  | [], key, value => [(key, value)]
  | (k, v) :: rest, key, value =>
    if k = key then (k, value) :: rest else (k, v) :: Env.set rest key value

/-- The message of the error for an entry that is not `KEY=VALUE`. -/
def malformed : String := "process: malformed environment"

/-- The loop of `NewEnv` over the entries, `env` being what is built so far. -/
def newEnvLoop : List String → Env → Except String Env
  | [], env => .ok env
  | kv :: rest, env =>
    match strings.SplitN2 kv with
    | [key, value] =>
      if key = "" then .error malformed else newEnvLoop rest (env.set key value)
    | _ => .error malformed

/-- Modelled from the spec: `process.NewEnv`, whose source file is not part of
the sources at hand. Every entry must have the form `KEY=VALUE` with a
non-empty key, otherwise the error `malformed environment` is returned (the
tests fix its leading text `process: malformed environment`); a key given
twice keeps the later value. -/
def NewEnv (envArray : List String) : Except String Env :=
  newEnvLoop envArray []

/-- Modelled from the spec: `Env.Merge`, absent like `NewEnv`. The entries of
`env` come first and win; the entries of `other` whose key `env` does not
define follow. -/
def Env.Merge (env other : Env) : Env :=
  env ++ other.filter (fun kv => !(env.any (fun e => e.1 = kv.1)))

/-- Modelled from the spec: `Env.Array`, the `KEY=VALUE` strings in order. -/
def Env.Array (env : Env) : List String :=
  env.map (fun kv => kv.1 ++ "=" ++ kv.2)

end process

/-! ## repository_fetcher/remote_v1.go -/

namespace repository_fetcher

/-- The fields of docker's `runconfig.Config` the fetcher reads. `Volumes` is
the list of keys of the Go map, in the order the `range` loop visits them. -/
structure Config where
  Env : List String
  Volumes : List String
  deriving DecidableEq, Repr

/-- The fields of docker's `image.Image` the fetcher reads. -/
structure Image where
  ID : String
  Size : Int
  Config : Option Config
  deriving DecidableEq, Repr

/-- An `io.ReadCloser` handed out by the registry session, known by a token. -/
structure ReadCloser where
  token : String
  deriving DecidableEq, Repr

/-- Embedding of `QuotaedReader{R, N}` as built by `fetchLayer`. -/
structure QuotaedReader where
  R : ReadCloser
  N : Int
  deriving DecidableEq, Repr

/-- Embedding of `dockerLayer`. -/
structure dockerLayer where
  env : process.Env
  vols : List String
  size : Int
  deriving DecidableEq, Repr

/-- The calls `fetchLayer` makes on its collaborators (logging left out). -/
inductive Event where
  | LockAcquire (key : String)
  | LockRelease (key : String)
  | GraphGet (id : String)
  | GetRemoteImageJSON (imgID endpoint : String)
  | GetRemoteImageLayer (imgID endpoint : String) (size : Int)
  | GraphRegister (img : Image) (layer : QuotaedReader)
  | LayerClose (layer : ReadCloser)
  deriving DecidableEq, Repr

/-- The outcomes of the collaborators' calls, as functions of a world state
`σ` (graph contents, registry) that each call may change. `NewImgJSON` is
docker's JSON decoder, a pure function. -/
structure Collaborators (σ : Type) where
  GraphGet : String → σ → Except String Image × σ
  GetRemoteImageJSON : String → String → σ → Except String (String × Int) × σ
  NewImgJSON : String → Except String Image
  GetRemoteImageLayer : String → String → Int → σ → Except String ReadCloser × σ
  GraphRegister : Image → QuotaedReader → σ → Option String × σ

/-- Embedding of `filterEnv` (the log calls left out): entries without `=` are
skipped, the others go through `process.NewEnv`, whose error is only logged,
the nil environment being returned then. -/
def filterEnv (env : List String) : process.Env :=
  let filtered := env.filter (fun e => (strings.SplitN2 e).length = 2)
  match process.NewEnv filtered with
  | .ok filteredWithNoDups => filteredWithNoDups
  | .error _ => []

/-- Embedding of `imgEnv`. -/
def imgEnv (img : Image) : process.Env :=
  match img.Config with
  | none => []
  | some config => filterEnv config.Env

/-- Embedding of `imgVolumes`. -/
def imgVolumes (img : Image) : List String :=
  match img.Config with
  | none => []
  | some config => config.Volumes

/-- State of a `fetchLayer` call when its body returns: the result, the world,
the calls made so far in order, and the deferred calls, latest first. -/
structure Returning (σ : Type) where
  result : Except String dockerLayer
  world : σ
  calls : List Event
  deferred : List Event

/-- The body of `fetchLayer` up to a `return`, deferred calls not yet run. -/
def fetchLayerBody {σ : Type} (c : Collaborators σ) (endpointURL layerID : String)
    (remaining : Int) (w : σ) : Returning σ :=
  let calls := [Event.LockAcquire layerID]
  let deferred := [Event.LockRelease layerID]
  let (got, w) := c.GraphGet layerID w
  let calls := calls ++ [Event.GraphGet layerID]
  match got with
  | .ok img => ⟨.ok ⟨imgEnv img, imgVolumes img, img.Size⟩, w, calls, deferred⟩
  | .error _ =>
    let (json, w) := c.GetRemoteImageJSON layerID endpointURL w
    let calls := calls ++ [Event.GetRemoteImageJSON layerID endpointURL]
    match json with
    | .error err => ⟨.error ("get remote image JSON: " ++ err), w, calls, deferred⟩
    | .ok (imgJSON, imgSize) =>
      match c.NewImgJSON imgJSON with
      | .error err => ⟨.error ("new image JSON: " ++ err), w, calls, deferred⟩
      | .ok img =>
        let (fetched, w) := c.GetRemoteImageLayer img.ID endpointURL imgSize w
        let calls := calls ++ [Event.GetRemoteImageLayer img.ID endpointURL imgSize]
        match fetched with
        | .error err => ⟨.error ("get remote image layer: " ++ err), w, calls, deferred⟩
        | .ok layer =>
          let deferred := Event.LayerClose layer :: deferred
          let (registered, w) := c.GraphRegister img ⟨layer, remaining⟩ w
          let calls := calls ++ [Event.GraphRegister img ⟨layer, remaining⟩]
          match registered with
          | some err => ⟨.error ("register: " ++ err), w, calls, deferred⟩
          | none => ⟨.ok ⟨imgEnv img, imgVolumes img, img.Size⟩, w, calls, deferred⟩

/-- What a `fetchLayer` call leaves behind. -/
structure FetchLayerResult (σ : Type) where
  result : Except String dockerLayer
  world : σ
  trace : List Event

/-- Embedding of `(*RemoteV1Fetcher).fetchLayer`: the body, then the deferred
calls in the reverse order of their `defer` statements. -/
def fetchLayer {σ : Type} (c : Collaborators σ) (endpointURL layerID : String)
    (remaining : Int) (w : σ) : FetchLayerResult σ :=
  let r := fetchLayerBody c endpointURL layerID remaining w
  ⟨r.result, r.world, r.calls ++ r.deferred⟩

/-- Whether a call fetches or stores a layer: `GetRemoteImageJSON`,
`GetRemoteImageLayer` or `Graph.Register`. -/
def Event.isFetch : Event → Bool
  | .GetRemoteImageJSON _ _ => true
  | .GetRemoteImageLayer _ _ _ => true
  | .GraphRegister _ _ => true
  | _ => false

/-- Whether a call is on the keyed lock. -/
def Event.isLock : Event → Bool
  | .LockAcquire _ => true
  | .LockRelease _ => true
  | _ => false

end repository_fetcher

/-! ## network/iptables (the per-rule firewall programming) -/

namespace iptables

open exec

/-- Embedding of `garden.Protocol`, an unsigned 8-bit number. -/
abbrev Protocol := Nat

/-- The value `garden.ProtocolAll`, the zero value and so the default. -/
def ProtocolAll : Protocol := 0

/-- The value `garden.ProtocolTCP`. -/
def ProtocolTCP : Protocol := 1

/-- The value `garden.ProtocolUDP`. -/
def ProtocolUDP : Protocol := 2

/-- The value `garden.ProtocolICMP`. -/
def ProtocolICMP : Protocol := 3

/-- Embedding of `garden.IPRange`; an address is held as the text
`net.IP.String` prints, a nil address is `none`. -/
structure IPRange where
  Start : Option String
  End : Option String
  deriving DecidableEq, Repr

/-- Embedding of `garden.PortRange` (16-bit ports). -/
structure PortRange where
  Start : Nat
  End : Nat
  deriving DecidableEq, Repr

/-- Embedding of `garden.ICMPControl`. -/
structure ICMPControl where
  icmpType : Nat
  Code : Option Nat
  deriving DecidableEq, Repr

/-- Embedding of `garden.NetOutRule`. -/
structure NetOutRule where
  Protocol : Protocol
  Networks : List IPRange
  Ports : List PortRange
  ICMPs : Option ICMPControl
  Log : Bool
  deriving DecidableEq, Repr

/-- The instance chain a rule is prepended to, and its log chain. The tests
build the chain `foo-bar-baz` and expect the log chain `foo-bar-baz-log`. -/
structure Chain where
  name : String
  deriving DecidableEq, Repr

/-- The name of the log chain of a chain. -/
def Chain.logChainName (ch : Chain) : String := ch.name ++ "-log"

/-- Modelled from the spec: the table of protocol names (`all`, `tcp`, `udp`,
`icmp`) of the iptables package, which is not among the sources at hand. -/
def protocols (p : Protocol) : Option String :=
  if p = ProtocolAll then some "all"
  else if p = ProtocolTCP then some "tcp"
  else if p = ProtocolUDP then some "udp"
  else if p = ProtocolICMP then some "icmp"
  else none

/-- Modelled from the spec: ports are permitted only with `tcp` or `udp`. -/
def allowsPort (p : Protocol) : Bool :=
  p = ProtocolTCP || p = ProtocolUDP

/-- Embedding of `strings.ToUpper` on ASCII text. -/
def ToUpper (s : String) : String := String.mk (s.toList.map Char.toUpper)

/-- Modelled from the spec: the destination arguments for one `IPRange`: empty
⇒ none; `Start` only ⇒ `--destination <start>`; `End` only ⇒
`--destination <end>`; both ⇒ `-m iprange --dst-range <start>-<end>`. -/
def destinationArgs (network : IPRange) : List String :=
  match network.Start, network.End with
  | some start, some end_ => ["-m", "iprange", "--dst-range", start ++ "-" ++ end_]
  | some start, none => ["--destination", start]
  | none, some end_ => ["--destination", end_]
  | none, none => []

/-- Modelled from the spec: the port arguments for one `PortRange`:
`{Start,Start}` ⇒ `--destination-port <n>`; else
`--destination-port <start>:<end>`. -/
def portArgs (ports : PortRange) : List String :=
  if ports.Start = ports.End then ["--destination-port", toString ports.Start]
  else ["--destination-port", toString ports.Start ++ ":" ++ toString ports.End]

/-- Modelled from the spec: the optional `--icmp-type T` or `T/Code`. -/
def icmpArgs (icmp : Option ICMPControl) : List String :=
  match icmp with
  | none => []
  | some c =>
    match c.Code with
    | none => ["--icmp-type", toString c.icmpType]
    | some code => ["--icmp-type", toString c.icmpType ++ "/" ++ toString code]

/-- Modelled from the spec: how a rule ends: `--goto <log-chain>` when `Log` is
set, `--jump RETURN` otherwise. -/
def targetArgs (ch : Chain) (log : Bool) : List String :=
  if log then ["--goto", ch.logChainName] else ["--jump", "RETURN"]

/-- Modelled from the spec: the one iptables invocation for a (network, port
range) pair of a rule, either of which may be absent: the rule is prepended
(`-I`) to the instance chain at position 1; the argv begins with `-w`. -/
def singleRuleCmd (ch : Chain) (protocolString : String) (network : Option IPRange)
    (ports : Option PortRange) (icmp : Option ICMPControl) (log : Bool) : Cmd :=
  Command "/sbin/iptables"
    (["-w", "-I", ch.name, "1", "--protocol", protocolString]
      ++ (match network with | none => [] | some n => destinationArgs n)
      ++ (match ports with | none => [] | some p => portArgs p)
      ++ icmpArgs icmp ++ targetArgs ch log)

/-- The elements of a list to loop over, or a single absent element when the
list is empty: the loop body runs once even without networks or ports. -/
def orAbsent {α : Type} : List α → List (Option α)
  | [] => [none]
  | xs => xs.map some

/-- Modelled from the spec: the Cartesian-product expansion of a rule into
invocations, networks outermost, then port ranges. -/
def expand (ch : Chain) (protocolString : String) (r : NetOutRule) : List Cmd :=
  (orAbsent r.Networks).flatMap (fun network =>
    (orAbsent r.Ports).map (fun ports =>
      singleRuleCmd ch protocolString network ports r.ICMPs r.Log))

/-- What a firewall call leaves behind: its error and the commands run. -/
structure Outcome where
  err : Option String
  ran : List Cmd
  deriving DecidableEq, Repr

/-- Modelled from the spec: the commands are executed serially; a failing
command is surfaced as `iptables: <msg>, <stderr>`. The spec leaves open
whether the commands after a failing one still run; here the call returns at
the failure. -/
def runSerially (runner : Cmd → RunResult) : List Cmd → Outcome
  | [] => ⟨none, []⟩
  | c :: cs =>
    match (runner c).err with
    | some msg => ⟨some ("iptables: " ++ msg ++ ", " ++ (runner c).stderr), [c]⟩
    | none =>
      let rest := runSerially runner cs
      ⟨rest.err, c :: rest.ran⟩

/-- Modelled from the spec: `PrependFilterRule`, whose source file
(network/iptables/iptables.go) is not among the sources at hand; only its
tests are. An unknown protocol is rejected with `invalid protocol: <n>`;
ports with a protocol other than `tcp` or `udp` are rejected with
`Ports cannot be specified for Protocol <X>`; neither runs a command.
Otherwise the expansion of the rule is executed serially. -/
def PrependFilterRule (ch : Chain) (runner : Cmd → RunResult) (r : NetOutRule) :
    Outcome :=
  match protocols r.Protocol with
  | none => ⟨some ("invalid protocol: " ++ toString r.Protocol), []⟩
  | some protocolString =>
    if r.Ports ≠ [] ∧ allowsPort r.Protocol = false then
      ⟨some ("Ports cannot be specified for Protocol " ++ ToUpper protocolString), []⟩
    else runSerially runner (expand ch protocolString r)

end iptables

/-! ## linux_container (running a process in a container) -/

namespace linux_container

open exec

/-- Embedding of `garden.ResourceLimits`: fifteen optional 64-bit limits. -/
structure ResourceLimits where
  As : Option Nat
  Core : Option Nat
  Cpu : Option Nat
  Data : Option Nat
  Fsize : Option Nat
  Locks : Option Nat
  Memlock : Option Nat
  Msgqueue : Option Nat
  Nice : Option Nat
  Nofile : Option Nat
  Nproc : Option Nat
  Rss : Option Nat
  Rtprio : Option Nat
  Sigpending : Option Nat
  Stack : Option Nat
  deriving DecidableEq, Repr

/-- Embedding of `garden.TTYSpec` with its optional window size. -/
structure TTYSpec where
  WindowSize : Option (Nat × Nat)
  deriving DecidableEq, Repr

/-- Embedding of `garden.ProcessSpec`. -/
structure ProcessSpec where
  User : String
  Path : String
  Args : List String
  Env : List String
  Dir : String
  TTY : Option TTYSpec
  Limits : ResourceLimits
  deriving DecidableEq, Repr

/-- The two ways of signalling a process, chosen by the container version. -/
inductive Signaller where
  | LinkSignaller
  | NamespacedSignaller
  deriving DecidableEq, Repr

/-- The part of a container handle `Run` uses: its directory on the host, its
environment, the version of the daemon that created it (`none` when missing,
a legacy container) and the last process id handed out. -/
structure LinuxContainer where
  ContainerPath : String
  Env : List String
  Version : Option (Nat × Nat × Nat)
  lastProcessID : Nat
  deriving DecidableEq, Repr

/-- The arguments of one call of the process tracker's `Run`. -/
structure TrackerCall where
  processID : String
  cmd : Cmd
  tty : Option TTYSpec
  signaller : Signaller
  deriving DecidableEq, Repr

/-- What a call of `Run` leaves behind: the id of the returned process or the
error, the container handle afterwards, the calls of the process tracker. -/
structure RunOutcome where
  result : Except String String
  container : LinuxContainer
  started : List TrackerCall

/-- One `if limit != nil` step: append `RLIMIT_<name>=<n>` when it is set. -/
def appendLimit (env : List String) (name : String) (limit : Option Nat) :
    List String :=
  match limit with
  | some n => env ++ ["RLIMIT_" ++ name ++ "=" ++ toString n]
  | none => env

/-- Modelled from the spec: the environment of the wsh command, built from the
resource limits; the source of `Run` (linux_container) is not among the
sources at hand, only its tests are. Each limit that is set adds its
`RLIMIT_<UPPER>=<n>` entry, the limits being visited in the order As, Core,
Cpu, Data, Fsize, Locks, Memlock, Msgqueue, Nice, Nofile, Nproc, Rss, Rtprio,
Sigpending, Stack. -/
def setRLimitsEnv (limits : ResourceLimits) : List String :=
  let env : List String := []
  let env := appendLimit env "AS" limits.As
  let env := appendLimit env "CORE" limits.Core
  let env := appendLimit env "CPU" limits.Cpu
  let env := appendLimit env "DATA" limits.Data
  let env := appendLimit env "FSIZE" limits.Fsize
  let env := appendLimit env "LOCKS" limits.Locks
  let env := appendLimit env "MEMLOCK" limits.Memlock
  let env := appendLimit env "MSGQUEUE" limits.Msgqueue
  let env := appendLimit env "NICE" limits.Nice
  let env := appendLimit env "NOFILE" limits.Nofile
  let env := appendLimit env "NPROC" limits.Nproc
  let env := appendLimit env "RSS" limits.Rss
  let env := appendLimit env "RTPRIO" limits.Rtprio
  let env := appendLimit env "SIGPENDING" limits.Sigpending
  let env := appendLimit env "STACK" limits.Stack
  env

/-- The error for a process spec without a user. -/
def userNotSpecified : String :=
  "A User for the process to run as must be specified"

/-- Modelled from the spec: `(*LinuxContainer).Run`, whose source file is not
among the sources at hand; only its tests are. The call is rejected when an
environment entry is malformed or `User` is absent. The environment of the
process spec is validated before the user is looked at: in the second
scenario of the spec a `Run` with the environment `a` and no user fails with
`malformed environment`, and the test of the missing user has no environment.
Otherwise the wsh command is
`wsh --socket <sock> --readSignals --user <u> [--env K=V]* [--dir D] [--pidfile P] <path> <args...>`
(as the tests show it), with the environment of the process spec before the
container's, the resource limits as the command's environment, the next
process id, and the signaller chosen by the container version; the command is
handed to the process tracker, whose outcome `tracker` gives. -/
def Run (c : LinuxContainer) (tracker : TrackerCall → Option String)
    (spec : ProcessSpec) : RunOutcome :=
  let wshPath := c.ContainerPath ++ "/bin/wsh"
  let sockPath := c.ContainerPath ++ "/run/wshd.sock"
  match process.NewEnv spec.Env with
  | .error err => ⟨.error err, c, []⟩
  | .ok specEnv =>
    if spec.User = "" then ⟨.error userNotSpecified, c, []⟩
    else
      match process.NewEnv c.Env with
      | .error err => ⟨.error err, c, []⟩
      | .ok containerEnv =>
        let args := ["--socket", sockPath, "--readSignals", "--user", spec.User]
        let args := args ++ ((specEnv.Merge containerEnv).Array.flatMap
          (fun envVar => ["--env", envVar]))
        let args := if spec.Dir ≠ "" then args ++ ["--dir", spec.Dir] else args
        let processID := c.lastProcessID + 1
        let c := { c with lastProcessID := processID }
        let legacy := c.Version.isNone
        let args :=
          if legacy then
            args ++ ["--pidfile",
              c.ContainerPath ++ "/processes/" ++ toString processID ++ ".pid"]
          else args
        let args := args ++ [spec.Path] ++ spec.Args
        let wsh : Cmd := { Command wshPath args with Env := setRLimitsEnv spec.Limits }
        let signaller :=
          if legacy then Signaller.NamespacedSignaller else Signaller.LinkSignaller
        let call : TrackerCall := ⟨toString processID, wsh, spec.TTY, signaller⟩
        match tracker call with
        | some err => ⟨.error err, c, [call]⟩
        | none => ⟨.ok (toString processID), c, [call]⟩

end linux_container

/-! ## sysconfig/config.go -/

namespace sysconfig

/-- Embedding of `IPTablesFilterConfig`. -/
structure IPTablesFilterConfig where
  AllowHostAccess : Bool
  InputChain : String
  ForwardChain : String
  DefaultChain : String
  InstancePrefix : String
  deriving DecidableEq, Repr

/-- Embedding of `IPTablesNATConfig`. -/
structure IPTablesNATConfig where
  PreroutingChain : String
  PostroutingChain : String
  InstancePrefix : String
  deriving DecidableEq, Repr

/-- Embedding of `IPTablesConfig`. -/
structure IPTablesConfig where
  Filter : IPTablesFilterConfig
  NAT : IPTablesNATConfig
  deriving DecidableEq, Repr

/-- Embedding of `Config`. -/
structure Config where
  CgroupPath : String
  CgroupNodeFilePath : String
  NetworkInterfacePrefix : String
  IPTables : IPTablesConfig
  Tag : String
  DNSServers : List String
  deriving DecidableEq, Repr

/-- Embedding of `NewConfig`; `fmt.Sprintf` with a single `%s` is the
concatenation of the text before it, the argument and the text after it. -/
def NewConfig (tag : String) (allowHostAccess : Bool) (dnsServers : List String) :
    Config :=
  { NetworkInterfacePrefix := "w" ++ tag
    Tag := tag
    DNSServers := dnsServers
    CgroupPath := "/tmp/garden-" ++ tag ++ "/cgroup"
    CgroupNodeFilePath := "/proc/self/cgroup"
    IPTables :=
      { Filter :=
          { AllowHostAccess := allowHostAccess
            InputChain := "w-" ++ tag ++ "-input"
            ForwardChain := "w-" ++ tag ++ "-forward"
            DefaultChain := "w-" ++ tag ++ "-default"
            InstancePrefix := "w-" ++ tag ++ "-instance-" }
        NAT :=
          { PreroutingChain := "w-" ++ tag ++ "-prerouting"
            PostroutingChain := "w-" ++ tag ++ "-postrouting"
            InstancePrefix := "w-" ++ tag ++ "-instance-" } } }

end sysconfig

/-! ## containerizer/wshd/main.go -/

namespace wshd

/-- The values of the command-line flags of wshd after `flag.Parse`. -/
structure Flags where
  lib : String
  root : String
  run : String
  userns : String
  title : String
  deriving DecidableEq, Repr

/-- The default values of the flags, as declared in `main`. -/
def defaultFlags : Flags :=
  { lib := "./lib", root := "", run := "./run", userns := "enabled", title := "" }

/-- An `*os.File`, known by a token. -/
structure File where
  token : String
  deriving DecidableEq, Repr

/-- A listener returned by `unix_socket.NewListenerFromPath`, known by the path
of its socket. -/
structure Listener where
  socketPath : String
  deriving DecidableEq, Repr

/-- Embedding of `containerizer.PipeSynchronizer`. -/
structure PipeSynchronizer where
  Reader : File
  Writer : File
  deriving DecidableEq, Repr

/-- Embedding of `system.NamespacingExecer` (the command runner left out). -/
structure NamespacingExecer where
  ExtraFiles : List File
  Privileged : Bool
  MaxUID : Nat
  deriving DecidableEq, Repr

/-- Embedding of the `containerizer.Containerizer` value `main` builds (the
before-clone initializer and the command runner left out). -/
structure Containerizer where
  InitBinPath : String
  InitArgs : List String
  Execer : NamespacingExecer
  Signaller : PipeSynchronizer
  Waiter : PipeSynchronizer
  LibPath : String
  RootfsPath : String
  deriving DecidableEq, Repr

/-- What `main` does that can be observed from outside. -/
inductive Event where
  | Stderr (text : String)
  | Usage
  | Pipe
  | NewListenerFromPath (socketPath : String)
  | ListenerFile (listener : Listener)
  | Create (cz : Containerizer)
  deriving DecidableEq, Repr

/-- The outcomes of the calls `main` makes on the system: the absolute
directory of the executable, the two `os.Pipe` calls, the listener and its
file, the largest valid uid and gid, and `Containerizer.Create`. -/
structure System where
  binPath : Except String String
  Pipe1 : Except String (File × File)
  Pipe2 : Except String (File × File)
  NewListenerFromPath : String → Except String Listener
  ListenerFile : Listener → Except String File
  MaxValidUID : Nat
  MaxValidGID : Nat
  Create : Containerizer → Option String

/-- How a run of `main` ends: its exit status (0 when `main` returns) and what
it did, in order. -/
structure Exit where
  status : Nat
  events : List Event
  deriving DecidableEq, Repr

/-- Embedding of `main` of wshd, from the parsed flags on. -/
def main (sys : System) (flags : Flags) : Exit :=
  if flags.root = "" then
    -- missing("--root")
    ⟨1, [.Stderr "--root is required\n", .Usage]⟩
  else
    match sys.binPath with
    | .error err => ⟨6, [.Stderr ("wshd: obtain absolute path: " ++ err)]⟩
    | .ok binPath =>
      let socketPath := path.Join [flags.run, "wshd.sock"]
      let privileged :=
        if flags.userns = "" ∨ flags.userns = "disabled" then true else false
      match sys.Pipe1 with
      | .error err => ⟨5, [.Pipe, .Stderr ("wshd: create pipe: " ++ err)]⟩
      | .ok (containerReader, hostWriter) =>
        match sys.Pipe2 with
        | .error err => ⟨4, [.Pipe, .Pipe, .Stderr ("wshd: create pipe: " ++ err)]⟩
        | .ok (hostReader, containerWriter) =>
          let sync : PipeSynchronizer := ⟨hostReader, hostWriter⟩
          match sys.NewListenerFromPath socketPath with
          | .error err =>
            ⟨8, [.Pipe, .Pipe, .NewListenerFromPath socketPath,
              .Stderr ("wshd: create listener: " ++ err)]⟩
          | .ok listener =>
            match sys.ListenerFile listener with
            | .error err =>
              ⟨9, [.Pipe, .Pipe, .NewListenerFromPath socketPath, .ListenerFile listener,
                .Stderr ("wshd: obtain listener file: " ++ err)]⟩
            | .ok socketFile =>
              let maxUID := min sys.MaxValidUID sys.MaxValidGID
              let cz : Containerizer :=
                { InitBinPath := path.Join [binPath, "initc"]
                  InitArgs := ["--root", flags.root,
                    "--config", path.Join [flags.lib, "../etc/config"],
                    "--title", flags.title]
                  Execer :=
                    { ExtraFiles := [containerReader, containerWriter, socketFile]
                      Privileged := privileged
                      MaxUID := maxUID }
                  Signaller := sync
                  Waiter := sync
                  LibPath := flags.lib
                  RootfsPath := flags.root }
              let events := [Event.Pipe, .Pipe, .NewListenerFromPath socketPath,
                .ListenerFile listener, .Create cz]
              match sys.Create cz with
              | some err => ⟨2, events ++ [.Stderr ("Failed to create container: " ++ err)]⟩
              | none => ⟨0, events⟩

end wshd

/-! ## linux_container: well-formed entries, fresh containers, successive runs -/

namespace process

/-- An environment entry of the form `KEY=VALUE` with a non-empty key: the key
is the text before the first `=`. -/
def wellFormed (e : String) : Prop :=
  ∃ key value : String, key ≠ "" ∧ '=' ∉ key.toList ∧ e = key ++ "=" ++ value

end process

namespace linux_container

/-- Modelled from the spec: the construction of a container handle, whose
source file is not among the sources at hand. Process ids are scoped to the
container and start afresh: no id has been handed out yet. -/
def NewLinuxContainer (containerPath : String) (env : List String)
    (version : Option (Nat × Nat × Nat)) : LinuxContainer :=
  { ContainerPath := containerPath, Env := env, Version := version, lastProcessID := 0 }

/-- Successive calls of `Run` on one container, each with its process spec and
the outcome of the process tracker; the handle left by a call serves the
next. -/
def runAll (c : LinuxContainer) :
    List ((TrackerCall → Option String) × ProcessSpec) → List RunOutcome
  | [] => []
  | (tracker, spec) :: rest =>
    (Run c tracker spec) :: runAll (Run c tracker spec).container rest

/-- The process id a call of `Run` returned, as text, when it succeeded. -/
def RunOutcome.processID (o : RunOutcome) : Option String :=
  match o.result with
  | .ok id => some id
  | .error _ => none

/-- The number of the process id a successful call of `Run` handed out. -/
def RunOutcome.processNumber (o : RunOutcome) : Option Nat :=
  match o.result with
  | .ok _ => some o.container.lastProcessID
  | .error _ => none

end linux_container

namespace strconv

/-- The number a list of decimal digits denotes. -/
def decimalValue (cs : List Char) : Nat :=
  cs.foldl (fun acc c => acc * 10 + (c.toNat - 48)) 0

end strconv

/-! ## containerizer/system (the process reaper) -/

namespace system

/-- One answer of the injected `wait4(-1, WNOHANG)`: a reaped child with its
exit status, 0 (children exist, none has changed state), or the error that
there is no child. -/
inductive Wait4Result where
  | reaped (pid : Nat) (status : Nat)
  | zero
  | noChild
  deriving DecidableEq, Repr

/-- A waiter: the one-shot channel on which a `Wait` receives an exit status,
known by a number. -/
structure Waiter where
  channel : Nat
  deriving DecidableEq, Repr

/-- The state of the reaper: the pids tracked, each with its waiter. -/
structure ProcessReaper where
  waiters : List (Nat × Waiter)
  deriving DecidableEq, Repr

/-- The waiter registered for a pid, if any. -/
def ProcessReaper.waiter (r : ProcessReaper) (pid : Nat) : Option Waiter :=
  r.waiters.lookup pid

/-- The reaper without the entry of a pid. -/
def ProcessReaper.unmonitor (r : ProcessReaper) (pid : Nat) : ProcessReaper :=
  ⟨r.waiters.filter (fun e => e.1 ≠ pid)⟩

/-- Modelled from the spec: the registration `Start` makes for the pid of the
child it forked; the source file of the reaper is not among the sources at
hand, only its tests are. A stale entry of the same pid is discarded before
the new one is installed. -/
def ProcessReaper.monitor (r : ProcessReaper) (pid : Nat) (w : Waiter) : ProcessReaper :=
  ⟨(pid, w) :: (r.unmonitor pid).waiters⟩

/-- What the handling of one `SIGCHLD` leaves behind: the reaper, the exit
statuses delivered (waiter and status, in order), the number of calls of
`wait4`, and the answers of `wait4` not yet consumed. -/
structure Reaped where
  reaper : ProcessReaper
  delivered : List (Waiter × Nat)
  calls : Nat
  pending : List Wait4Result
  deriving DecidableEq, Repr

/-- Modelled from the spec: the signal loop of the reaper for one delivered
`SIGCHLD`, whose source file is not among the sources at hand. `answers` is
what the successive calls of the injected `wait4` return (no child when they
are used up). The loop calls `wait4` until it returns 0 or no child; for every
reaped `(pid, status)` it consults the map: a waiter that is present receives
the status and its entry is deleted; an unknown pid is discarded. -/
def reap : List Wait4Result → ProcessReaper → Reaped
  | [], r => ⟨r, [], 1, []⟩
  | .zero :: pending, r => ⟨r, [], 1, pending⟩
  | .noChild :: pending, r => ⟨r, [], 1, pending⟩
  | .reaped pid status :: answers, r =>
    match r.waiter pid with
    | some w =>
      let rest := reap answers (r.unmonitor pid)
      ⟨rest.reaper, (w, status) :: rest.delivered, rest.calls + 1, rest.pending⟩
    | none =>
      let rest := reap answers r
      ⟨rest.reaper, rest.delivered, rest.calls + 1, rest.pending⟩

/-- The children reaped before the first answer that stops the loop. -/
def reapedBeforeStop : List Wait4Result → List (Nat × Nat)
  | .reaped pid status :: answers => (pid, status) :: reapedBeforeStop answers
  | _ => []

end system

/-! ## net (IPv4 addresses and CIDR notation, as the resource pool uses them) -/

namespace net

/-- An IPv4 address, held as its 32-bit number. -/
structure IP where
  addr : Nat
  deriving DecidableEq, Repr

/-- Embedding of `net.IPv4(a, b, c, d)`. -/
def IPv4 (a b c d : Nat) : IP := ⟨((a * 256 + b) * 256 + c) * 256 + d⟩

/-- Embedding of `net.IPNet` for IPv4: the network address and the number of
leading ones of the mask. -/
structure IPNet where
  IP : IP
  ones : Nat
  deriving DecidableEq, Repr

/-- Embedding of `IP.Mask` with a mask of `ones` leading ones: the host bits
are cleared. -/
def Mask (ip : IP) (ones : Nat) : IP :=
  ⟨ip.addr / 2 ^ (32 - ones) * 2 ^ (32 - ones)⟩

/-- The bound `big` of Go's `dtoi`. -/
def big : Nat := 0xFFFFFF

/-- The loop of Go's `dtoi`: `n` is the value of the `i` digits read so far.
The result is the value and the text after the digits; there is none when no
digit was read or the value reaches `big`. -/
def dtoiLoop : List Char → Nat → Nat → Option (Nat × List Char)
  | [], n, i => if i = 0 then none else some (n, [])
  | c :: cs, n, i =>
    if '0' ≤ c ∧ c ≤ '9' then
      if n * 10 + (c.toNat - 48) ≥ big then none
      else dtoiLoop cs (n * 10 + (c.toNat - 48)) (i + 1)
    else if i = 0 then none else some (n, c :: cs)

/-- Embedding of Go's `dtoi`: the decimal number at the start of the text. -/
def dtoi (s : List Char) : Option (Nat × List Char) := dtoiLoop s 0 0

/-- The loop of Go's `parseIPv4` over the octets still to read, `i` being the
index of the next one: every octet but the first is preceded by a dot, is a
decimal number and is at most 255; nothing may follow the last. -/
def parseOctets : Nat → Nat → List Char → Option (List Nat)
  | 0, _, s => if s = [] then some [] else none
  | k + 1, i, s =>
    if s = [] then none
    else
      let afterDot : Option (List Char) :=
        if i > 0 then
          match s with
          | '.' :: t => some t
          | _ => none
        else some s
      match afterDot with
      | none => none
      | some t =>
        match dtoi t with
        | none => none
        | some (n, rest) =>
          if n > 0xFF then none
          else
            match parseOctets k (i + 1) rest with
            | none => none
            | some octets => some (n :: octets)

/-- Embedding of Go's `parseIPv4`. -/
def parseIPv4 (s : List Char) : Option IP :=
  match parseOctets 4 0 s with
  | some [a, b, c, d] => some (IPv4 a b c d)
  | _ => none

/-- Embedding of `net.ParseCIDR` for IPv4 text `a.b.c.d/n`: the address, and
the network it lies in. Text that is not of this form gives the error
`invalid CIDR address: <text>`. -/
def ParseCIDR (s : String) : Except String (IP × IPNet) :=
  match strings.cutAt '/' s.toList [] with
  | none => .error ("invalid CIDR address: " ++ s)
  | some (addr, mask) =>
    match parseIPv4 addr, dtoi mask with
    | some ip, some (n, []) =>
      if n ≤ 32 then .ok (ip, ⟨Mask ip n, n⟩)
      else .error ("invalid CIDR address: " ++ s)
    | _, _ => .error ("invalid CIDR address: " ++ s)

end net

/-! ## resource_pool (acquiring and releasing the resources of a container) -/

namespace resource_pool

open exec

/-- Embedding of `subnets.SubnetSelector`: a dynamic subnet, or a given one. -/
inductive SubnetSelector where
  | DynamicSubnetSelector
  | StaticSubnetSelector (ipn : net.IPNet)
  deriving DecidableEq, Repr

/-- Embedding of `subnets.IPSelector`: a dynamic address, or a given one. -/
inductive IPSelector where
  | DynamicIPSelector
  | StaticIPSelector (ip : net.IP)
  deriving DecidableEq, Repr

/-- Modelled from the spec: a bare `A.B.C.D` is treated as `A.B.C.D/30`; the
source file of the resource pool is not among the sources at hand, only its
tests are. -/
def suffixIfNeeded (spec : String) : String :=
  if '/' ∈ spec.toList then spec else spec ++ "/30"

/-- Modelled from the spec: step 1 of `Acquire`, the parsing of `spec.network`:
empty ⇒ dynamic subnet and dynamic IP; `A.B.C.D/N` with zero host bits ⇒
static subnet and dynamic IP; with non-zero host bits ⇒ static subnet and
static IP. -/
def parseNetworkSpec (spec : String) : Except String (SubnetSelector × IPSelector) :=
  if spec = "" then .ok (.DynamicSubnetSelector, .DynamicIPSelector)
  else
    match net.ParseCIDR (suffixIfNeeded spec) with
    | .error err => .error err
    | .ok (specifiedIP, ipn) =>
      .ok (.StaticSubnetSelector ipn,
        if specifiedIP = ipn.IP then .DynamicIPSelector else .StaticIPSelector specifiedIP)

/-- The allocations of `Acquire` after the network is parsed, in the order of
the spec: subnet and IP, bridge, rootfs, container directory, `create.sh`,
bind-mount hooks, bind-mount destinations, packet-filter chains. -/
inductive Allocation where
  | subnet (subnet : SubnetSelector) (ip : IPSelector)
  | bridge
  | rootfs
  | containerDirectory
  | createScript
  | bindMountHooks
  | bindMountDestinations
  | filter
  deriving DecidableEq, Repr

/-- What `Acquire` does on its collaborators: an allocation attempted, or the
compensating release of one that had succeeded. -/
inductive AcquireEvent where
  | allocate (a : Allocation)
  | release (a : Allocation)
  deriving DecidableEq, Repr

/-- What a call of the pool leaves behind: its error and what it did. -/
structure AcquireOutcome where
  err : Option String
  events : List AcquireEvent
  deriving DecidableEq, Repr

/-- Modelled from the spec: the allocations are made in order, `held` being
those already made, latest first; when one fails, the compensating releases
of those made are executed in reverse and the error is returned. -/
def allocateAll (fails : Allocation → Option String) :
    List Allocation → List Allocation → AcquireOutcome
  | [], _ => ⟨none, []⟩
  | a :: rest, held =>
    match fails a with
    | some err => ⟨some err, .allocate a :: held.map .release⟩
    | none =>
      let later := allocateAll fails rest (a :: held)
      ⟨later.err, .allocate a :: later.events⟩

/-- The part of `garden.ContainerSpec` the model of `Acquire` reads. -/
structure ContainerSpec where
  Handle : String
  Network : String
  deriving DecidableEq, Repr

/-- Modelled from the spec: `Acquire`, whose source file is not among the
sources at hand; only its tests are. The network is parsed first; a network
that does not parse is rejected with
`create container: invalid network spec: <err>` and nothing is allocated.
Then the allocations are made in order, `fails` giving the outcome of each.
The record returned on success is left out. -/
def Acquire (fails : Allocation → Option String) (spec : ContainerSpec) : AcquireOutcome :=
  match parseNetworkSpec spec.Network with
  | .error err => ⟨some ("create container: invalid network spec: " ++ err), []⟩
  | .ok (subnet, ip) =>
    allocateAll fails
      [.subnet subnet ip, .bridge, .rootfs, .containerDirectory, .createScript,
        .bindMountHooks, .bindMountDestinations, .filter] []

/-- Embedding of `linux_backend.Network`. -/
structure Network where
  IP : net.IP
  Subnet : net.IPNet
  deriving DecidableEq, Repr

/-- The part of `linux_backend.LinuxContainerSpec` that `Release` reads, with
the two files of the container directory it consults: `bridge-name` and
`rootfs-provider` (`none` when the file is missing). -/
structure LinuxContainerSpec where
  ID : String
  Handle : String
  Network : Network
  Ports : List Nat
  bridgeName : Option String
  rootfsProvider : Option String
  deriving DecidableEq, Repr

/-- The part of the pool that `Release` reads: the directory of the scripts,
the depot, and the rootfs-provider tags it recognises. -/
structure LinuxResourcePool where
  rootPath : String
  depotPath : String
  rootfsProviders : List String
  deriving DecidableEq, Repr

/-- What `Release` does on its collaborators. -/
inductive ReleaseEvent where
  | ContainerTeardown (id : String)
  | Run (cmd : Cmd)
  | RootfsDestroy (id : String)
  | FilterTearDown (handle : String)
  | BridgeRelease (bridgeName : String) (id : String)
  | SubnetRelease (network : Network)
  | PortRelease (port : Nat)
  deriving DecidableEq, Repr

/-- The outcomes of the steps of `Release` that can fail: the teardown by the
iptables manager, `destroy.sh`, the rootfs provider's `Destroy`, and the
release of the bridge. -/
structure ReleaseFailures where
  containerTeardown : Option String
  destroy : Option String
  rootfsDestroy : Option String
  bridgeRelease : Option String
  deriving DecidableEq, Repr

/-- What a call of `Release` leaves behind: its error and what it did. -/
structure ReleaseOutcome where
  err : Option String
  events : List ReleaseEvent
  deriving DecidableEq, Repr

/-- Modelled from the spec: teardown stops at the failing step and surfaces its
error; the steps after it are not executed. -/
def runSteps : List (ReleaseEvent × Option String) → ReleaseOutcome
  | [] => ⟨none, []⟩
  | (step, some err) :: _ => ⟨some err, [step]⟩
  | (step, none) :: rest =>
    ⟨(runSteps rest).err, step :: (runSteps rest).events⟩

/-- Modelled from the spec: a missing, empty or unrecognised `rootfs-provider`
tag means that there is nothing to clean. -/
def shouldCleanRootfs (p : LinuxResourcePool) (tag : Option String) : Bool :=
  match tag with
  | none => false
  | some t => t ≠ "" && p.rootfsProviders.contains t

/-- Modelled from the spec: `Release`, whose source file is not among the
sources at hand; only its tests are. The steps are, in order: firewall
teardown (by the iptables manager, which the tests show to come before
`destroy.sh` and to be fatal), `destroy.sh` with the container directory as
its argument, rootfs destroy when the tag asks for it, teardown of the
container's filter chain (which the tests show to come after both, and which
cannot fail), release of the bridge when the directory names one, release of
the subnet, release of the ports. The first failing step ends the call. -/
def Release (p : LinuxResourcePool) (fails : ReleaseFailures)
    (container : LinuxContainerSpec) : ReleaseOutcome :=
  runSteps
    ([(.ContainerTeardown container.ID, fails.containerTeardown),
      (.Run (Command (path.Join [p.rootPath, "destroy.sh"])
        [path.Join [p.depotPath, container.ID]]), fails.destroy)]
    ++ (if shouldCleanRootfs p container.rootfsProvider then
          [(.RootfsDestroy container.ID, fails.rootfsDestroy)]
        else [])
    ++ [(.FilterTearDown container.Handle, none)]
    ++ (match container.bridgeName with
        | some bridgeName =>
          [(.BridgeRelease bridgeName container.ID,
            fails.bridgeRelease.map
              (fun err => "containerpool: release bridge " ++ bridgeName ++ ": " ++ err))]
        | none => [])
    ++ [(.SubnetRelease container.Network, none)]
    ++ container.Ports.map (fun port => (.PortRelease port, none)))

end resource_pool

namespace net

/-- The dotted-decimal text `a.b.c.d`. -/
def dotted (a b c d : Nat) : String :=
  toString a ++ "." ++ toString b ++ "." ++ toString c ++ "." ++ toString d

/-- The CIDR text `a.b.c.d/n`. -/
def cidr (a b c d n : Nat) : String := dotted a b c d ++ "/" ++ toString n

end net

namespace resource_pool

/-- Whether a step of `Release` comes after `destroy.sh`. -/
def ReleaseEvent.afterDestroy : ReleaseEvent → Bool
  | .ContainerTeardown _ => false
  | .Run _ => false
  | _ => true

end resource_pool

namespace sysconfig

/-- The five chains of a configuration, by kind: input, forward, default,
prerouting, postrouting. -/
def Config.chains (c : Config) : List String :=
  [c.IPTables.Filter.InputChain, c.IPTables.Filter.ForwardChain,
    c.IPTables.Filter.DefaultChain, c.IPTables.NAT.PreroutingChain,
    c.IPTables.NAT.PostroutingChain]

end sysconfig

/-! ## bandwidth_manager: `SetLimits` -/

namespace bandwidth_manager

open exec

/-- The two fields of `garden.BandwidthLimits`, both `uint64`. -/
structure BandwidthLimits where
  RateInBytesPerSecond : Nat
  BurstRateInBytesPerSecond : Nat
  deriving DecidableEq, Repr

/-- What a call of `SetLimits` produces: the returned error and the commands
handed to the runner. -/
structure SetLimitsResult where
  err : Option String
  ran : List Cmd
  deriving DecidableEq, Repr

/-- Embedding of `(*ContainerBandwidthManager).SetLimits`. `%d` prints a
`uint64` in decimal; the product `RateInBytesPerSecond*8` is a `uint64`
product and wraps modulo `2 ^ 64`. -/
def SetLimits (m : ContainerBandwidthManager) (runner : Cmd → RunResult)
    (limits : BandwidthLimits) : SetLimitsResult :=
  let setRate : Cmd :=
    { Command (path.Join [m.containerPath, "net_rate.sh"]) [] with
      Env := ["BURST=" ++ toString limits.BurstRateInBytesPerSecond,
        "RATE=" ++ toString (limits.RateInBytesPerSecond * 8 % 2 ^ 64)] }
  ⟨(runner setRate).err, [setRate]⟩

end bandwidth_manager

/-! ## repository_fetcher/remote_v1.go: `fetchFromEndpoint` and `Fetch` -/

namespace repository_fetcher

/-- Go's `int64` arithmetic: the result of an operation is its exact value
reduced modulo `2 ^ 64` into the range from `-2 ^ 63` to `2 ^ 63 - 1`. -/
def int64 (x : Int) : Int := (x + 2 ^ 63) % 2 ^ 64 - 2 ^ 63

/-- Go `error` values, as far as the fetcher tells them apart. The source
compares errors with the package variable `ErrQuotaExceeded` by identity;
`FetchError` is a function of the package defined in another file, and its
result is kept as the record of its arguments; `Errorf` is the error
`fmt.Errorf` builds from a format with one `%v` and an error, which may be
nil; `other` is any other error value, known by its text. -/
inductive Error where
  | ErrQuotaExceeded
  | other (msg : String)
  | Errorf (format : String) (arg : Option Error)
  | FetchError (context registry reponame : String) (err : Error)

/-- Embedding of `dockerImage`. -/
structure dockerImage where
  layers : List dockerLayer
  deriving DecidableEq, Repr

/-- The methods `Env` and `Vols` of `dockerImage`, which `Fetch` calls. They
are defined in another file of the package and are parameters here. -/
structure dockerImageMethods where
  Env : dockerImage → process.Env
  Vols : dockerImage → List String

/-- The field of `registry.RepositoryData` the fetcher reads. -/
structure RepositoryData where
  Endpoints : List String
  deriving DecidableEq, Repr

/-- The field of `url.URL` the fetcher reads. -/
structure URL where
  Host : String
  deriving DecidableEq, Repr

/-- The field of `registry.Endpoint` the fetcher reads. -/
structure Endpoint where
  URL : URL
  deriving DecidableEq, Repr

/-- The fields of `FetchRequest` the fetcher reads (the session is among the
collaborators, the logger is left out). `MaxSize` is an `int64`. -/
structure FetchRequest where
  Endpoint : Endpoint
  Path : String
  Tag : String
  MaxSize : Int
  deriving DecidableEq, Repr

/-- Embedding of `FetchResponse`. -/
structure FetchResponse where
  ImageID : String
  Volumes : List String
  Env : process.Env
  deriving DecidableEq, Repr

/-- The collaborators of `Fetch`: those of `fetchLayer`, and the three calls
on the registry session that `Fetch` and `fetchFromEndpoint` make. A tag list
is the Go map from tags to image ids, held as the list of its entries. -/
structure Registry (σ : Type) extends Collaborators σ where
  GetRepositoryData : String → σ → Except Error RepositoryData × σ
  GetRemoteTags : List String → String → σ → Except Error (List (String × String)) × σ
  GetRemoteHistory : String → String → σ → Except Error (List String) × σ

/-- The calls `Fetch` and `fetchFromEndpoint` make (logging left out). A call
of `fetchLayer` is recorded with its arguments, what it returned and the
calls it made itself. -/
inductive Call where
  | GetRepositoryData (path : String)
  | GetRemoteTags (endpoints : List String) (path : String)
  | GetRemoteHistory (imgID endpointURL : String)
  | fetchLayer (endpointURL layerID : String) (remaining : Int)
      (result : Except String dockerLayer) (events : List Event)

/-- What a `fetchFromEndpoint` call leaves behind. -/
structure EndpointResult (σ : Type) where
  result : Except Error dockerImage
  world : σ
  trace : List Call

/-- The loop of `fetchFromEndpoint` over the layer ids still to fetch, in the
order the loop visits them. -/
def fetchLayers {σ : Type} (c : Collaborators σ) (endpointURL : String) :
    List String → List dockerLayer → Int → σ → List Call → EndpointResult σ
  | [], allLayers, _, w, trace => ⟨.ok ⟨allLayers⟩, w, trace⟩
  | layerID :: rest, allLayers, remainingQuota, w, trace =>
    let r := fetchLayer c endpointURL layerID remainingQuota w
    let trace := trace ++ [Call.fetchLayer endpointURL layerID remainingQuota r.result r.trace]
    match r.result with
    | .error err => ⟨.error (.other err), r.world, trace⟩
    | .ok layer =>
      let allLayers := allLayers ++ [layer]
      let remainingQuota := int64 (remainingQuota - layer.size)
      if remainingQuota < 0 then ⟨.error .ErrQuotaExceeded, r.world, trace⟩
      else fetchLayers c endpointURL rest allLayers remainingQuota r.world trace

/-- Embedding of `(*RemoteV1Fetcher).fetchFromEndpoint`. The loop runs `i` from
`len(history) - 1` down to 0, that is over the history reversed. The errors
of `fetchLayer` are built by `fmt.Errorf`, so none is `ErrQuotaExceeded`. -/
def fetchFromEndpoint {σ : Type} (s : Registry σ) (request : FetchRequest)
    (endpointURL imgID : String) (w : σ) : EndpointResult σ :=
  let (history, w) := s.GetRemoteHistory imgID endpointURL w
  let trace := [Call.GetRemoteHistory imgID endpointURL]
  match history with
  | .error err => ⟨.error err, w, trace⟩
  | .ok history =>
    fetchLayers s.toCollaborators endpointURL history.reverse [] request.MaxSize w trace

/-- What a `Fetch` call leaves behind: the returned response and error, the
world, the calls made in order, and the calls of `fetchFromEndpoint` made in
order, each with its endpoint and what it left behind. -/
structure FetchResult (σ : Type) where
  response : Option FetchResponse
  err : Option Error
  world : σ
  trace : List Call
  attempts : List (String × EndpointResult σ)

/-- The loop of `Fetch` over the endpoints still to try; `err` is the error
of the endpoint tried last, nil before the first. -/
def tryEndpoints {σ : Type} (s : Registry σ) (im : dockerImageMethods)
    (request : FetchRequest) (imgID : String) :
    List String → Option Error → σ → List Call → List (String × EndpointResult σ) →
      FetchResult σ
  | [], err, w, trace, attempts =>
    ⟨none, some (.FetchError "fetchFromEndPoint" request.Endpoint.URL.Host request.Path
      (.Errorf "all endpoints failed: %v" err)), w, trace, attempts⟩
  | endpointURL :: rest, _, w, trace, attempts =>
    let r := fetchFromEndpoint s request endpointURL imgID w
    let trace := trace ++ r.trace
    let attempts := attempts ++ [(endpointURL, r)]
    match r.result with
    | .ok image =>
      ⟨some ⟨imgID, im.Vols image, im.Env image⟩, none, r.world, trace, attempts⟩
    | .error .ErrQuotaExceeded => ⟨none, some .ErrQuotaExceeded, r.world, trace, attempts⟩
    | .error err => tryEndpoints s im request imgID rest (some err) r.world trace attempts

/-- Embedding of `(*RemoteV1Fetcher).Fetch`. -/
def Fetch {σ : Type} (s : Registry σ) (im : dockerImageMethods) (request : FetchRequest)
    (w : σ) : FetchResult σ :=
  let (repoData, w) := s.GetRepositoryData request.Path w
  let trace := [Call.GetRepositoryData request.Path]
  match repoData with
  | .error err =>
    ⟨none, some (.FetchError "GetRepositoryData" request.Endpoint.URL.Host request.Path err),
      w, trace, []⟩
  | .ok repoData =>
    let (tagsList, w) := s.GetRemoteTags repoData.Endpoints request.Path w
    let trace := trace ++ [Call.GetRemoteTags repoData.Endpoints request.Path]
    match tagsList with
    | .error err =>
      ⟨none, some (.FetchError "GetRemoteTags" request.Endpoint.URL.Host request.Path err),
        w, trace, []⟩
    | .ok tagsList =>
      match tagsList.lookup request.Tag with
      | none =>
        ⟨none, some (.FetchError "looking up tag" request.Endpoint.URL.Host request.Path
          (.other ("unknown tag: " ++ request.Tag))), w, trace, []⟩
      | some imgID => tryEndpoints s im request imgID repoData.Endpoints none w trace []

/-- The size of the layer a call of `fetchLayer` returned; 0 for a call that
returned no layer. -/
def Call.size : Call → Int
  | .fetchLayer _ _ _ (.ok layer) _ => layer.size
  | _ => 0

/-- The total size of the layers the calls returned. -/
def fetchedSize (calls : List Call) : Int := (calls.map Call.size).sum

/-- The calls are successive calls of `fetchLayer` from the world `w` on: each
records what `fetchLayer` does in the world the call before it left. -/
def successiveLayers {σ : Type} (c : Collaborators σ) : σ → List Call → Prop
  | _, [] => True
  | w, .fetchLayer endpointURL layerID remaining result events :: rest =>
    result = (fetchLayer c endpointURL layerID remaining w).result ∧
    events = (fetchLayer c endpointURL layerID remaining w).trace ∧
    successiveLayers c (fetchLayer c endpointURL layerID remaining w).world rest
  | _, _ :: _ => False

/-- The attempts are successive calls of `fetchFromEndpoint` from the world
`w` on: each is the call for its endpoint in the world the attempt before it
left. -/
def successive {σ : Type} (s : Registry σ) (request : FetchRequest) (imgID : String) :
    σ → List (String × EndpointResult σ) → Prop
  | _, [] => True
  | w, (endpointURL, r) :: rest =>
    r = fetchFromEndpoint s request endpointURL imgID w ∧
    successive s request imgID r.world rest

/-- The quota left after layers of the given sizes have been fetched: the
statement `remainingQuota = remainingQuota - layer.size` of the loop, in
`int64` arithmetic, once for each layer. -/
def remainingAfter (quota : Int) (sizes : List Int) : Int :=
  sizes.foldl (fun remainingQuota size => int64 (remainingQuota - size)) quota

/-- Whether a call contacts an endpoint, the graph or the graph lock: it is
`GetRemoteHistory` or a call of `fetchLayer`. -/
def Call.onEndpoint : Call → Bool
  | .GetRemoteHistory _ _ => true
  | .fetchLayer _ _ _ _ _ => true
  | _ => false

/-- Whether a call succeeded, as far as the trace records it: a call of
`fetchLayer` succeeded when it returned a layer and no error. -/
def Call.succeeded : Call → Bool
  | .fetchLayer _ _ _ (.error _) _ => false
  | _ => true

end repository_fetcher

/-! ## Sample inputs -/

namespace bandwidth_manager

open exec

/-- A manager for the container `abc` in the depot `/depot`. -/
def sampleManager : ContainerBandwidthManager := ⟨"/depot/abc", "abc"⟩

/-- A runner whose `get_egress_info` prints a `qdisc tbf` line and whose
`get_ingress_info` prints a `police` line, as `tc` does on the host side of
the container's interface. -/
def tcRunner (c : Cmd) : RunResult :=
  if c.Args.drop 1 = ["get_egress_info"] then
    ⟨"qdisc tbf 8002: root refcnt 2 rate 8Kbit burst 1600b lat 25.0ms", "", none⟩
  else ⟨"police 0x1 rate 16Kbit burst 3200b mtu 2Kb action drop", "", none⟩

/-- A runner printing the `qdisc tbf` line for `get_ingress_info` and the
`police` line for `get_egress_info`. -/
def crossRunner (c : Cmd) : RunResult :=
  if c.Args.drop 1 = ["get_ingress_info"] then
    ⟨"qdisc tbf 8002: root refcnt 2 rate 8Kbit burst 1600b lat 25.0ms", "", none⟩
  else ⟨"police 0x1 rate 16Kbit burst 3200b mtu 2Kb action drop", "", none⟩

end bandwidth_manager

namespace repository_fetcher

/-- Collaborators over a graph held as the list of its images: `Graph.Get`
looks the id up, the session serves any layer with 10 bytes of JSON, and
`Graph.Register` adds the image to the graph. -/
def sampleCollaborators : Collaborators (List Image) where
  GraphGet := fun id graph =>
    match graph.find? (fun img => img.ID = id) with
    | some img => (.ok img, graph)
    | none => (.error "no such image", graph)
  GetRemoteImageJSON := fun id _ graph => (.ok (id, 10), graph)
  NewImgJSON := fun json => .ok ⟨json, 10, none⟩
  GetRemoteImageLayer := fun id _ _ graph => (.ok ⟨"layer of " ++ id⟩, graph)
  GraphRegister := fun img _ graph => (none, img :: graph)

/-- An image of 42 bytes with the id `abc`, without a config. -/
def sampleImage : Image := ⟨"abc", 42, none⟩

end repository_fetcher

namespace iptables

open exec

/-- A runner every command of which succeeds, printing nothing. -/
def okRunner (_ : Cmd) : RunResult := ⟨"", "", none⟩

/-- The instance chain of the tests. -/
def sampleChain : Chain := ⟨"foo-bar-baz"⟩

/-- The rule of the test with two networks and two port ranges. -/
def sampleRule : NetOutRule :=
  { Protocol := ProtocolTCP
    Networks := [⟨some "1.2.3.4", none⟩, ⟨some "2.2.3.4", some "2.2.3.9"⟩]
    Ports := [⟨12, 24⟩, ⟨64, 942⟩]
    ICMPs := none
    Log := false }

/-- The rule of the test with a port range and the protocol `all`. -/
def portsWithAll : NetOutRule := ⟨ProtocolAll, [], [⟨1, 5⟩], none, false⟩

end iptables

namespace linux_container

open exec

/-- The `RLIMIT_<name>=<n>` entry of a limit, when it is set. -/
def limitEntry (name : String) (limit : Option Nat) : Option String :=
  limit.map (fun n => "RLIMIT_" ++ name ++ "=" ++ toString n)

/-- The container of the tests, in the depot directory `/depot/some-id`. -/
def sampleContainer : LinuxContainer :=
  ⟨"/depot/some-id", ["env1=env1Value", "env2=env2Value"], some (1, 0, 0), 0⟩

/-- A process tracker that starts every process. -/
def okTracker (_ : TrackerCall) : Option String := none

/-- The process spec of the test `only sets the given rlimits`. -/
def sampleSpec : ProcessSpec :=
  { User := "alice", Path := "/some/script", Args := [], Env := [], Dir := "", TTY := none
    Limits := ⟨some 1, none, some 3, none, some 5, none, some 7, none, some 9, none,
      some 11, none, some 13, none, some 15⟩ }

/-- The call of the process tracker that test expects. -/
def sampleCall : TrackerCall :=
  { processID := "1"
    cmd :=
      { Args := ["/depot/some-id/bin/wsh", "--socket", "/depot/some-id/run/wshd.sock",
          "--readSignals", "--user", "alice", "--env", "env1=env1Value",
          "--env", "env2=env2Value", "/some/script"]
        Env := ["RLIMIT_AS=1", "RLIMIT_CPU=3", "RLIMIT_FSIZE=5", "RLIMIT_MEMLOCK=7",
          "RLIMIT_NICE=9", "RLIMIT_NPROC=11", "RLIMIT_RTPRIO=13", "RLIMIT_STACK=15"] }
    tty := none
    signaller := .LinkSignaller }

end linux_container

namespace wshd

/-- A system on which every call of wshd succeeds. -/
def okSystem : System where
  binPath := .ok "/depot/some-id/bin"
  Pipe1 := .ok (⟨"container reader"⟩, ⟨"host writer"⟩)
  Pipe2 := .ok (⟨"host reader"⟩, ⟨"container writer"⟩)
  NewListenerFromPath := fun socketPath => .ok ⟨socketPath⟩
  ListenerFile := fun listener => .ok ⟨"socket " ++ listener.socketPath⟩
  MaxValidUID := 65536
  MaxValidGID := 65536
  Create := fun _ => none

/-- The default flags with the one required flag, `-root`, given. -/
def sampleFlags : Flags := { defaultFlags with root := "/rootfs" }

/-- The containerizer wshd builds from `sampleFlags` on `okSystem`. -/
def sampleContainerizer : Containerizer :=
  { InitBinPath := "/depot/some-id/bin/initc"
    InitArgs := ["--root", "/rootfs", "--config", "etc/config", "--title", ""]
    Execer :=
      { ExtraFiles := [⟨"container reader"⟩, ⟨"container writer"⟩, ⟨"socket run/wshd.sock"⟩]
        Privileged := false
        MaxUID := 65536 }
    Signaller := ⟨⟨"host reader"⟩, ⟨"host writer"⟩⟩
    Waiter := ⟨⟨"host reader"⟩, ⟨"host writer"⟩⟩
    LibPath := "./lib"
    RootfsPath := "/rootfs" }

end wshd

namespace linux_container

/-- A process spec without a user and with the malformed entry `a`. -/
def noUserSpec : ProcessSpec := { sampleSpec with User := "", Env := ["a"] }

/-- A process spec with a user and with the malformed entry `a`. -/
def malformedSpec : ProcessSpec := { sampleSpec with Env := ["a"] }

/-- The process spec of the test in which the run overrides `env1`. -/
def overrideSpec : ProcessSpec := { sampleSpec with Env := ["env1=overridden"] }

/-- The call of the process tracker that test expects (with the limits of
`sampleSpec` in the environment of the command). -/
def overrideCall : TrackerCall :=
  { sampleCall with
    cmd :=
      { sampleCall.cmd with
        Args := ["/depot/some-id/bin/wsh", "--socket", "/depot/some-id/run/wshd.sock",
          "--readSignals", "--user", "alice", "--env", "env1=overridden",
          "--env", "env2=env2Value", "/some/script"] } }

end linux_container

namespace system

/-- A reaper tracking the pid 42 only. -/
def sampleReaper : ProcessReaper := (ProcessReaper.mk []).monitor 42 ⟨7⟩

/-- The answers of the injected `wait4` in the test `does not deadlock`, the
pid being 42: the pid and 0 for the first signal, the pid twice and 0 for the
second. -/
def reusedPidAnswers : List Wait4Result :=
  [.reaped 42 0, .zero, .reaped 42 0, .reaped 42 0, .zero]

end system

namespace resource_pool

/-- Collaborators of `Acquire` none of which fails. -/
def noFailure (_ : Allocation) : Option String := none

/-- The pool of the tests, recognising the rootfs-provider tag of the tests. -/
def samplePool : LinuxResourcePool := ⟨"/root/path", "/depot", ["docker-remote-vfs"]⟩

/-- A container with two ports, a bridge and a rootfs provider. -/
def sampleRecord : LinuxContainerSpec :=
  { ID := "some-id"
    Handle := "some-handle"
    Network := ⟨net.IPv4 1 2 3 4, ⟨net.IPv4 1 2 3 4, 30⟩⟩
    Ports := [123, 456]
    bridgeName := some "the-bridge"
    rootfsProvider := some "docker-remote-vfs" }

/-- The collaborators of `Release` when `destroy.sh` fails. -/
def destroyFails : ReleaseFailures := ⟨none, some "oh no!", none, none⟩

end resource_pool

namespace wshd

/-- The sample flags with `-userns disabled`. -/
def disabledFlags : Flags := { sampleFlags with userns := "disabled" }

/-- The containerizer wshd builds from `disabledFlags`: the sample one, but
privileged. -/
def privilegedContainerizer : Containerizer :=
  { sampleContainerizer with
    Execer := { sampleContainerizer.Execer with Privileged := true } }

end wshd

namespace bandwidth_manager

open exec

/-- A runner whose `get_egress_info` reports the rate `2 ^ 64`, which does not
fit 64 bits. -/
def overflowRunner (c : Cmd) : RunResult :=
  if c.Args.drop 1 = ["get_egress_info"] then
    ⟨"qdisc tbf 8002: root refcnt 2 rate 18446744073709551616bit burst 1600b", "", none⟩
  else ⟨"police 0x1 rate 16Kbit burst 3200b mtu 2Kb action drop", "", none⟩

/-- A runner whose `get_egress_info` reports the burst `2 ^ 64`. -/
def burstOverflowRunner (c : Cmd) : RunResult :=
  if c.Args.drop 1 = ["get_egress_info"] then
    ⟨"qdisc tbf 8002: root refcnt 2 rate 8Kbit burst 18446744073709551616b", "", none⟩
  else ⟨"police 0x1 rate 16Kbit burst 3200b mtu 2Kb action drop", "", none⟩

/-- A runner every command of which fails. -/
def failingRunner (_ : Cmd) : RunResult := ⟨"", "", some "exit status 1"⟩

/-- A runner whose `get_egress_info` reports, without a unit, the rate that
`SetLimits` emits for `2 ^ 61` bytes per second: `2 ^ 61 * 8` wraps to 0. -/
def wrappedRateRunner (c : Cmd) : RunResult :=
  if c.Args.drop 1 = ["get_egress_info"] then
    ⟨"qdisc tbf 8002: root refcnt 2 rate "
      ++ toString (2305843009213693952 * 8 % 2 ^ 64) ++ "bit burst 1600b", "", none⟩
  else ⟨"", "", none⟩

end bandwidth_manager

namespace repository_fetcher

/-- A registry whose graph holds every layer, each of as many bytes as its id
has characters, and whose session gives every image the history `history`;
the one endpoint is `https://registry` and the one tag `latest`. -/
def cachedRegistry (history : List String) : Registry Unit where
  GraphGet := fun id w => (.ok ⟨id, id.length, none⟩, w)
  GetRemoteImageJSON := fun _ _ w => (.error "not served", w)
  NewImgJSON := fun _ => .error "not served"
  GetRemoteImageLayer := fun _ _ _ w => (.error "not served", w)
  GraphRegister := fun _ _ w => (some "read-only graph", w)
  GetRepositoryData := fun _ w => (.ok ⟨["https://registry"]⟩, w)
  GetRemoteTags := fun _ _ w => (.ok [("latest", "abc")], w)
  GetRemoteHistory := fun _ _ w => (.ok history, w)

/-- A request for `some/repo:latest` with the quota `maxSize`. -/
def sampleRequest (maxSize : Int) : FetchRequest :=
  ⟨⟨⟨"registry.example"⟩⟩, "some/repo", "latest", maxSize⟩

/-- The registry over the graph of `sampleCollaborators`: the repository has
the endpoints `https://mirror`, whose history call fails, and
`https://registry` and `https://backup`, where the image `layer3` has the
parents `layer2` and `layer1`; the tag `latest` is the image `layer3`. -/
def sampleRegistry : Registry (List Image) where
  toCollaborators := sampleCollaborators
  GetRepositoryData := fun _ graph =>
    (.ok ⟨["https://mirror", "https://registry", "https://backup"]⟩, graph)
  GetRemoteTags := fun _ _ graph => (.ok [("latest", "layer3")], graph)
  GetRemoteHistory := fun imgID endpointURL graph =>
    if endpointURL = "https://mirror" then (.error (.other "connection refused"), graph)
    else (.ok [imgID, "layer2", "layer1"], graph)

/-- Methods of `dockerImage` that collect the environments and the volumes of
the layers. -/
def sampleMethods : dockerImageMethods where
  Env := fun image => image.layers.foldl (fun env layer => env.Merge layer.env) []
  Vols := fun image => image.layers.flatMap (fun layer => layer.vols)

end repository_fetcher

namespace bandwidth_manager

/-- A manager whose container path is the current directory, `.`. -/
def dotManager : ContainerBandwidthManager := ⟨".", "abc"⟩

/-- A manager whose container path is empty. -/
def emptyPathManager : ContainerBandwidthManager := ⟨"", "abc"⟩

end bandwidth_manager

/-! ## Theorems: bandwidth manager -/

namespace bandwidth_manager

open exec regexp strconv

/-- C1: with the unit `M` the source multiplies by `1024 XOR 2 = 1026`, with
`G` by `1024 XOR 3 = 1027`: at `num = 1` the results are 1026 and 1027, not
1048576 and 1073741824. -/
theorem convertUnits_M_G_at_one :
    convertUnits 1 "M" = 1026 ∧ convertUnits 1 "G" = 1027 ∧
    convertUnits 1 "M" ≠ 1 * 1024 ^ 2 % 2 ^ 64 ∧
    convertUnits 1 "G" ≠ 1 * 1024 ^ 3 % 2 ^ 64 := by
  decide

/-- C2: for every 64-bit `num`, `convertUnits num "K"` is `num * 1024` modulo
`2 ^ 64`, and for every unit other than `K`, `M` and `G`, the empty unit among
them, `convertUnits num unit` is `num`; the result fits 64 bits. -/
theorem convertUnits_K_and_other_units (num : Nat) (h : num < 2 ^ 64) :
    convertUnits num "K" = num * 1024 % 2 ^ 64 ∧
    convertUnits num "" = num ∧
    (∀ unit : String, unit ≠ "K" → unit ≠ "M" → unit ≠ "G" →
      convertUnits num unit = num) ∧
    (∀ unit : String, convertUnits num unit < 2 ^ 64) := by
  refine ⟨by simp [convertUnits], by simp [convertUnits], ?_, ?_⟩
  · intro unit hK hM hG
    simp [convertUnits, hK, hM, hG]
  · intro unit
    unfold convertUnits
    split
    · exact Nat.mod_lt _ (by norm_num)
    · split
      · exact Nat.mod_lt _ (by norm_num)
      · split
        · exact Nat.mod_lt _ (by norm_num)
        · exact h

/-- Witness of `convertUnits_K_and_other_units` at `num = 5`. -/
theorem convertUnits_K_and_other_units_witness :
    convertUnits 5 "K" = 5120 ∧ convertUnits 5 "" = 5 ∧ convertUnits 5 "T" = 5 :=
  have h := convertUnits_K_and_other_units 5 (by norm_num)
  ⟨h.1, h.2.1, h.2.2.1 "T" (by decide) (by decide) (by decide)⟩

/-- C3: whenever a pattern of `GetLimits` matches with captures
(rate, rateUnit, burst, burstUnit) and the digits parse, the reported rate is
`convertUnits rate rateUnit / 8` (floor division) and the reported burst is
`convertUnits burst burstUnit`, undivided: for the In fields from the first
match, and for the Out fields from the second, which takes place when the
second command has run without error. -/
theorem GetLimits_rate_div_8_burst_undivided (m : ContainerBandwidthManager)
    (runner : Cmd → RunResult) :
    (∀ whole rateS rateUnit burstS burstUnit rate burst,
      (runner (netCmd m "get_egress_info")).err = none →
      IN_RATE_PATTERN.FindStringSubmatch (runner (netCmd m "get_egress_info")).stdout
        = some [whole, rateS, rateUnit, burstS, burstUnit] →
      ParseUint rateS = .ok rate → ParseUint burstS = .ok burst →
      (GetLimits m runner).limits.InRate = convertUnits rate rateUnit / 8 ∧
      (GetLimits m runner).limits.InBurst = convertUnits burst burstUnit) ∧
    (∀ whole rateS rateUnit burstS burstUnit rate burst,
      (GetLimits m runner).ran
        = [netCmd m "get_egress_info", netCmd m "get_ingress_info"] →
      (runner (netCmd m "get_ingress_info")).err = none →
      OUT_RATE_PATTERN.FindStringSubmatch (runner (netCmd m "get_ingress_info")).stdout
        = some [whole, rateS, rateUnit, burstS, burstUnit] →
      ParseUint rateS = .ok rate → ParseUint burstS = .ok burst →
      (GetLimits m runner).limits.OutRate = convertUnits rate rateUnit / 8 ∧
      (GetLimits m runner).limits.OutBurst = convertUnits burst burstUnit) := by
  constructor
  · intro whole rateS rateUnit burstS burstUnit rate burst he hm hr hb
    simp only [GetLimits, he, hm, sub, List.getD_cons_succ, List.getD_cons_zero, hr, hb]
    cases h2 : (runner (netCmd m "get_ingress_info")).err <;> simp only []
    · split
      · simp
      · split
        · simp
        · split <;> simp
    · simp
  · intro whole rateS rateUnit burstS burstUnit rate burst hran he hm hr hb
    unfold GetLimits at hran ⊢
    cases h1 : (runner (netCmd m "get_egress_info")).err with
    | some e => simp [h1] at hran
    | none =>
      simp only [h1] at hran ⊢
      split at hran
      · simp at hran
      · simp only [he, hm, sub, List.getD_cons_succ, List.getD_cons_zero, hr, hb]
        exact ⟨trivial, trivial⟩

/-- Witness of `GetLimits_rate_div_8_burst_undivided`: with `8Kbit`/`1600b`
reported by the first command and `16Kbit`/`3200b` by the second, the rates
are 1024 and 2048 bytes per second and the bursts 1600 and 3200. -/
theorem GetLimits_rate_div_8_burst_undivided_witness :
    ((GetLimits sampleManager tcRunner).limits.InRate = convertUnits 8 "K" / 8 ∧
      (GetLimits sampleManager tcRunner).limits.InBurst = convertUnits 1600 "") ∧
    ((GetLimits sampleManager tcRunner).limits.OutRate = convertUnits 16 "K" / 8 ∧
      (GetLimits sampleManager tcRunner).limits.OutBurst = convertUnits 3200 "") ∧
    convertUnits 8 "K" / 8 = 1024 ∧ convertUnits 16 "K" / 8 = 2048 :=
  have h := GetLimits_rate_div_8_burst_undivided sampleManager tcRunner
  ⟨h.1 "qdisc tbf 8002: root refcnt 2 rate 8Kbit burst 1600b" "8" "K" "1600" "" 8 1600
      (by decide) (by decide) (by rfl) (by rfl),
    h.2 "police 0x1 rate 16Kbit burst 3200b" "16" "K" "3200" "" 16 3200
      (by decide) (by decide) (by decide) (by rfl) (by rfl),
    by decide, by decide⟩

/-- C4, as stated, fails: when `get_ingress_info` prints a line the `qdisc tbf`
pattern matches and `get_egress_info` one the `police` pattern matches,
`GetLimits` reports nothing at all, because it applies the `qdisc tbf` pattern
to the output of `get_egress_info` and the `police` pattern to the output of
`get_ingress_info`. -/
theorem GetLimits_ingress_stdout_not_matched_by_qdisc_pattern :
    IN_RATE_PATTERN.FindStringSubmatch
        (crossRunner (netCmd sampleManager "get_ingress_info")).stdout
      = some ["qdisc tbf 8002: root refcnt 2 rate 8Kbit burst 1600b", "8", "K", "1600", ""] ∧
    OUT_RATE_PATTERN.FindStringSubmatch
        (crossRunner (netCmd sampleManager "get_egress_info")).stdout
      = some ["police 0x1 rate 16Kbit burst 3200b", "16", "K", "3200", ""] ∧
    (GetLimits sampleManager crossRunner).limits = ⟨0, 0, 0, 0⟩ ∧
    (GetLimits sampleManager crossRunner).err = none ∧
    (GetLimits sampleManager crossRunner).ran
      = [netCmd sampleManager "get_egress_info", netCmd sampleManager "get_ingress_info"] := by
  refine ⟨by decide, by decide, by decide, by decide, by decide⟩

/-- C4, amended: when both commands run without error, `GetLimits` applies
`IN_RATE_PATTERN` (`qdisc tbf …`) to the output of `net.sh get_egress_info`
and fills the In fields from it, and applies `OUT_RATE_PATTERN`
(`police 0x…`) to the output of `net.sh get_ingress_info` and fills the Out
fields from it; a pattern that does not match leaves its fields zero. -/
theorem GetLimits_pattern_of_each_command (m : ContainerBandwidthManager)
    (runner : Cmd → RunResult)
    (he : (runner (netCmd m "get_egress_info")).err = none)
    (hi : (runner (netCmd m "get_ingress_info")).err = none) :
    (IN_RATE_PATTERN.FindStringSubmatch (runner (netCmd m "get_egress_info")).stdout = none →
      (GetLimits m runner).limits.InRate = 0 ∧ (GetLimits m runner).limits.InBurst = 0) ∧
    (∀ whole rateS rateUnit burstS burstUnit rate burst,
      IN_RATE_PATTERN.FindStringSubmatch (runner (netCmd m "get_egress_info")).stdout
        = some [whole, rateS, rateUnit, burstS, burstUnit] →
      ParseUint rateS = .ok rate → ParseUint burstS = .ok burst →
      (GetLimits m runner).limits.InRate = convertUnits rate rateUnit / 8 ∧
      (GetLimits m runner).limits.InBurst = convertUnits burst burstUnit) ∧
    (OUT_RATE_PATTERN.FindStringSubmatch (runner (netCmd m "get_ingress_info")).stdout = none →
      (GetLimits m runner).limits.OutRate = 0 ∧ (GetLimits m runner).limits.OutBurst = 0) ∧
    (∀ whole rateS rateUnit burstS burstUnit rate burst,
      (GetLimits m runner).ran
        = [netCmd m "get_egress_info", netCmd m "get_ingress_info"] →
      OUT_RATE_PATTERN.FindStringSubmatch (runner (netCmd m "get_ingress_info")).stdout
        = some [whole, rateS, rateUnit, burstS, burstUnit] →
      ParseUint rateS = .ok rate → ParseUint burstS = .ok burst →
      (GetLimits m runner).limits.OutRate = convertUnits rate rateUnit / 8 ∧
      (GetLimits m runner).limits.OutBurst = convertUnits burst burstUnit) := by
  refine ⟨?_, ?_, ?_, ?_⟩
  · intro hm
    simp only [GetLimits, he, hm, hi]
    split
    · simp
    · split
      · simp
      · split <;> simp
  · intro whole rateS rateUnit burstS burstUnit rate burst hm hr hb
    simp only [GetLimits, he, hm, sub, List.getD_cons_succ, List.getD_cons_zero, hr, hb, hi]
    split
    · simp
    · split
      · simp
      · split <;> simp
  · intro hm
    simp only [GetLimits, he, hm, hi]
    split
    · simp
    · rename_i limits heq
      split at heq
      · simp at heq
        simp [← heq]
      · split at heq
        · simp at heq
        · split at heq
          · simp at heq
          · simp at heq
            simp [← heq]
  · intro whole rateS rateUnit burstS burstUnit rate burst hran hm hr hb
    unfold GetLimits at hran ⊢
    simp only [he] at hran ⊢
    split at hran
    · simp at hran
    · simp only [hi, hm, sub, List.getD_cons_succ, List.getD_cons_zero, hr, hb]
      exact ⟨trivial, trivial⟩

/-- Witness of `GetLimits_pattern_of_each_command`: the `qdisc tbf` line
printed by `get_egress_info` gives the In fields, the `police` line printed by
`get_ingress_info` the Out fields. -/
theorem GetLimits_pattern_of_each_command_witness :
    (GetLimits sampleManager tcRunner).limits = ⟨1024, 1600, 2048, 3200⟩ ∧
    ((GetLimits sampleManager tcRunner).limits.InRate = convertUnits 8 "K" / 8 ∧
      (GetLimits sampleManager tcRunner).limits.InBurst = convertUnits 1600 "") ∧
    ((GetLimits sampleManager tcRunner).limits.OutRate = convertUnits 16 "K" / 8 ∧
      (GetLimits sampleManager tcRunner).limits.OutBurst = convertUnits 3200 "") :=
  have h := GetLimits_pattern_of_each_command sampleManager tcRunner (by decide) (by decide)
  ⟨by decide,
    h.2.1 "qdisc tbf 8002: root refcnt 2 rate 8Kbit burst 1600b" "8" "K" "1600" "" 8 1600
      (by decide) (by rfl) (by rfl),
    h.2.2.2 "police 0x1 rate 16Kbit burst 3200b" "16" "K" "3200" "" 16 3200
      (by decide) (by decide) (by rfl) (by rfl)⟩

end bandwidth_manager

/-! ## Theorems: repository fetcher -/

namespace repository_fetcher

/-- C5: a layer already in the graph is not fetched again: when `Graph.Get`
succeeds for the layer id, `fetchLayer` calls neither `GetRemoteImageJSON` nor
`GetRemoteImageLayer` nor `Graph.Register` (its only calls are the lock's
and `Graph.Get`), and it returns a layer whose size is the cached image's
`Size`. -/
theorem fetchLayer_cached_is_not_fetched {σ : Type} (c : Collaborators σ)
    (endpointURL layerID : String) (remaining : Int) (w w1 : σ) (img : Image)
    (hget : c.GraphGet layerID w = (.ok img, w1)) :
    (∀ e ∈ (fetchLayer c endpointURL layerID remaining w).trace, e.isFetch = false) ∧
    (fetchLayer c endpointURL layerID remaining w).trace
      = [.LockAcquire layerID, .GraphGet layerID, .LockRelease layerID] ∧
    (∃ layer, (fetchLayer c endpointURL layerID remaining w).result = .ok layer ∧
      layer.size = img.Size) ∧
    (fetchLayer c endpointURL layerID remaining w).world = w1 := by
  simp [fetchLayer, fetchLayerBody, hget, Event.isFetch]

/-- Witness of `fetchLayer_cached_is_not_fetched`: the image `abc` is in the
graph, so fetching the layer `abc` only looks it up and returns its 42 bytes. -/
theorem fetchLayer_cached_is_not_fetched_witness :
    (∀ e ∈ (fetchLayer sampleCollaborators "http://endpoint" "abc" 100 [sampleImage]).trace,
      e.isFetch = false) ∧
    (fetchLayer sampleCollaborators "http://endpoint" "abc" 100 [sampleImage]).trace
      = [.LockAcquire "abc", .GraphGet "abc", .LockRelease "abc"] ∧
    (∃ layer, (fetchLayer sampleCollaborators "http://endpoint" "abc" 100 [sampleImage]).result
        = .ok layer ∧ layer.size = sampleImage.Size) ∧
    (fetchLayer sampleCollaborators "http://endpoint" "abc" 100 [sampleImage]).world
      = [sampleImage] :=
  fetchLayer_cached_is_not_fetched sampleCollaborators "http://endpoint" "abc" 100
    [sampleImage] [sampleImage] sampleImage (by rfl)

/-- C6: `fetchLayer` is bracketed by the keyed lock on the layer id: whatever
the collaborators answer (cache hit, failure of `GetRemoteImageJSON`, of
`NewImgJSON`, of `GetRemoteImageLayer`, of `Graph.Register`, or success), the
calls made are `GraphLock.Acquire(layerID)`, then calls none of which is on the
lock, then `GraphLock.Release(layerID)`. -/
theorem fetchLayer_bracketed_by_lock {σ : Type} (c : Collaborators σ)
    (endpointURL layerID : String) (remaining : Int) (w : σ) :
    ∃ middle, (fetchLayer c endpointURL layerID remaining w).trace
        = .LockAcquire layerID :: (middle ++ [.LockRelease layerID]) ∧
      ∀ e ∈ middle, e.isLock = false := by
  simp only [fetchLayer, fetchLayerBody]
  split
  · exact ⟨[.GraphGet layerID], by simp, by simp [Event.isLock]⟩
  · split
    · exact ⟨[.GraphGet layerID, .GetRemoteImageJSON layerID endpointURL], by simp,
        by simp [Event.isLock]⟩
    · rename_i imgJSON imgSize _
      split
      · exact ⟨[.GraphGet layerID, .GetRemoteImageJSON layerID endpointURL], by simp,
          by simp [Event.isLock]⟩
      · rename_i img _
        split
        · exact ⟨[.GraphGet layerID, .GetRemoteImageJSON layerID endpointURL,
            .GetRemoteImageLayer img.ID endpointURL imgSize], by simp, by simp [Event.isLock]⟩
        · rename_i layer _
          refine ⟨[.GraphGet layerID, .GetRemoteImageJSON layerID endpointURL,
            .GetRemoteImageLayer img.ID endpointURL imgSize,
            .GraphRegister img ⟨layer, remaining⟩, .LayerClose layer], ?_,
            by simp [Event.isLock]⟩
          split <;> simp

end repository_fetcher

/-! ## Theorems: firewall rules -/

namespace iptables

open exec

/-- The list to loop over has one element per element, or one when empty. -/
theorem orAbsent_length {α : Type} (xs : List α) :
    (orAbsent xs).length = max xs.length 1 := by
  cases xs with
  | nil => rfl
  | cons x xs => simp [orAbsent]

/-- The `i`-th element looped over is the `i`-th element of the list, absent
when the list is empty. -/
theorem orAbsent_getElem? {α : Type} (xs : List α) (i : Nat) (h : i < max xs.length 1) :
    (orAbsent xs)[i]? = some xs[i]? := by
  cases xs with
  | nil =>
    have : i = 0 := by simpa using h
    subst this; rfl
  | cons x xs =>
    have h' : i < (x :: xs).length := by simpa using h
    show ((x :: xs).map some)[i]? = _
    rw [List.getElem?_map, List.getElem?_eq_getElem h']
    rfl

/-- Indexing a concatenation of blocks of the same length `M`. -/
theorem getElem?_flatMap_block {α β : Type} (f : α → List β) (M : Nat)
    (hf : ∀ a, (f a).length = M) (l : List α) (i j : Nat) (hj : j < M) :
    (l.flatMap f)[i * M + j]? = (l[i]?).bind (fun a => (f a)[j]?) := by
  induction l generalizing i with
  | nil => simp
  | cons a l ih =>
    cases i with
    | zero =>
      simp only [List.flatMap_cons, Nat.zero_mul, Nat.zero_add, List.getElem?_cons_zero,
        Option.some_bind]
      exact List.getElem?_append_left (by rw [hf]; exact hj)
    | succ i =>
      simp only [List.flatMap_cons, List.getElem?_cons_succ]
      rw [List.getElem?_append_right (by rw [hf]; nlinarith)]
      rw [hf, ← ih i]
      congr 1
      rw [Nat.succ_mul]; omega

/-- The length of a concatenation of blocks of the same length `M`. -/
theorem length_flatMap_block {α β : Type} (f : α → List β) (M : Nat)
    (hf : ∀ a, (f a).length = M) (l : List α) : (l.flatMap f).length = l.length * M := by
  induction l with
  | nil => simp
  | cons a l ih => simp [List.flatMap_cons, hf, ih, Nat.succ_mul, Nat.add_comm]

/-- When every command succeeds, all of them are run, in order. -/
theorem runSerially_all_ok (runner : Cmd → RunResult) (hok : ∀ c, (runner c).err = none)
    (cmds : List Cmd) : runSerially runner cmds = ⟨none, cmds⟩ := by
  induction cmds with
  | nil => rfl
  | cons c cs ih => simp [runSerially, hok, ih]

/-- The number of invocations a rule expands to. -/
theorem expand_length (ch : Chain) (p : String) (r : NetOutRule) :
    (expand ch p r).length = max r.Networks.length 1 * max r.Ports.length 1 := by
  unfold expand
  rw [length_flatMap_block _ (max r.Ports.length 1) (by intro a; simp [orAbsent_length]),
    orAbsent_length]

/-- The invocation for the `i`-th network and the `j`-th port range. -/
theorem expand_getElem? (ch : Chain) (p : String) (r : NetOutRule) (i j : Nat)
    (hi : i < max r.Networks.length 1) (hj : j < max r.Ports.length 1) :
    (expand ch p r)[i * max r.Ports.length 1 + j]?
      = some (singleRuleCmd ch p r.Networks[i]? r.Ports[j]? r.ICMPs r.Log) := by
  unfold expand
  rw [getElem?_flatMap_block _ (max r.Ports.length 1) (by intro a; simp [orAbsent_length]) _ i j hj]
  rw [orAbsent_getElem? _ _ hi]
  simp [List.getElem?_map, orAbsent_getElem? _ _ hj]

/-- The model against the test `opens the permutations of those port ranges
and networks`: four commands, in the order the test expects. -/
theorem PrependFilterRule_test_permutations :
    PrependFilterRule sampleChain okRunner sampleRule =
      ⟨none,
        [Command "/sbin/iptables" ["-w", "-I", "foo-bar-baz", "1", "--protocol", "tcp",
            "--destination", "1.2.3.4", "--destination-port", "12:24", "--jump", "RETURN"],
          Command "/sbin/iptables" ["-w", "-I", "foo-bar-baz", "1", "--protocol", "tcp",
            "--destination", "1.2.3.4", "--destination-port", "64:942", "--jump", "RETURN"],
          Command "/sbin/iptables" ["-w", "-I", "foo-bar-baz", "1", "--protocol", "tcp",
            "-m", "iprange", "--dst-range", "2.2.3.4-2.2.3.9", "--destination-port", "12:24",
            "--jump", "RETURN"],
          Command "/sbin/iptables" ["-w", "-I", "foo-bar-baz", "1", "--protocol", "tcp",
            "-m", "iprange", "--dst-range", "2.2.3.4-2.2.3.9", "--destination-port", "64:942",
            "--jump", "RETURN"]]⟩ := by
  decide

/-- The model against the tests with a defaulted rule, with `Log` set, with a
single port, with an ICMP type and code, and with an end address only. -/
theorem PrependFilterRule_test_single_commands :
    PrependFilterRule sampleChain okRunner ⟨ProtocolAll, [], [], none, false⟩ =
      ⟨none, [Command "/sbin/iptables"
        ["-w", "-I", "foo-bar-baz", "1", "--protocol", "all", "--jump", "RETURN"]]⟩ ∧
    PrependFilterRule sampleChain okRunner ⟨ProtocolAll, [], [], none, true⟩ =
      ⟨none, [Command "/sbin/iptables"
        ["-w", "-I", "foo-bar-baz", "1", "--protocol", "all", "--goto", "foo-bar-baz-log"]]⟩ ∧
    PrependFilterRule sampleChain okRunner ⟨ProtocolTCP, [], [⟨22, 22⟩], none, false⟩ =
      ⟨none, [Command "/sbin/iptables"
        ["-w", "-I", "foo-bar-baz", "1", "--protocol", "tcp", "--destination-port", "22",
          "--jump", "RETURN"]]⟩ ∧
    PrependFilterRule sampleChain okRunner ⟨ProtocolICMP, [], [], some ⟨99, some 11⟩, false⟩ =
      ⟨none, [Command "/sbin/iptables"
        ["-w", "-I", "foo-bar-baz", "1", "--protocol", "icmp", "--icmp-type", "99/11",
          "--jump", "RETURN"]]⟩ ∧
    PrependFilterRule sampleChain okRunner
        ⟨ProtocolAll, [⟨none, some "1.2.3.4"⟩], [], none, false⟩ =
      ⟨none, [Command "/sbin/iptables"
        ["-w", "-I", "foo-bar-baz", "1", "--protocol", "all", "--destination", "1.2.3.4",
          "--jump", "RETURN"]]⟩ := by
  decide

/-- The model against the tests of the errors: an unknown protocol, and a
failing command, whose error is wrapped with the command's stderr. -/
theorem PrependFilterRule_test_errors :
    PrependFilterRule sampleChain okRunner ⟨52, [], [], none, false⟩ =
      ⟨some "invalid protocol: 52", []⟩ ∧
    (PrependFilterRule sampleChain (fun _ => ⟨"", "stderr contents", some "badly laid iptable"⟩)
        ⟨ProtocolAll, [], [], none, false⟩).err =
      some "iptables: badly laid iptable, stderr contents" := by
  decide

/-- C7: for a rule with protocol tcp or udp, `n` networks and `m` port ranges,
when the iptables commands succeed, `PrependFilterRule` runs exactly
`max n 1 * max m 1` commands; the command at position `i * max m 1 + j` is the
one for network `i` and port range `j` (networks outermost, port ranges in
list order); and every command begins
`/sbin/iptables -w -I <instance chain> 1 --protocol <p>`. -/
theorem PrependFilterRule_cartesian_product (ch : Chain) (runner : Cmd → RunResult)
    (r : NetOutRule) (p : String)
    (hp : r.Protocol = ProtocolTCP ∧ p = "tcp" ∨ r.Protocol = ProtocolUDP ∧ p = "udp")
    (hok : ∀ c, (runner c).err = none) :
    (PrependFilterRule ch runner r).err = none ∧
    (PrependFilterRule ch runner r).ran.length
      = max r.Networks.length 1 * max r.Ports.length 1 ∧
    (∀ i j, i < max r.Networks.length 1 → j < max r.Ports.length 1 →
      (PrependFilterRule ch runner r).ran[i * max r.Ports.length 1 + j]?
        = some (singleRuleCmd ch p r.Networks[i]? r.Ports[j]? r.ICMPs r.Log)) ∧
    (∀ cmd ∈ (PrependFilterRule ch runner r).ran,
      cmd.Args.take 7 = ["/sbin/iptables", "-w", "-I", ch.name, "1", "--protocol", p]) := by
  have hrun : PrependFilterRule ch runner r = ⟨none, expand ch p r⟩ := by
    rcases hp with ⟨h, rfl⟩ | ⟨h, rfl⟩ <;>
      simp [PrependFilterRule, h, protocols, allowsPort, ProtocolAll, ProtocolTCP,
        ProtocolUDP, ProtocolICMP, runSerially_all_ok runner hok]
  rw [hrun]
  refine ⟨rfl, expand_length ch p r, fun i j hi hj => expand_getElem? ch p r i j hi hj, ?_⟩
  intro cmd hcmd
  simp only [expand, List.mem_flatMap, List.mem_map] at hcmd
  obtain ⟨n, _, q, _, rfl⟩ := hcmd
  simp [singleRuleCmd, Command]

/-- Witness of `PrependFilterRule_cartesian_product`: two networks and two port
ranges give four commands, the third being the one for the second network and
the first port range. -/
theorem PrependFilterRule_cartesian_product_witness :
    (PrependFilterRule sampleChain okRunner sampleRule).err = none ∧
    (PrependFilterRule sampleChain okRunner sampleRule).ran.length = 2 * 2 ∧
    (PrependFilterRule sampleChain okRunner sampleRule).ran[1 * 2 + 0]?
      = some (Command "/sbin/iptables" ["-w", "-I", "foo-bar-baz", "1", "--protocol", "tcp",
          "-m", "iprange", "--dst-range", "2.2.3.4-2.2.3.9", "--destination-port", "12:24",
          "--jump", "RETURN"]) :=
  have h := PrependFilterRule_cartesian_product sampleChain okRunner sampleRule "tcp"
    (Or.inl ⟨rfl, rfl⟩) (fun _ => rfl)
  ⟨h.1, h.2.1, h.2.2.1 1 0 (by decide) (by decide)⟩

/-- C8: for a rule with a non-empty `Ports` list and the protocol ALL or ICMP,
`PrependFilterRule` returns the error
`Ports cannot be specified for Protocol <X>` (`X` being `ALL` or `ICMP`) and
runs no iptables command, whatever the runner would do. -/
theorem PrependFilterRule_ports_need_tcp_or_udp (ch : Chain) (runner : Cmd → RunResult)
    (r : NetOutRule) (X : String) (hports : r.Ports ≠ [])
    (hp : r.Protocol = ProtocolAll ∧ X = "ALL" ∨ r.Protocol = ProtocolICMP ∧ X = "ICMP") :
    (PrependFilterRule ch runner r).err
      = some ("Ports cannot be specified for Protocol " ++ X) ∧
    (PrependFilterRule ch runner r).ran = [] := by
  rcases hp with ⟨h, rfl⟩ | ⟨h, rfl⟩
  · have hu : ToUpper "all" = "ALL" := by decide
    simp [PrependFilterRule, h, protocols, allowsPort, ProtocolAll, ProtocolTCP,
      ProtocolUDP, ProtocolICMP, hports, hu]
  · have hu : ToUpper "icmp" = "ICMP" := by decide
    simp [PrependFilterRule, h, protocols, allowsPort, ProtocolAll, ProtocolTCP,
      ProtocolUDP, ProtocolICMP, hports, hu]

/-- Witness of `PrependFilterRule_ports_need_tcp_or_udp`: the port range 1-5
with the protocol `all`. -/
theorem PrependFilterRule_ports_need_tcp_or_udp_witness :
    (PrependFilterRule sampleChain okRunner portsWithAll).err
      = some ("Ports cannot be specified for Protocol " ++ "ALL") ∧
    (PrependFilterRule sampleChain okRunner portsWithAll).ran = [] :=
  PrependFilterRule_ports_need_tcp_or_udp sampleChain okRunner portsWithAll "ALL"
    (by decide) (Or.inl ⟨rfl, rfl⟩)

/-- C9: for every `IPRange` of a rule that is accepted, when the iptables
commands succeed, each command run for that range carries, right after
`--protocol <p>`: nothing when `Start` and `End` are both absent;
`--destination <start>` when only `Start` is set; `--destination <end>` when
only `End` is set; `-m iprange --dst-range <start>-<end>` when both are
set. -/
theorem PrependFilterRule_destination_of_range (ch : Chain) (runner : Cmd → RunResult)
    (r : NetOutRule) (p : String) (i j : Nat) (network : IPRange)
    (hp : protocols r.Protocol = some p)
    (hports : r.Ports = [] ∨ allowsPort r.Protocol = true)
    (hok : ∀ c, (runner c).err = none)
    (hi : r.Networks[i]? = some network) (hj : j < max r.Ports.length 1) :
    ∃ cmd, (PrependFilterRule ch runner r).ran[i * max r.Ports.length 1 + j]? = some cmd ∧
      cmd.Args = ["/sbin/iptables", "-w", "-I", ch.name, "1", "--protocol", p]
        ++ (match network.Start, network.End with
            | none, none => []
            | some start, none => ["--destination", start]
            | none, some end_ => ["--destination", end_]
            | some start, some end_ => ["-m", "iprange", "--dst-range", start ++ "-" ++ end_])
        ++ (match r.Ports[j]? with | none => [] | some ports => portArgs ports)
        ++ icmpArgs r.ICMPs ++ targetArgs ch r.Log := by
  have hrun : PrependFilterRule ch runner r = ⟨none, expand ch p r⟩ := by
    rcases hports with h | h <;>
      simp [PrependFilterRule, hp, h, runSerially_all_ok runner hok]
  have hlt : i < max r.Networks.length 1 := by
    have := (List.getElem?_eq_some_iff.mp hi).1
    omega
  refine ⟨_, by rw [hrun]; exact expand_getElem? ch p r i j hlt hj, ?_⟩
  rw [hi]
  rcases network with ⟨_ | s, _ | e⟩ <;> simp [singleRuleCmd, Command, destinationArgs]

/-- Witness of `PrependFilterRule_destination_of_range`: the range
2.2.3.4-2.2.3.9 with the port range 64-942. -/
theorem PrependFilterRule_destination_of_range_witness :
    ∃ cmd, (PrependFilterRule sampleChain okRunner sampleRule).ran[1 * max 2 1 + 1]? = some cmd ∧
      cmd.Args = ["/sbin/iptables", "-w", "-I", "foo-bar-baz", "1", "--protocol", "tcp"]
        ++ ["-m", "iprange", "--dst-range", "2.2.3.4" ++ "-" ++ "2.2.3.9"]
        ++ portArgs ⟨64, 942⟩ ++ icmpArgs none ++ targetArgs sampleChain false :=
  PrependFilterRule_destination_of_range sampleChain okRunner sampleRule "tcp" 1 1
    ⟨some "2.2.3.4", some "2.2.3.9"⟩ (by decide) (Or.inr (by decide)) (fun _ => rfl)
    (by decide) (by decide)

end iptables

/-! ## Theorems: running a process -/

namespace linux_container

open exec

/-- Appending a limit appends its entry, if any. -/
theorem appendLimit_eq (env : List String) (name : String) (limit : Option Nat) :
    appendLimit env name limit = env ++ (limitEntry name limit).toList := by
  cases limit <;> simp [appendLimit, limitEntry]

/-- A `filterMap` keeps the head's image, if any, before the tail's. -/
theorem filterMap_cons_toList {α β : Type} (f : α → Option β) (a : α) (l : List α) :
    (a :: l).filterMap f = (f a).toList ++ l.filterMap f := by
  cases h : f a <;> simp [List.filterMap_cons, h]

/-- The environment built from the limits is the table of the fifteen limits,
in order, with the unset ones left out. -/
theorem setRLimitsEnv_eq (l : ResourceLimits) :
    setRLimitsEnv l =
      [("AS", l.As), ("CORE", l.Core), ("CPU", l.Cpu), ("DATA", l.Data), ("FSIZE", l.Fsize),
        ("LOCKS", l.Locks), ("MEMLOCK", l.Memlock), ("MSGQUEUE", l.Msgqueue),
        ("NICE", l.Nice), ("NOFILE", l.Nofile), ("NPROC", l.Nproc), ("RSS", l.Rss),
        ("RTPRIO", l.Rtprio), ("SIGPENDING", l.Sigpending), ("STACK", l.Stack)].filterMap
        (fun e => limitEntry e.1 e.2) := by
  simp only [setRLimitsEnv, appendLimit_eq, filterMap_cons_toList, List.filterMap_nil,
    List.nil_append, List.append_nil, List.append_assoc]

/-- The model against the test `only sets the given rlimits`: the one call of
the process tracker is the expected one, and the process has the id 1. -/
theorem Run_test_given_rlimits :
    (Run sampleContainer okTracker sampleSpec).started = [sampleCall] ∧
    (Run sampleContainer okTracker sampleSpec).container.lastProcessID = 1 := by
  decide

/-- The model against the tests of the arguments: the arguments of the process
follow its path; the environment of the process spec comes first and overrides
the container's; `--dir` is added when a directory is given; a legacy
container gets `--pidfile`. -/
theorem Run_test_arguments :
    (Run sampleContainer okTracker
        { sampleSpec with Args := ["arg1", "arg2"] }).started.map (fun call => call.cmd.Args) =
      [["/depot/some-id/bin/wsh", "--socket", "/depot/some-id/run/wshd.sock",
        "--readSignals", "--user", "alice", "--env", "env1=env1Value",
        "--env", "env2=env2Value", "/some/script", "arg1", "arg2"]] ∧
    (Run sampleContainer okTracker
        { sampleSpec with Env := ["env1=overridden"] }).started.map (fun call => call.cmd.Args) =
      [["/depot/some-id/bin/wsh", "--socket", "/depot/some-id/run/wshd.sock",
        "--readSignals", "--user", "alice", "--env", "env1=overridden",
        "--env", "env2=env2Value", "/some/script"]] ∧
    (Run sampleContainer okTracker
        { sampleSpec with Dir := "/some/dir" }).started.map (fun call => call.cmd.Args) =
      [["/depot/some-id/bin/wsh", "--socket", "/depot/some-id/run/wshd.sock",
        "--readSignals", "--user", "alice", "--env", "env1=env1Value",
        "--env", "env2=env2Value", "--dir", "/some/dir", "/some/script"]] ∧
    (Run { sampleContainer with Version := none } okTracker
        sampleSpec).started.map (fun call => (call.cmd.Args, call.signaller)) =
      [(["/depot/some-id/bin/wsh", "--socket", "/depot/some-id/run/wshd.sock",
        "--readSignals", "--user", "alice", "--env", "env1=env1Value",
        "--env", "env2=env2Value", "--pidfile", "/depot/some-id/processes/1.pid",
        "/some/script"], Signaller.NamespacedSignaller)] := by
  decide

/-- The model against the tests of the rejections: no user, and a malformed
environment entry; no process is started. -/
theorem Run_test_rejections :
    (Run sampleContainer okTracker { sampleSpec with User := "" }).started = [] ∧
    (Run sampleContainer okTracker { sampleSpec with Env := ["a"] }).started = [] ∧
    process.NewEnv ["a"] = .error "process: malformed environment" ∧
    (Run sampleContainer okTracker { sampleSpec with User := "", Env := [], Path := "whoami" }).result
      = .error "A User for the process to run as must be specified" ∧
    (Run sampleContainer okTracker { sampleSpec with User := "" }).result
      = .error "A User for the process to run as must be specified" := by
  refine ⟨by decide, by decide, by rfl, by rfl, by rfl⟩

/-- C10: for every process spec `Run` accepts, the environment of the wsh
command handed to the process tracker is exactly the list of
`RLIMIT_<NAME>=<n>` entries of the limits that are set, in the order As, Core,
Cpu, Data, Fsize, Locks, Memlock, Msgqueue, Nice, Nofile, Nproc, Rss, Rtprio,
Sigpending, Stack: no entry for an unset limit, and no other entry. A spec
with a user and well-formed environments is accepted: one command is handed
to the process tracker. -/
theorem Run_env_is_rlimits (c : LinuxContainer) (tracker : TrackerCall → Option String)
    (spec : ProcessSpec) :
    (∀ call ∈ (Run c tracker spec).started,
      call.cmd.Env =
        [("AS", spec.Limits.As), ("CORE", spec.Limits.Core), ("CPU", spec.Limits.Cpu),
          ("DATA", spec.Limits.Data), ("FSIZE", spec.Limits.Fsize),
          ("LOCKS", spec.Limits.Locks), ("MEMLOCK", spec.Limits.Memlock),
          ("MSGQUEUE", spec.Limits.Msgqueue), ("NICE", spec.Limits.Nice),
          ("NOFILE", spec.Limits.Nofile), ("NPROC", spec.Limits.Nproc),
          ("RSS", spec.Limits.Rss), ("RTPRIO", spec.Limits.Rtprio),
          ("SIGPENDING", spec.Limits.Sigpending), ("STACK", spec.Limits.Stack)].filterMap
          (fun e => e.2.map (fun n => "RLIMIT_" ++ e.1 ++ "=" ++ toString n))) ∧
    (spec.User ≠ "" → (∃ e, process.NewEnv spec.Env = .ok e) →
      (∃ e, process.NewEnv c.Env = .ok e) → (Run c tracker spec).started.length = 1) := by
  constructor
  · intro call h
    have henv : call.cmd.Env = setRLimitsEnv spec.Limits := by
      unfold Run at h
      split at h
      · simp at h
      · split at h
        · simp at h
        · split at h
          · simp at h
          · simp only [] at h
            split at h <;> (simp at h; subst h; rfl)
    rw [henv, setRLimitsEnv_eq]
    rfl
  · rintro huser ⟨e1, h1⟩ ⟨e2, h2⟩
    simp only [Run, huser, h1, h2, if_false]
    split <;> rfl

/-- Witness of `Run_env_is_rlimits`: with eight of the limits set, the wsh
command carries their eight entries, in order. -/
theorem Run_env_is_rlimits_witness :
    sampleCall ∈ (Run sampleContainer okTracker sampleSpec).started ∧
    sampleCall.cmd.Env = ["RLIMIT_AS=1", "RLIMIT_CPU=3", "RLIMIT_FSIZE=5",
      "RLIMIT_MEMLOCK=7", "RLIMIT_NICE=9", "RLIMIT_NPROC=11", "RLIMIT_RTPRIO=13",
      "RLIMIT_STACK=15"] ∧
    (Run sampleContainer okTracker sampleSpec).started.length = 1 :=
  have h := Run_env_is_rlimits sampleContainer okTracker sampleSpec
  ⟨by decide, (h.1 sampleCall (by decide)).trans (by decide),
    h.2 (by decide) ⟨[], rfl⟩ ⟨[("env1", "env1Value"), ("env2", "env2Value")], by rfl⟩⟩

end linux_container

/-! ## Theorems: bandwidth units, as the source computes them -/

namespace bandwidth_manager

/-- Two products by the same factor `n` differ modulo `2 ^ 64` when the
multipliers differ by `2 ^ k * d` with `d` odd and `n * 2 ^ k` below `2 ^ 64`. -/
theorem mul_mod_ne_of_odd_diff (n a d k : Nat) (h0 : 0 < n) (hn : n * 2 ^ k < 2 ^ 64)
    (hd : Nat.Coprime (2 ^ 64) d) :
    n * a % 2 ^ 64 ≠ n * (a + 2 ^ k * d) % 2 ^ 64 := by
  intro heq
  have hmod : n * a ≡ n * (a + 2 ^ k * d) [MOD 2 ^ 64] := heq
  have hle : n * a ≤ n * (a + 2 ^ k * d) := Nat.mul_le_mul_left _ (Nat.le_add_right _ _)
  have hdvd : 2 ^ 64 ∣ n * (a + 2 ^ k * d) - n * a := (Nat.modEq_iff_dvd' hle).mp hmod
  have hsub : n * (a + 2 ^ k * d) - n * a = (n * 2 ^ k) * d := by
    rw [Nat.mul_add, Nat.add_sub_cancel_left, Nat.mul_assoc]
  rw [hsub] at hdvd
  have h2 : 2 ^ 64 ∣ n * 2 ^ k := hd.dvd_of_dvd_mul_right hdvd
  have hpos : 0 < n * 2 ^ k := Nat.mul_pos h0 (by positivity)
  exact absurd (Nat.le_of_dvd hpos h2) (Nat.not_le.mpr hn)

/-- A value reduced modulo `2 ^ 64` that differs from `m` modulo `2 ^ 64`
differs from `m` itself. -/
theorem mod_ne_self_of_mod_ne (x m : Nat) (h : x % 2 ^ 64 ≠ m % 2 ^ 64) :
    x % 2 ^ 64 ≠ m := by
  intro heq
  apply h
  have hlt : m < 2 ^ 64 := heq ▸ Nat.mod_lt x (by positivity)
  rw [Nat.mod_eq_of_lt hlt]
  exact heq

/-- C20: the conversion uses `^` as bitwise exclusive or: for every 64-bit
`num`, `convertUnits num "M"` is `num * 1026` and `convertUnits num "G"` is
`num * 1027`, modulo `2 ^ 64`; for `0 < num < 2 ^ 63` these differ from
`num * 1024 ^ 2` and `num * 1024 ^ 3`, reduced modulo `2 ^ 64` or not. -/
theorem convertUnits_M_G_xor (num : Nat) (h : num < 2 ^ 64) :
    convertUnits num "M" = num * 1026 % 2 ^ 64 ∧
    convertUnits num "G" = num * 1027 % 2 ^ 64 ∧
    convertUnits num "M" < 2 ^ 64 ∧ convertUnits num "G" < 2 ^ 64 ∧
    (0 < num → num < 2 ^ 63 →
      convertUnits num "M" ≠ num * 1024 ^ 2 % 2 ^ 64 ∧
      convertUnits num "G" ≠ num * 1024 ^ 3 % 2 ^ 64 ∧
      convertUnits num "M" ≠ num * 1024 ^ 2 ∧
      convertUnits num "G" ≠ num * 1024 ^ 3) := by
  have x2 : (1024 : Nat) ^^^ 2 = 1026 := by rfl
  have x3 : (1024 : Nat) ^^^ 3 = 1027 := by rfl
  have hM : convertUnits num "M" = num * 1026 % 2 ^ 64 := by
    unfold convertUnits
    rw [if_neg (by decide), if_pos rfl, x2]
  have hG : convertUnits num "G" = num * 1027 % 2 ^ 64 := by
    unfold convertUnits
    rw [if_neg (by decide), if_neg (by decide), if_pos rfl, x3]
  refine ⟨hM, hG, hM ▸ Nat.mod_lt _ (by positivity), hG ▸ Nat.mod_lt _ (by positivity), ?_⟩
  intro h0 h63
  have h63' : num * 2 ^ 1 < 2 ^ 64 := by
    have : (2 : Nat) ^ 64 = 2 ^ 63 * 2 ^ 1 := by norm_num
    rw [this]
    exact Nat.mul_lt_mul_of_pos_right h63 (by norm_num)
  have h64' : num * 2 ^ 0 < 2 ^ 64 := by simpa using h
  have e2 : (1024 : Nat) ^ 2 = 1026 + 2 ^ 1 * 523775 := by norm_num
  have e3 : (1024 : Nat) ^ 3 = 1027 + 2 ^ 0 * 1073740797 := by norm_num
  have nM : num * 1026 % 2 ^ 64 ≠ num * 1024 ^ 2 % 2 ^ 64 := by
    rw [e2]
    exact mul_mod_ne_of_odd_diff num 1026 523775 1 h0 h63'
      (Nat.Coprime.pow_left 64 (by norm_num))
  have nG : num * 1027 % 2 ^ 64 ≠ num * 1024 ^ 3 % 2 ^ 64 := by
    rw [e3]
    exact mul_mod_ne_of_odd_diff num 1027 1073740797 0 h0 h64'
      (Nat.Coprime.pow_left 64 (by norm_num))
  rw [hM, hG]
  exact ⟨nM, nG, mod_ne_self_of_mod_ne _ _ nM, mod_ne_self_of_mod_ne _ _ nG⟩

/-- Witness of `convertUnits_M_G_xor` at `num = 3`. -/
theorem convertUnits_M_G_xor_witness :
    convertUnits 3 "M" = 3078 ∧ convertUnits 3 "G" = 3081 ∧
    convertUnits 3 "M" ≠ 3 * 1024 ^ 2 ∧ convertUnits 3 "G" ≠ 3 * 1024 ^ 3 :=
  have h := convertUnits_M_G_xor 3 (by norm_num)
  have d := h.2.2.2.2 (by norm_num) (by norm_num)
  ⟨h.1, h.2.1, d.2.2.1, d.2.2.2⟩

end bandwidth_manager

/-! ## Theorems: system configuration -/

namespace sysconfig

/-- C17: for every tag, the `CgroupPath` of `NewConfig` is
`/tmp/garden-<tag>/cgroup`, so with the tag `n` it is `/tmp/garden-n/cgroup`,
and `CgroupNodeFilePath` is `/proc/self/cgroup` whatever the tag. -/
theorem NewConfig_cgroup_paths (tag : String) (allowHostAccess : Bool)
    (dnsServers : List String) :
    (NewConfig tag allowHostAccess dnsServers).CgroupPath
      = "/tmp/garden-" ++ tag ++ "/cgroup" ∧
    (NewConfig tag allowHostAccess dnsServers).CgroupNodeFilePath = "/proc/self/cgroup" ∧
    (NewConfig "n" allowHostAccess dnsServers).CgroupPath = "/tmp/garden-n/cgroup" :=
  ⟨rfl, rfl, by
    show "/tmp/garden-" ++ "n" ++ "/cgroup" = "/tmp/garden-n/cgroup"
    decide⟩

/-- C18: for every tag, the `NetworkInterfacePrefix` of `NewConfig` is the
letter `w` followed by the tag, so every bridge name `w<tag>b-<rest>` is that
text followed by `b-<rest>`: it starts with the configured text. -/
theorem NewConfig_interface_name_start (tag : String) (allowHostAccess : Bool)
    (dnsServers : List String) :
    (NewConfig tag allowHostAccess dnsServers).NetworkInterfacePrefix = "w" ++ tag ∧
    (∀ rest : String,
      "w" ++ tag ++ "b-" ++ rest
        = (NewConfig tag allowHostAccess dnsServers).NetworkInterfacePrefix ++ ("b-" ++ rest)) ∧
    (∀ rest : String,
      (NewConfig tag allowHostAccess dnsServers).NetworkInterfacePrefix.toList
        <+: ("w" ++ tag ++ "b-" ++ rest).toList) := by
  refine ⟨rfl, fun rest => ?_, fun rest => ?_⟩
  · show "w" ++ tag ++ "b-" ++ rest = "w" ++ tag ++ ("b-" ++ rest)
    rw [String.append_assoc]
  · show ("w" ++ tag).data <+: ("w" ++ tag ++ "b-" ++ rest).data
    rw [String.append_assoc ("w" ++ tag), String.data_append]
    exact List.prefix_append _ _

end sysconfig

/-! ## Theorems: wshd -/

namespace wshd

/-- C19: wshd creates its listening socket at `path.Join(<run flag>, "wshd.sock")`
and nowhere else: with a root directory given and the executable's directory
and the two pipes obtained, it asks for the listener on that path; with the
default run directory `./run` the path is `run/wshd.sock`, which below a
container directory is `<container>/run/wshd.sock`. When the listener and
its file are obtained too, wshd creates the container, and the extra files of
its namespacing execer are the two pipe ends and the file of the listener on
that socket; whenever a container is created, its extra files are such. -/
theorem main_socket_path (sys : System) (flags : Flags) :
    (∀ socketPath, Event.NewListenerFromPath socketPath ∈ (main sys flags).events →
      socketPath = path.Join [flags.run, "wshd.sock"]) ∧
    path.Join [defaultFlags.run, "wshd.sock"] = "run/wshd.sock" ∧
    (∀ container : String,
      container ++ "/" ++ path.Join [defaultFlags.run, "wshd.sock"]
        = container ++ "/run/wshd.sock") ∧
    (∀ cz, Event.Create cz ∈ (main sys flags).events →
      ∃ listener socketFile containerReader containerWriter,
        sys.NewListenerFromPath (path.Join [flags.run, "wshd.sock"]) = .ok listener ∧
        sys.ListenerFile listener = .ok socketFile ∧
        cz.Execer.ExtraFiles = [containerReader, containerWriter, socketFile]) ∧
    (flags.root ≠ "" → (∃ binPath, sys.binPath = .ok binPath) →
      (∃ p, sys.Pipe1 = .ok p) → (∃ p, sys.Pipe2 = .ok p) →
      (main sys flags).events.take 3
        = [.Pipe, .Pipe, .NewListenerFromPath (path.Join [flags.run, "wshd.sock"])]) ∧
    (∀ (binPath : String) (containerReader hostWriter hostReader containerWriter : File)
      (listener : Listener) (socketFile : File),
      flags.root ≠ "" → sys.binPath = .ok binPath →
      sys.Pipe1 = .ok (containerReader, hostWriter) →
      sys.Pipe2 = .ok (hostReader, containerWriter) →
      sys.NewListenerFromPath (path.Join [flags.run, "wshd.sock"]) = .ok listener →
      sys.ListenerFile listener = .ok socketFile →
      ∃ cz, (main sys flags).events.take 5
          = [.Pipe, .Pipe, .NewListenerFromPath (path.Join [flags.run, "wshd.sock"]),
              .ListenerFile listener, .Create cz] ∧
        cz.Execer.ExtraFiles = [containerReader, containerWriter, socketFile]) := by
  have hdefault : path.Join [defaultFlags.run, "wshd.sock"] = "run/wshd.sock" := by decide
  refine ⟨?_, hdefault, ?_, ?_, ?_, ?_⟩
  · intro socketPath hmem
    by_cases hroot : flags.root = ""
    · simp [main, hroot] at hmem
    · cases hb : sys.binPath with
      | error e => simp [main, hroot, hb] at hmem
      | ok binPath =>
        cases h1 : sys.Pipe1 with
        | error e => simp [main, hroot, hb, h1] at hmem
        | ok p1 =>
          obtain ⟨containerReader, hostWriter⟩ := p1
          cases h2 : sys.Pipe2 with
          | error e => simp [main, hroot, hb, h1, h2] at hmem
          | ok p2 =>
            obtain ⟨hostReader, containerWriter⟩ := p2
            cases hl : sys.NewListenerFromPath (path.Join [flags.run, "wshd.sock"]) with
            | error e => simpa [main, hroot, hb, h1, h2, hl] using hmem
            | ok listener =>
              cases hf : sys.ListenerFile listener with
              | error e => simpa [main, hroot, hb, h1, h2, hl, hf] using hmem
              | ok socketFile =>
                simp only [main, hroot, hb, h1, h2, hl, hf, if_false] at hmem
                split at hmem <;> simpa using hmem
  · intro container
    rw [hdefault, String.append_assoc]
    rfl
  · intro cz hmem
    by_cases hroot : flags.root = ""
    · simp [main, hroot] at hmem
    · cases hb : sys.binPath with
      | error e => simp [main, hroot, hb] at hmem
      | ok binPath =>
        cases h1 : sys.Pipe1 with
        | error e => simp [main, hroot, hb, h1] at hmem
        | ok p1 =>
          obtain ⟨containerReader, hostWriter⟩ := p1
          cases h2 : sys.Pipe2 with
          | error e => simp [main, hroot, hb, h1, h2] at hmem
          | ok p2 =>
            obtain ⟨hostReader, containerWriter⟩ := p2
            cases hl : sys.NewListenerFromPath (path.Join [flags.run, "wshd.sock"]) with
            | error e => simp [main, hroot, hb, h1, h2, hl] at hmem
            | ok listener =>
              cases hf : sys.ListenerFile listener with
              | error e => simp [main, hroot, hb, h1, h2, hl, hf] at hmem
              | ok socketFile =>
                refine ⟨listener, socketFile, containerReader, containerWriter, rfl, hf, ?_⟩
                simp only [main, hroot, hb, h1, h2, hl, hf, if_false] at hmem
                split at hmem <;> (simp at hmem; subst hmem; rfl)
  · rintro hroot ⟨binPath, hb⟩ ⟨⟨containerReader, hostWriter⟩, h1⟩
      ⟨⟨hostReader, containerWriter⟩, h2⟩
    cases hl : sys.NewListenerFromPath (path.Join [flags.run, "wshd.sock"]) with
    | error e => simp [main, hroot, hb, h1, h2, hl]
    | ok listener =>
      cases hf : sys.ListenerFile listener with
      | error e => simp [main, hroot, hb, h1, h2, hl, hf]
      | ok socketFile =>
        simp only [main, hroot, hb, h1, h2, hl, hf, if_false]
        split <;> simp
  · intro binPath containerReader hostWriter hostReader containerWriter listener socketFile
      hroot hb h1 h2 hl hf
    simp only [main, hroot, hb, h1, h2, hl, hf, if_false]
    split <;> exact ⟨_, rfl, rfl⟩

/-- Witness of `main_socket_path`: with the default flags on a system where
every call succeeds, wshd asks for the socket at `run/wshd.sock` and creates
the container with the file of that listener as the third extra file of the
execer. -/
theorem main_socket_path_witness :
    "run/wshd.sock" = path.Join [sampleFlags.run, "wshd.sock"] ∧
    (∃ listener socketFile containerReader containerWriter,
      okSystem.NewListenerFromPath (path.Join [sampleFlags.run, "wshd.sock"]) = .ok listener ∧
      okSystem.ListenerFile listener = .ok socketFile ∧
      sampleContainerizer.Execer.ExtraFiles = [containerReader, containerWriter, socketFile]) ∧
    (main okSystem sampleFlags).events.take 3
      = [.Pipe, .Pipe, .NewListenerFromPath (path.Join [sampleFlags.run, "wshd.sock"])] ∧
    (∃ cz, (main okSystem sampleFlags).events.take 5
        = [.Pipe, .Pipe, .NewListenerFromPath (path.Join [sampleFlags.run, "wshd.sock"]),
            .ListenerFile ⟨"run/wshd.sock"⟩, .Create cz] ∧
      cz.Execer.ExtraFiles
        = [⟨"container reader"⟩, ⟨"container writer"⟩, ⟨"socket run/wshd.sock"⟩]) ∧
    Event.Create sampleContainerizer ∈ (main okSystem sampleFlags).events :=
  have h := main_socket_path okSystem sampleFlags
  ⟨h.1 "run/wshd.sock" (by decide), h.2.2.2.1 sampleContainerizer (by decide),
    h.2.2.2.2.1 (by decide) ⟨_, rfl⟩ ⟨_, rfl⟩ ⟨_, rfl⟩,
    h.2.2.2.2.2 "/depot/some-id/bin" ⟨"container reader"⟩ ⟨"host writer"⟩ ⟨"host reader"⟩
      ⟨"container writer"⟩ ⟨"run/wshd.sock"⟩ ⟨"socket run/wshd.sock"⟩ (by decide) rfl rfl rfl
      rfl rfl,
    by decide⟩

/-- The run of wshd with the default flags on a system where every call
succeeds: two pipes, the listener on `run/wshd.sock`, its file, and the
creation of the container; the exit status is 0. -/
theorem main_default_run :
    main okSystem sampleFlags =
      ⟨0, [.Pipe, .Pipe, .NewListenerFromPath "run/wshd.sock",
        .ListenerFile ⟨"run/wshd.sock"⟩, .Create sampleContainerizer]⟩ := by
  decide

end wshd

/-! ## Theorems: environments and process ids of `Run` -/

namespace strings

/-- What `cutAt` returns: the text before the first separator (after what was
already passed over) and the text after it. -/
theorem cutAt_some (sep : Char) (cs acc k v : List Char)
    (h : cutAt sep cs acc = some (k, v)) :
    ∃ k', k = acc.reverse ++ k' ∧ cs = k' ++ sep :: v ∧ sep ∉ k' := by
  induction cs generalizing acc with
  | nil => simp [cutAt] at h
  | cons c cs ih =>
    unfold cutAt at h
    split at h
    · rename_i hc
      simp only [Option.some.injEq, Prod.mk.injEq] at h
      exact ⟨[], by simp [h.1], by simp [hc, h.2], by simp⟩
    · rename_i hc
      obtain ⟨k', hk, hcs, hsep⟩ := ih (c :: acc) h
      refine ⟨c :: k', by simp [hk], by simp [hcs], ?_⟩
      simp only [List.mem_cons, not_or]
      exact ⟨fun h' => hc h'.symm, hsep⟩

/-- When `SplitN2` gives two parts, the entry is the first part, `=`, and the
second part, and the first part has no `=`. -/
theorem SplitN2_pair (e key value : String) (h : SplitN2 e = [key, value]) :
    e = key ++ "=" ++ value ∧ '=' ∉ key.toList := by
  unfold SplitN2 at h
  split at h
  · simp at h
  · rename_i k v hcut
    obtain ⟨k', hk, hcs, hsep⟩ := cutAt_some '=' _ _ _ _ hcut
    simp only [List.cons.injEq, and_true] at h
    obtain ⟨rfl, rfl⟩ := h
    simp only [List.reverse_nil, List.nil_append] at hk
    subst hk
    refine ⟨?_, hsep⟩
    apply String.ext
    simp only [String.data_append]
    rw [show e.data = e.toList from rfl, hcs]
    simp

end strings

namespace process

/-- The only error of `newEnvLoop` is `malformed`. -/
theorem newEnvLoop_error (l : List String) (env : Env) (msg : String)
    (h : newEnvLoop l env = .error msg) : msg = malformed := by
  induction l generalizing env with
  | nil => simp [newEnvLoop] at h
  | cons kv rest ih =>
    unfold newEnvLoop at h
    split at h
    · split at h
      · simpa using h.symm
      · exact ih _ h
    · simpa using h.symm

/-- When `newEnvLoop` succeeds, every entry is well formed. -/
theorem newEnvLoop_ok_wellFormed (l : List String) (env r : Env)
    (h : newEnvLoop l env = .ok r) : ∀ e ∈ l, wellFormed e := by
  induction l generalizing env with
  | nil => simp
  | cons kv rest ih =>
    unfold newEnvLoop at h
    split at h
    · rename_i key value hsplit
      split at h
      · simp at h
      · rename_i hkey
        intro e he
        rcases List.mem_cons.mp he with rfl | he
        · obtain ⟨heq, hsep⟩ := strings.SplitN2_pair _ _ _ hsplit
          exact ⟨key, value, hkey, hsep, heq⟩
        · exact ih _ h e he
    · simp at h

/-- An entry that is not well formed makes `NewEnv` fail with `malformed`. -/
theorem NewEnv_malformed (l : List String) (h : ∃ e ∈ l, ¬ wellFormed e) :
    NewEnv l = .error malformed := by
  cases hr : NewEnv l with
  | ok r =>
    obtain ⟨e, he, hne⟩ := h
    exact absurd (newEnvLoop_ok_wellFormed l [] r hr e he) hne
  | error msg => rw [newEnvLoop_error l [] msg hr]

end process

namespace process

/-- An entry without `=` is not well formed. -/
theorem not_wellFormed_of_no_eq (e : String) (h : '=' ∉ e.toList) : ¬ wellFormed e := by
  rintro ⟨key, value, _, _, heq⟩
  apply h
  rw [heq]
  show '=' ∈ (key ++ "=" ++ value).data
  simp [String.data_append]

end process

namespace linux_container

/-- C11: for every process spec whose `Env` has an entry that is not
`KEY=VALUE` with a non-empty key, `Run` returns an error whose message starts
with `process: malformed environment`, starts no process and leaves the
container handle as it was, whether the spec has a user or not. -/
theorem Run_malformed_env (c : LinuxContainer) (tracker : TrackerCall → Option String)
    (spec : ProcessSpec) (h : ∃ e ∈ spec.Env, ¬ process.wellFormed e) :
    (∃ msg, (Run c tracker spec).result = .error msg ∧
      "process: malformed environment".toList <+: msg.toList) ∧
    (Run c tracker spec).started = [] ∧
    (Run c tracker spec).container = c := by
  have herr := process.NewEnv_malformed spec.Env h
  have hrun : Run c tracker spec = ⟨.error process.malformed, c, []⟩ := by
    simp only [Run, herr]
  rw [hrun]
  exact ⟨⟨_, rfl, List.prefix_refl _⟩, rfl, rfl⟩

/-- Witness of `Run_malformed_env`: the entry `a`, with the user `alice` and
without a user. -/
theorem Run_malformed_env_witness :
    ((∃ msg, (Run sampleContainer okTracker malformedSpec).result = .error msg ∧
        "process: malformed environment".toList <+: msg.toList) ∧
      (Run sampleContainer okTracker malformedSpec).started = [] ∧
      (Run sampleContainer okTracker malformedSpec).container = sampleContainer) ∧
    ((∃ msg, (Run sampleContainer okTracker noUserSpec).result = .error msg ∧
        "process: malformed environment".toList <+: msg.toList) ∧
      (Run sampleContainer okTracker noUserSpec).started = [] ∧
      (Run sampleContainer okTracker noUserSpec).container = sampleContainer) ∧
    (Run sampleContainer okTracker noUserSpec).result
      = .error "process: malformed environment" :=
  ⟨Run_malformed_env sampleContainer okTracker malformedSpec
      ⟨"a", by decide, process.not_wellFormed_of_no_eq "a" (by decide)⟩,
    Run_malformed_env sampleContainer okTracker noUserSpec
      ⟨"a", by decide, process.not_wellFormed_of_no_eq "a" (by decide)⟩,
    by rfl⟩

end linux_container

namespace process

/-- The keys after setting a key: unchanged when it was there, with the key
added at the end otherwise. -/
theorem Env.set_keys (env : Env) (key value : String) :
    (env.set key value).map Prod.fst =
      if key ∈ env.map Prod.fst then env.map Prod.fst else env.map Prod.fst ++ [key] := by
  induction env with
  | nil => simp [Env.set]
  | cons p rest ih =>
    obtain ⟨k, v⟩ := p
    unfold Env.set
    by_cases hk : k = key
    · simp [hk]
    · have hk' : ¬ key = k := fun h => hk h.symm
      simp only [hk, if_false, List.map_cons, ih, List.mem_cons, hk', false_or]
      split <;> simp

/-- Setting a key keeps the keys distinct. -/
theorem Env.set_nodup (env : Env) (key value : String) (h : (env.map Prod.fst).Nodup) :
    ((env.set key value).map Prod.fst).Nodup := by
  rw [Env.set_keys]
  split
  · exact h
  · rename_i hk
    rw [List.nodup_append]
    exact ⟨h, by simp, by simpa using hk⟩

/-- After setting a key, it and the keys already there are keys. -/
theorem Env.set_key_mem (env : Env) (key value k : String)
    (h : k ∈ env.map Prod.fst ∨ k = key) : k ∈ (env.set key value).map Prod.fst := by
  rw [Env.set_keys]
  split
  · rename_i hk
    rcases h with h | rfl
    · exact h
    · exact hk
  · rcases h with h | rfl <;> simp [*]

/-- An entry present after setting a key was there or is the one set. -/
theorem Env.mem_set (env : Env) (key value : String) (p : String × String)
    (h : p ∈ env.set key value) : p ∈ env ∨ p = (key, value) := by
  induction env with
  | nil => simpa [Env.set] using h
  | cons q rest ih =>
    obtain ⟨k, v⟩ := q
    unfold Env.set at h
    split at h
    · rename_i hk
      rcases List.mem_cons.mp h with h | h
      · right; rw [h, hk]
      · left; exact List.mem_cons_of_mem _ h
    · rcases List.mem_cons.mp h with h | h
      · left; rw [h]; exact List.mem_cons_self _ _
      · rcases ih h with h | h
        · left; exact List.mem_cons_of_mem _ h
        · right; exact h

/-- What `newEnvLoop` builds: distinct keys stay distinct, every entry built comes
from the start or from the list, keys are kept, every entry of the list has
its key in the result. -/
theorem newEnvLoop_spec (l : List String) (env r : Env) (h : newEnvLoop l env = .ok r) :
    ((env.map Prod.fst).Nodup → (r.map Prod.fst).Nodup) ∧
    (∀ p ∈ r, p ∈ env ∨ p.1 ++ "=" ++ p.2 ∈ l) ∧
    (∀ k ∈ env.map Prod.fst, k ∈ r.map Prod.fst) ∧
    (∀ e ∈ l, ∃ k v, e = k ++ "=" ++ v ∧ k ∈ r.map Prod.fst) := by
  induction l generalizing env with
  | nil =>
    simp only [newEnvLoop, Except.ok.injEq] at h
    subst h
    simp
  | cons kv rest ih =>
    unfold newEnvLoop at h
    split at h
    · rename_i key value hsplit
      split at h
      · simp at h
      · obtain ⟨h1, h2, h3, h4⟩ := ih _ h
        obtain ⟨heq, -⟩ := strings.SplitN2_pair _ _ _ hsplit
        refine ⟨fun hn => h1 (Env.set_nodup env key value hn), ?_, ?_, ?_⟩
        · intro p hp
          rcases h2 p hp with hp | hp
          · rcases Env.mem_set env key value p hp with hp | hp
            · exact Or.inl hp
            · right; rw [hp]; simp [heq]
          · right; exact List.mem_cons_of_mem _ hp
        · intro k hk
          exact h3 k (Env.set_key_mem env key value k (Or.inl hk))
        · intro e he
          rcases List.mem_cons.mp he with rfl | he
          · exact ⟨key, value, heq, h3 key (Env.set_key_mem env key value key (Or.inr rfl))⟩
          · exact h4 e he
    · simp at h

/-- What `NewEnv` builds: distinct keys, each entry from the list, each key of the
list present. -/
theorem NewEnv_spec (l : List String) (r : Env) (h : NewEnv l = .ok r) :
    (r.map Prod.fst).Nodup ∧
    (∀ k v, (k, v) ∈ r → k ++ "=" ++ v ∈ l) ∧
    (∀ e ∈ l, ∃ k v, e = k ++ "=" ++ v ∧ k ∈ r.map Prod.fst) := by
  obtain ⟨h1, h2, -, h4⟩ := newEnvLoop_spec l [] r h
  refine ⟨h1 (by simp), ?_, h4⟩
  intro k v hkv
  rcases h2 (k, v) hkv with h | h
  · simp at h
  · exact h

/-- The merge of two environments: the first, then the entries of the second
whose key the first does not define. -/
theorem Merge_eq (env other : Env) :
    env.Merge other = env ++ other.filter (fun kv => decide (kv.1 ∉ env.map Prod.fst)) := by
  unfold Env.Merge
  congr 1
  apply List.filter_congr
  intro kv _
  have : (env.any fun e => decide (e.1 = kv.1)) = decide (kv.1 ∈ env.map Prod.fst) := by
    rw [Bool.eq_iff_iff]
    simp only [List.any_eq_true, decide_eq_true_eq, List.mem_map]
  simp [this]

/-- The keys of a merge of two environments with distinct keys are distinct. -/
theorem Merge_nodup (env other : Env) (h1 : (env.map Prod.fst).Nodup)
    (h2 : (other.map Prod.fst).Nodup) : ((env.Merge other).map Prod.fst).Nodup := by
  rw [Merge_eq, List.map_append, List.nodup_append]
  refine ⟨h1, ?_, ?_⟩
  · exact (List.Nodup.sublist ((List.filter_sublist _).map Prod.fst) h2)
  · intro k hk hk'
    simp only [List.mem_map, List.mem_filter] at hk'
    obtain ⟨p, ⟨_, hp⟩, rfl⟩ := hk'
    simp at hp
    simp only [List.mem_map] at hk
    obtain ⟨q, hq, hq'⟩ := hk
    exact hp q.2 (by rw [← hq']; exact hq)

end process

namespace linux_container

/-- The call of the process tracker `Run` makes: both environments are well
formed, the id is the next one, and the arguments are the socket, the user,
the `--env` flags of the merged environment, `--dir`, `--pidfile`, the path
and the arguments of the process. -/
theorem Run_started (c : LinuxContainer) (tracker : TrackerCall → Option String)
    (spec : ProcessSpec) (call : TrackerCall) (h : call ∈ (Run c tracker spec).started) :
    ∃ specEnv containerEnv : process.Env,
      process.NewEnv spec.Env = .ok specEnv ∧ process.NewEnv c.Env = .ok containerEnv ∧
      call.processID = toString (c.lastProcessID + 1) ∧
      call.cmd.Args =
        [c.ContainerPath ++ "/bin/wsh", "--socket", c.ContainerPath ++ "/run/wshd.sock",
          "--readSignals", "--user", spec.User]
        ++ (specEnv.Merge containerEnv).Array.flatMap (fun envVar => ["--env", envVar])
        ++ (if spec.Dir ≠ "" then ["--dir", spec.Dir] else [])
        ++ (if c.Version.isNone then
              ["--pidfile", c.ContainerPath ++ "/processes/"
                ++ toString (c.lastProcessID + 1) ++ ".pid"]
            else [])
        ++ [spec.Path] ++ spec.Args := by
  unfold Run at h
  split at h
  · simp at h
  · rename_i specEnv hs
    split at h
    · simp at h
    · split at h
      · simp at h
      · rename_i containerEnv hc
        refine ⟨specEnv, containerEnv, hs, hc, ?_⟩
        simp only [] at h
        split at h <;>
          (simp only [List.mem_singleton] at h
           subst h
           refine ⟨rfl, ?_⟩
           by_cases hd : spec.Dir = "" <;> cases hv : c.Version <;>
             simp [exec.Command, hd, hv])

end linux_container

namespace strconv

/-- The digit character of `k < 10` denotes `k`. -/
theorem digitChar_value (k : Nat) (h : k < 10) : (Nat.digitChar k).toNat - 48 = k := by
  interval_cases k <;> rfl

/-- The digits are put in front of the accumulator. -/
theorem toDigitsCore_append (f n : Nat) (ds : List Char) :
    Nat.toDigitsCore 10 f n ds = Nat.toDigitsCore 10 f n [] ++ ds := by
  induction f generalizing n ds with
  | zero => simp [Nat.toDigitsCore]
  | succ f ih =>
    simp only [Nat.toDigitsCore]
    split
    · simp
    · rw [ih (n / 10) (Nat.digitChar (n % 10) :: ds), ih (n / 10) [Nat.digitChar (n % 10)]]
      simp

/-- With enough fuel the digits produced for `n` denote `n`. -/
theorem decimalValue_toDigitsCore (f n : Nat) (h : n < f) :
    decimalValue (Nat.toDigitsCore 10 f n []) = n := by
  induction f generalizing n with
  | zero => omega
  | succ f ih =>
    simp only [Nat.toDigitsCore]
    split
    · rename_i h0
      simp only [decimalValue, List.foldl_cons, List.foldl_nil, Nat.zero_mul, Nat.zero_add]
      rw [digitChar_value _ (Nat.mod_lt _ (by norm_num))]
      omega
    · rename_i h0
      rw [toDigitsCore_append]
      have hlt : n / 10 < f := by omega
      have := ih (n / 10) hlt
      simp only [decimalValue] at this ⊢
      rw [List.foldl_append, this]
      simp only [List.foldl_cons, List.foldl_nil]
      rw [digitChar_value _ (Nat.mod_lt _ (by norm_num))]
      omega

/-- The decimal text of `n` denotes `n`. -/
theorem decimalValue_toString (n : Nat) : decimalValue (toString n).toList = n := by
  show decimalValue (Nat.toDigits 10 n) = n
  exact decimalValue_toDigitsCore (n + 1) n (Nat.lt_succ_self n)

/-- Different numbers have different decimal texts. -/
theorem toString_injective : Function.Injective (fun n : Nat => toString n) := by
  intro a b h
  have := congrArg (fun s => decimalValue s.toList) h
  simp only [decimalValue_toString] at this
  exact this

end strconv

namespace linux_container

/-- C12: for every `Run` that starts a process, the `--env` flags of the wsh
command, which follow `--user <u>`, list the variables of the process spec
first and then those of the container whose key the process spec does not
define; the keys of the flags are distinct, so each key has exactly one flag,
and a key defined by both is passed with the value of the process spec. Each
variable listed comes from an entry of its list, and each entry of either
list has its key among the keys of the flags. -/
theorem Run_env_flags (c : LinuxContainer) (tracker : TrackerCall → Option String)
    (spec : ProcessSpec) (call : TrackerCall) (h : call ∈ (Run c tracker spec).started) :
    ∃ specEnv containerEnv : process.Env,
      process.NewEnv spec.Env = .ok specEnv ∧ process.NewEnv c.Env = .ok containerEnv ∧
      call.cmd.Args =
        [c.ContainerPath ++ "/bin/wsh", "--socket", c.ContainerPath ++ "/run/wshd.sock",
          "--readSignals", "--user", spec.User]
        ++ (specEnv ++ containerEnv.filter (fun kv => decide (kv.1 ∉ specEnv.map Prod.fst))).flatMap
            (fun kv => ["--env", kv.1 ++ "=" ++ kv.2])
        ++ (if spec.Dir ≠ "" then ["--dir", spec.Dir] else [])
        ++ (if c.Version.isNone then
              ["--pidfile", c.ContainerPath ++ "/processes/"
                ++ toString (c.lastProcessID + 1) ++ ".pid"]
            else [])
        ++ [spec.Path] ++ spec.Args ∧
      ((specEnv ++ containerEnv.filter
        (fun kv => decide (kv.1 ∉ specEnv.map Prod.fst))).map Prod.fst).Nodup ∧
      (∀ k v, (k, v) ∈ specEnv → k ++ "=" ++ v ∈ spec.Env) ∧
      (∀ e ∈ spec.Env, ∃ k v, e = k ++ "=" ++ v ∧ k ∈ specEnv.map Prod.fst) ∧
      (∀ k v, (k, v) ∈ containerEnv → k ++ "=" ++ v ∈ c.Env) ∧
      (∀ e ∈ c.Env, ∃ k v, e = k ++ "=" ++ v ∧ k ∈ containerEnv.map Prod.fst) ∧
      (∀ e ∈ spec.Env ++ c.Env, ∃ k v, e = k ++ "=" ++ v ∧
        k ∈ (specEnv ++ containerEnv.filter
          (fun kv => decide (kv.1 ∉ specEnv.map Prod.fst))).map Prod.fst) := by
  obtain ⟨specEnv, containerEnv, hs, hc, -, hargs⟩ := Run_started c tracker spec call h
  obtain ⟨n1, m1, e1⟩ := process.NewEnv_spec _ _ hs
  obtain ⟨n2, m2, e2⟩ := process.NewEnv_spec _ _ hc
  refine ⟨specEnv, containerEnv, hs, hc, ?_, ?_, m1, e1, m2, e2, ?_⟩
  · rw [hargs, process.Merge_eq, process.Env.Array, List.flatMap_map]
  · rw [← process.Merge_eq]
    exact process.Merge_nodup _ _ n1 n2
  · intro e he
    rw [List.map_append]
    rcases List.mem_append.mp he with he | he
    · obtain ⟨k, v, hkv, hk⟩ := e1 e he
      exact ⟨k, v, hkv, List.mem_append_left _ hk⟩
    · obtain ⟨k, v, hkv, hk⟩ := e2 e he
      refine ⟨k, v, hkv, ?_⟩
      by_cases hspec : k ∈ specEnv.map Prod.fst
      · exact List.mem_append_left _ hspec
      · apply List.mem_append_right
        obtain ⟨q, hq, hq'⟩ := List.mem_map.mp hk
        exact List.mem_map.mpr ⟨q, List.mem_filter.mpr ⟨hq, by simpa [hq'] using hspec⟩, hq'⟩

/-- Witness of `Run_env_flags`: the run that overrides `env1` of the container. -/
theorem Run_env_flags_witness :
    ∃ specEnv containerEnv : process.Env,
      process.NewEnv overrideSpec.Env = .ok specEnv ∧
      process.NewEnv sampleContainer.Env = .ok containerEnv ∧
      overrideCall.cmd.Args =
        [sampleContainer.ContainerPath ++ "/bin/wsh", "--socket",
          sampleContainer.ContainerPath ++ "/run/wshd.sock",
          "--readSignals", "--user", overrideSpec.User]
        ++ (specEnv ++ containerEnv.filter (fun kv => decide (kv.1 ∉ specEnv.map Prod.fst))).flatMap
            (fun kv => ["--env", kv.1 ++ "=" ++ kv.2])
        ++ (if overrideSpec.Dir ≠ "" then ["--dir", overrideSpec.Dir] else [])
        ++ (if sampleContainer.Version.isNone then
              ["--pidfile", sampleContainer.ContainerPath ++ "/processes/"
                ++ toString (sampleContainer.lastProcessID + 1) ++ ".pid"]
            else [])
        ++ [overrideSpec.Path] ++ overrideSpec.Args ∧
      ((specEnv ++ containerEnv.filter
        (fun kv => decide (kv.1 ∉ specEnv.map Prod.fst))).map Prod.fst).Nodup ∧
      (∀ k v, (k, v) ∈ specEnv → k ++ "=" ++ v ∈ overrideSpec.Env) ∧
      (∀ e ∈ overrideSpec.Env, ∃ k v, e = k ++ "=" ++ v ∧ k ∈ specEnv.map Prod.fst) ∧
      (∀ k v, (k, v) ∈ containerEnv → k ++ "=" ++ v ∈ sampleContainer.Env) ∧
      (∀ e ∈ sampleContainer.Env, ∃ k v, e = k ++ "=" ++ v ∧ k ∈ containerEnv.map Prod.fst) ∧
      (∀ e ∈ overrideSpec.Env ++ sampleContainer.Env, ∃ k v, e = k ++ "=" ++ v ∧
        k ∈ (specEnv ++ containerEnv.filter
          (fun kv => decide (kv.1 ∉ specEnv.map Prod.fst))).map Prod.fst) :=
  Run_env_flags sampleContainer okTracker overrideSpec overrideCall (by decide)

/-- A successful `Run` returns the decimal text of the last id plus one, and
records that number as the last id. -/
theorem Run_result_ok (c : LinuxContainer) (tracker : TrackerCall → Option String)
    (spec : ProcessSpec) (id : String) (h : (Run c tracker spec).result = .ok id) :
    id = toString (c.lastProcessID + 1) ∧
    (Run c tracker spec).container.lastProcessID = c.lastProcessID + 1 := by
  cases hs : process.NewEnv spec.Env with
  | error e => simp [Run, hs] at h
  | ok specEnv =>
    by_cases hu : spec.User = ""
    · simp [Run, hs, hu] at h
    · cases hc : process.NewEnv c.Env with
      | error e => simp [Run, hu, hs, hc] at h
      | ok containerEnv =>
        simp only [Run, hu, hs, hc, if_false] at h ⊢
        split at h
        · simp at h
        · rename_i ht
          simp only [Except.ok.injEq] at h
          simp only [ht]
          exact ⟨h.symm, trivial⟩

/-- A call of `Run` never lowers the last id. -/
theorem Run_lastProcessID_le (c : LinuxContainer) (tracker : TrackerCall → Option String)
    (spec : ProcessSpec) : c.lastProcessID ≤ (Run c tracker spec).container.lastProcessID := by
  cases hs : process.NewEnv spec.Env with
  | error e => simp [Run, hs]
  | ok specEnv =>
    by_cases hu : spec.User = ""
    · simp [Run, hs, hu]
    · cases hc : process.NewEnv c.Env with
      | error e => simp [Run, hu, hs, hc]
      | ok containerEnv =>
        simp only [Run, hu, hs, hc, if_false]
        split <;> exact Nat.le_succ _

/-- The numbers handed out by successive runs increase strictly and lie above
the last id of the container before them. -/
theorem runAll_numbers (c : LinuxContainer)
    (calls : List ((TrackerCall → Option String) × ProcessSpec)) :
    ((runAll c calls).filterMap RunOutcome.processNumber).Pairwise (· < ·) ∧
    ∀ n ∈ (runAll c calls).filterMap RunOutcome.processNumber, c.lastProcessID < n := by
  induction calls generalizing c with
  | nil => simp [runAll]
  | cons call rest ih =>
    obtain ⟨tracker, spec⟩ := call
    obtain ⟨ih1, ih2⟩ := ih (Run c tracker spec).container
    have hle := Run_lastProcessID_le c tracker spec
    simp only [runAll]
    cases hr : (Run c tracker spec).result with
    | error e =>
      have hn : (Run c tracker spec).processNumber = none := by
        simp [RunOutcome.processNumber, hr]
      rw [List.filterMap_cons_none hn]
      exact ⟨ih1, fun n hn' => Nat.lt_of_le_of_lt hle (ih2 n hn')⟩
    | ok id =>
      have hn : (Run c tracker spec).processNumber
          = some (Run c tracker spec).container.lastProcessID := by
        simp [RunOutcome.processNumber, hr]
      rw [List.filterMap_cons_some hn]
      have hid := (Run_result_ok c tracker spec id hr).2
      refine ⟨List.pairwise_cons.mpr ⟨fun m hm => ih2 m hm, ih1⟩, ?_⟩
      intro n hn'
      rcases List.mem_cons.mp hn' with rfl | hn'
      · omega
      · exact Nat.lt_of_le_of_lt hle (ih2 n hn')

/-- The ids returned by successive runs are the decimal texts of the numbers
handed out. -/
theorem runAll_ids (c : LinuxContainer)
    (calls : List ((TrackerCall → Option String) × ProcessSpec)) :
    (runAll c calls).filterMap RunOutcome.processID
      = ((runAll c calls).filterMap RunOutcome.processNumber).map (fun n => toString n) := by
  induction calls generalizing c with
  | nil => simp [runAll]
  | cons call rest ih =>
    obtain ⟨tracker, spec⟩ := call
    simp only [runAll]
    cases hr : (Run c tracker spec).result with
    | error e =>
      rw [List.filterMap_cons_none (by simp [RunOutcome.processID, hr]),
        List.filterMap_cons_none (by simp [RunOutcome.processNumber, hr])]
      exact ih _
    | ok id =>
      obtain ⟨h1, h2⟩ := Run_result_ok c tracker spec id hr
      rw [List.filterMap_cons_some (show (Run c tracker spec).processID = some id by
          simp [RunOutcome.processID, hr]),
        List.filterMap_cons_some (show (Run c tracker spec).processNumber
          = some (Run c tracker spec).container.lastProcessID by
          simp [RunOutcome.processNumber, hr])]
      rw [List.map_cons, ih, h2, h1]

/-- C13: within one container, the numbers of the process ids of successive
successful calls of `Run` increase strictly and lie above the last id handed
out before; the ids returned are their decimal texts, so no two runs share an
id; and the first `Run` on a newly constructed handle, when it succeeds, has
the id 1. -/
theorem Run_process_ids_increase (c : LinuxContainer)
    (calls : List ((TrackerCall → Option String) × ProcessSpec)) :
    ((runAll c calls).filterMap RunOutcome.processNumber).Pairwise (· < ·) ∧
    (∀ n ∈ (runAll c calls).filterMap RunOutcome.processNumber, c.lastProcessID < n) ∧
    (runAll c calls).filterMap RunOutcome.processID
      = ((runAll c calls).filterMap RunOutcome.processNumber).map (fun n => toString n) ∧
    ((runAll c calls).filterMap RunOutcome.processID).Nodup ∧
    (∀ containerPath env version tracker spec id,
      (Run (NewLinuxContainer containerPath env version) tracker spec).result = .ok id →
      id = "1") := by
  obtain ⟨h1, h2⟩ := runAll_numbers c calls
  refine ⟨h1, h2, runAll_ids c calls, ?_, ?_⟩
  · rw [runAll_ids]
    exact List.Nodup.map strconv.toString_injective
      (h1.imp (fun h => Nat.ne_of_lt h))
  · intro containerPath env version tracker spec id hr
    rw [(Run_result_ok _ tracker spec id hr).1]
    show toString (0 + 1) = "1"
    decide

/-- Witness of `Run_process_ids_increase`: two runs on a new handle get the ids
1 and 2. -/
theorem Run_process_ids_increase_witness :
    (runAll (NewLinuxContainer "/depot/some-id" [] none)
        [(okTracker, sampleSpec), (okTracker, sampleSpec)]).filterMap RunOutcome.processID
      = ["1", "2"] ∧
    ((runAll (NewLinuxContainer "/depot/some-id" [] none)
        [(okTracker, sampleSpec), (okTracker, sampleSpec)]).filterMap
          RunOutcome.processNumber).Pairwise (· < ·) ∧
    "1" = "1" :=
  have h := Run_process_ids_increase (NewLinuxContainer "/depot/some-id" [] none)
    [(okTracker, sampleSpec), (okTracker, sampleSpec)]
  ⟨by decide, h.1,
    h.2.2.2.2 "/depot/some-id" [] none okTracker sampleSpec "1" (by rfl)⟩

end linux_container

/-! ## Theorems: the process reaper -/

namespace system

/-- Looking a key up after the entries of another key are filtered out. -/
theorem lookup_filter_ne (l : List (Nat × Waiter)) (pid q : Nat) :
    (l.filter (fun e => decide (e.1 ≠ pid))).lookup q
      = if q = pid then none else l.lookup q := by
  induction l with
  | nil => simp
  | cons e l ih =>
    obtain ⟨p, w⟩ := e
    by_cases hp : p = pid
    · have hf : List.filter (fun e => decide (e.1 ≠ pid)) ((p, w) :: l)
          = List.filter (fun e => decide (e.1 ≠ pid)) l := by
        rw [List.filter_cons]; simp [hp]
      rw [hf, ih]
      by_cases hq : q = pid
      · simp [hq]
      · have hb : (q == p) = false := by rw [hp]; simpa using hq
        simp [hq, List.lookup_cons, hb]
    · have hf : List.filter (fun e => decide (e.1 ≠ pid)) ((p, w) :: l)
          = (p, w) :: List.filter (fun e => decide (e.1 ≠ pid)) l := by
        rw [List.filter_cons]; simp [hp]
      rw [hf, List.lookup_cons, List.lookup_cons, ih]
      by_cases hq : q = p
      · subst hq; simp [hp]
      · have hb : (q == p) = false := by simpa using hq
        simp [hb]

/-- After un-monitoring a pid it has no waiter, and the other pids keep
theirs. -/
theorem unmonitor_waiter (r : ProcessReaper) (pid q : Nat) :
    (r.unmonitor pid).waiter q = if q = pid then none else r.waiter q :=
  lookup_filter_ne r.waiters pid q

/-- The number of calls of `wait4` for one signal: one per child reaped, and
the one that stops the loop. -/
theorem reap_calls (answers : List Wait4Result) (r : ProcessReaper) :
    (reap answers r).calls = (reapedBeforeStop answers).length + 1 := by
  induction answers generalizing r with
  | nil => rfl
  | cons a answers ih =>
    cases a with
    | zero => rfl
    | noChild => rfl
    | reaped pid status =>
      simp only [reap, reapedBeforeStop]
      split <;> simp [ih]

/-- The answers left for the next signal are those after the calls made. -/
theorem reap_pending (answers : List Wait4Result) (r : ProcessReaper) :
    (reap answers r).pending = answers.drop (reap answers r).calls := by
  induction answers generalizing r with
  | nil => rfl
  | cons a answers ih =>
    cases a with
    | zero => simp [reap]
    | noChild => simp [reap]
    | reaped pid status =>
      simp only [reap]
      split <;> simp [ih]

/-- The map after one signal: the pids reaped have no waiter, the others keep
theirs. -/
theorem reap_waiter (answers : List Wait4Result) (r : ProcessReaper) (q : Nat) :
    (reap answers r).reaper.waiter q =
      if q ∈ (reapedBeforeStop answers).map Prod.fst then none else r.waiter q := by
  induction answers generalizing r with
  | nil => simp [reap, reapedBeforeStop]
  | cons a answers ih =>
    cases a with
    | zero => simp [reap, reapedBeforeStop]
    | noChild => simp [reap, reapedBeforeStop]
    | reaped pid status =>
      simp only [reap, reapedBeforeStop, List.map_cons, List.mem_cons]
      split
      · rw [ih, unmonitor_waiter]
        by_cases hq : q = pid
        · simp [hq]
        · by_cases hm : q ∈ (reapedBeforeStop answers).map Prod.fst
          · simp [hq, hm]
          · simp [hq, hm]
      · rename_i hnone
        rw [ih]
        by_cases hq : q = pid
        · subst hq; simp [hnone]
        · by_cases hm : q ∈ (reapedBeforeStop answers).map Prod.fst
          · simp [hq, hm]
          · simp [hq, hm]

/-- Every status delivered goes to the waiter registered for a pid that was
reaped with that status. -/
theorem reap_delivered (answers : List Wait4Result) (r : ProcessReaper) :
    ∀ d ∈ (reap answers r).delivered,
      ∃ pid, r.waiter pid = some d.1 ∧ (pid, d.2) ∈ reapedBeforeStop answers := by
  induction answers generalizing r with
  | nil => simp [reap]
  | cons a answers ih =>
    cases a with
    | zero => simp [reap]
    | noChild => simp [reap]
    | reaped pid status =>
      intro d hd
      simp only [reap] at hd
      split at hd
      · rename_i w hw
        rcases List.mem_cons.mp hd with rfl | hd
        · exact ⟨pid, hw, by simp [reapedBeforeStop]⟩
        · obtain ⟨p, hp, hmem⟩ := ih _ d hd
          rw [unmonitor_waiter] at hp
          split at hp
          · simp at hp
          · exact ⟨p, hp, by simp [reapedBeforeStop, hmem]⟩
      · obtain ⟨p, hp, hmem⟩ := ih _ d hd
        exact ⟨p, hp, by simp [reapedBeforeStop, hmem]⟩

/-- C16: in the signal loop of the reaper, for a reaped `(pid, status)`: when
the pid has a registered waiter, that waiter receives the status and the
entry of the pid is removed from the map (the other entries stay), and the
loop goes on; when it has none, the map is left as it is, nothing is
delivered, and the loop goes on; and when `wait4` returns 0 the loop stops:
no further call of `wait4` is made for this signal. Over the whole loop,
`wait4` is called once per child reaped and once more, the pids reaped have
no waiter afterwards and the others keep theirs, and every status delivered
goes to the waiter of a pid reaped with that status. -/
theorem reap_signal_loop (r : ProcessReaper) (answers : List Wait4Result) :
    (∀ pid status w, r.waiter pid = some w →
      (reap (.reaped pid status :: answers) r).delivered
        = (w, status) :: (reap answers (r.unmonitor pid)).delivered ∧
      (reap (.reaped pid status :: answers) r).reaper
        = (reap answers (r.unmonitor pid)).reaper ∧
      (reap (.reaped pid status :: answers) r).calls
        = (reap answers (r.unmonitor pid)).calls + 1 ∧
      (r.unmonitor pid).waiter pid = none ∧
      ∀ q, q ≠ pid → (r.unmonitor pid).waiter q = r.waiter q) ∧
    (∀ pid status, r.waiter pid = none →
      (reap (.reaped pid status :: answers) r).delivered = (reap answers r).delivered ∧
      (reap (.reaped pid status :: answers) r).reaper = (reap answers r).reaper ∧
      (reap (.reaped pid status :: answers) r).calls = (reap answers r).calls + 1) ∧
    reap (.zero :: answers) r = ⟨r, [], 1, answers⟩ ∧
    (reap answers r).calls = (reapedBeforeStop answers).length + 1 ∧
    (reap answers r).pending = answers.drop (reap answers r).calls ∧
    (∀ q, (reap answers r).reaper.waiter q =
      if q ∈ (reapedBeforeStop answers).map Prod.fst then none else r.waiter q) ∧
    (∀ d ∈ (reap answers r).delivered,
      ∃ pid, r.waiter pid = some d.1 ∧ (pid, d.2) ∈ reapedBeforeStop answers) := by
  refine ⟨?_, ?_, rfl, reap_calls answers r, reap_pending answers r,
    reap_waiter answers r, reap_delivered answers r⟩
  · intro pid status w hw
    refine ⟨by simp [reap, hw], by simp [reap, hw], by simp [reap, hw], ?_, ?_⟩
    · simp [unmonitor_waiter]
    · intro q hq
      simp [unmonitor_waiter, hq]
  · intro pid status hw
    exact ⟨by simp [reap, hw], by simp [reap, hw], by simp [reap, hw]⟩

/-- Witness of `reap_signal_loop`: the tracked pid 42 exits with status 3, and
the untracked pid 99 is reaped after it. -/
theorem reap_signal_loop_witness :
    ((reap (.reaped 42 3 :: [.reaped 99 0, .zero]) sampleReaper).delivered
        = (⟨7⟩, 3) :: (reap [.reaped 99 0, .zero] (sampleReaper.unmonitor 42)).delivered ∧
      (reap (.reaped 42 3 :: [.reaped 99 0, .zero]) sampleReaper).reaper
        = (reap [.reaped 99 0, .zero] (sampleReaper.unmonitor 42)).reaper ∧
      (reap (.reaped 42 3 :: [.reaped 99 0, .zero]) sampleReaper).calls
        = (reap [.reaped 99 0, .zero] (sampleReaper.unmonitor 42)).calls + 1 ∧
      (sampleReaper.unmonitor 42).waiter 42 = none ∧
      ∀ q, q ≠ 42 → (sampleReaper.unmonitor 42).waiter q = sampleReaper.waiter q) ∧
    ((reap (.reaped 99 0 :: [.zero]) sampleReaper).delivered = (reap [.zero] sampleReaper).delivered ∧
      (reap (.reaped 99 0 :: [.zero]) sampleReaper).reaper = (reap [.zero] sampleReaper).reaper ∧
      (reap (.reaped 99 0 :: [.zero]) sampleReaper).calls = (reap [.zero] sampleReaper).calls + 1) ∧
    reap [.reaped 42 3, .reaped 99 0, .zero] sampleReaper = ⟨⟨[]⟩, [(⟨7⟩, 3)], 3, []⟩ :=
  ⟨(reap_signal_loop sampleReaper [.reaped 99 0, .zero]).1 42 3 ⟨7⟩ (by decide),
    (reap_signal_loop sampleReaper [.zero]).2.1 99 0 (by decide),
    by decide⟩

/-- The model against the test `does not deadlock`: the first signal makes two
calls of `wait4` and delivers the status to the waiter of the pid; the second
makes three calls, finds the reused pid untracked twice and delivers
nothing. -/
theorem reap_test_reused_pid :
    reap reusedPidAnswers sampleReaper
      = ⟨⟨[]⟩, [(⟨7⟩, 0)], 2, [.reaped 42 0, .reaped 42 0, .zero]⟩ ∧
    reap (reap reusedPidAnswers sampleReaper).pending (reap reusedPidAnswers sampleReaper).reaper
      = ⟨⟨[]⟩, [], 3, []⟩ := by
  decide

end system

/-! ## Theorems: CIDR notation -/

namespace strconv

/-- The digit character of `k < 10` is a decimal digit. -/
theorem digitChar_isDigit (k : Nat) (h : k < 10) :
    '0' ≤ Nat.digitChar k ∧ Nat.digitChar k ≤ '9' := by
  interval_cases k <;> decide

/-- Every character produced for a number is a decimal digit, when those of
the accumulator are. -/
theorem toDigitsCore_isDigit (f n : Nat) (ds : List Char)
    (h : ∀ c ∈ ds, '0' ≤ c ∧ c ≤ '9') :
    ∀ c ∈ Nat.toDigitsCore 10 f n ds, '0' ≤ c ∧ c ≤ '9' := by
  induction f generalizing n ds with
  | zero => simpa [Nat.toDigitsCore] using h
  | succ f ih =>
    have hd := digitChar_isDigit (n % 10) (Nat.mod_lt _ (by norm_num))
    have hcons : ∀ c ∈ Nat.digitChar (n % 10) :: ds, '0' ≤ c ∧ c ≤ '9' := by
      intro c hc
      rcases List.mem_cons.mp hc with rfl | hc
      · exact hd
      · exact h c hc
    simp only [Nat.toDigitsCore]
    split
    · exact hcons
    · exact ih _ _ hcons

/-- The decimal text of a number consists of decimal digits. -/
theorem toString_isDigit (n : Nat) : ∀ c ∈ (toString n).toList, '0' ≤ c ∧ c ≤ '9' := by
  show ∀ c ∈ Nat.toDigits 10 n, '0' ≤ c ∧ c ≤ '9'
  exact toDigitsCore_isDigit (n + 1) n [] (by simp)

/-- The decimal text of a number is not empty. -/
theorem toString_ne_nil (n : Nat) : (toString n).toList ≠ [] := by
  show Nat.toDigitsCore 10 (n + 1) n [] ≠ []
  simp only [Nat.toDigitsCore]
  split
  · simp
  · rw [toDigitsCore_append]
    simp

end strconv

namespace strings

/-- Cutting at the first separator, when the text before it has none. -/
theorem cutAt_append (sep : Char) (k v acc : List Char) (h : sep ∉ k) :
    cutAt sep (k ++ sep :: v) acc = some (acc.reverse ++ k, v) := by
  induction k generalizing acc with
  | nil => simp [cutAt]
  | cons c k ih =>
    have hc : c ≠ sep := fun hc => h (by simp [hc])
    have hk : sep ∉ k := fun hk => h (List.mem_cons_of_mem _ hk)
    show cutAt sep (c :: (k ++ sep :: v)) acc = _
    simp only [cutAt, hc, if_false]
    rw [ih _ hk]
    simp

/-- There is nothing to cut at without a separator. -/
theorem cutAt_none (sep : Char) (k acc : List Char) (h : sep ∉ k) :
    cutAt sep k acc = none := by
  induction k generalizing acc with
  | nil => rfl
  | cons c k ih =>
    have hc : c ≠ sep := fun hc => h (by simp [hc])
    have hk : sep ∉ k := fun hk => h (List.mem_cons_of_mem _ hk)
    simp only [cutAt, hc, if_false]
    exact ih _ hk

end strings

namespace net

/-- The value read so far never decreases. -/
theorem le_foldl_digits (ds : List Char) (n : Nat) :
    n ≤ ds.foldl (fun acc c => acc * 10 + (c.toNat - 48)) n := by
  induction ds generalizing n with
  | nil => exact Nat.le_refl _
  | cons c ds ih =>
    simp only [List.foldl_cons]
    exact Nat.le_trans (by omega) (ih _)

/-- Go's `dtoi` loop over decimal digits followed by the end of the text or by
a character that is not a digit: the value of the digits, and the rest. -/
theorem dtoiLoop_digits (ds rest : List Char) (n i : Nat)
    (hd : ∀ c ∈ ds, '0' ≤ c ∧ c ≤ '9')
    (hv : ds.foldl (fun acc c => acc * 10 + (c.toNat - 48)) n < big)
    (hrest : ∀ c t, rest = c :: t → ¬ ('0' ≤ c ∧ c ≤ '9'))
    (hi : i + ds.length ≠ 0) :
    dtoiLoop (ds ++ rest) n i
      = some (ds.foldl (fun acc c => acc * 10 + (c.toNat - 48)) n, rest) := by
  induction ds generalizing n i with
  | nil =>
    have hi' : i ≠ 0 := by simpa using hi
    cases rest with
    | nil => simp [dtoiLoop, hi']
    | cons c t => simp [dtoiLoop, hrest c t rfl, hi']
  | cons c ds ih =>
    have hc := hd c (List.mem_cons_self _ _)
    have hds : ∀ c ∈ ds, '0' ≤ c ∧ c ≤ '9' := fun x hx => hd x (List.mem_cons_of_mem _ hx)
    simp only [List.foldl_cons] at hv
    have hlt : ¬ (n * 10 + (c.toNat - 48) ≥ big) :=
      Nat.not_le.mpr (Nat.lt_of_le_of_lt (le_foldl_digits ds _) hv)
    simp only [List.cons_append, dtoiLoop, hc, and_self, if_true, hlt, if_false,
      List.foldl_cons]
    exact ih _ _ hds hv (by simp)

/-- Go's `dtoi` on the decimal text of `k`, followed by the end of the text or
by a character that is not a digit. -/
theorem dtoi_toString (k : Nat) (rest : List Char) (hk : k < big)
    (hrest : ∀ c t, rest = c :: t → ¬ ('0' ≤ c ∧ c ≤ '9')) :
    dtoi ((toString k).toList ++ rest) = some (k, rest) := by
  have h := dtoiLoop_digits (toString k).toList rest 0 0 (strconv.toString_isDigit k)
    (by
      have := strconv.decimalValue_toString k
      unfold strconv.decimalValue at this
      rw [this]; exact hk)
    hrest
    (by
      have := strconv.toString_ne_nil k
      cases hl : (toString k).toList with
      | nil => exact absurd hl this
      | cons c t => simp)
  have hv := strconv.decimalValue_toString k
  unfold strconv.decimalValue at hv
  rw [hv] at h
  exact h

end net
namespace net

/-- A dot is not a decimal digit. -/
theorem dot_not_digit : ¬ ('0' ≤ '.' ∧ '.' ≤ '9') := by decide

/-- Reading the first octet of an address. -/
theorem parseOctets_first (k n : Nat) (rest : List Char) (hn : n ≤ 255)
    (hrest : ∀ c t, rest = c :: t → ¬ ('0' ≤ c ∧ c ≤ '9')) :
    parseOctets (k + 1) 0 ((toString n).toList ++ rest) =
      match parseOctets k 1 rest with
      | none => none
      | some octets => some (n :: octets) := by
  have hne : (toString n).toList ++ rest ≠ [] := by
    intro h
    exact strconv.toString_ne_nil n (List.append_eq_nil.mp h).1
  have hbig : n < big := Nat.lt_of_le_of_lt hn (by decide)
  have hgt : ¬ n > 255 := Nat.not_lt.mpr hn
  simp only [parseOctets, hne, if_false, Nat.lt_irrefl, dtoi_toString n rest hbig hrest, hgt]

/-- Reading a later octet of an address, after its dot. -/
theorem parseOctets_next (k i n : Nat) (rest : List Char) (hi : i > 0) (hn : n ≤ 255)
    (hrest : ∀ c t, rest = c :: t → ¬ ('0' ≤ c ∧ c ≤ '9')) :
    parseOctets (k + 1) i ('.' :: ((toString n).toList ++ rest)) =
      match parseOctets k (i + 1) rest with
      | none => none
      | some octets => some (n :: octets) := by
  have hbig : n < big := Nat.lt_of_le_of_lt hn (by decide)
  have hgt : ¬ n > 255 := Nat.not_lt.mpr hn
  simp only [parseOctets, List.cons_ne_nil, if_false, hi, if_true,
    dtoi_toString n rest hbig hrest, hgt]

/-- The characters of `a.b.c.d`. -/
theorem dotted_toList (a b c d : Nat) :
    (dotted a b c d).toList =
      (toString a).toList ++ '.' :: ((toString b).toList ++ '.' ::
        ((toString c).toList ++ '.' :: ((toString d).toList ++ []))) := by
  show (dotted a b c d).data = _
  simp only [dotted, String.data_append]
  simp [String.toList]

/-- Go's `parseIPv4` reads `a.b.c.d` as the address of these octets. -/
theorem parseIPv4_dotted (a b c d : Nat) (ha : a ≤ 255) (hb : b ≤ 255) (hc : c ≤ 255)
    (hd : d ≤ 255) : parseIPv4 (dotted a b c d).toList = some (IPv4 a b c d) := by
  have hdot : ∀ (r : List Char) (x : Char) (t : List Char),
      '.' :: r = x :: t → ¬ ('0' ≤ x ∧ x ≤ '9') := by
    intro r x t h
    have hx : x = '.' := by
      have := (List.cons.inj h).1
      exact this.symm
    rw [hx]; exact dot_not_digit
  have hnil : ∀ (x : Char) (t : List Char), ([] : List Char) = x :: t → ¬ ('0' ≤ x ∧ x ≤ '9') := by
    intro x t h; exact absurd h (by simp)
  unfold parseIPv4
  rw [dotted_toList, parseOctets_first 3 a _ ha (hdot _),
    parseOctets_next 2 1 b _ (by norm_num) hb (hdot _),
    parseOctets_next 1 2 c _ (by norm_num) hc (hdot _),
    parseOctets_next 0 3 d _ (by norm_num) hd hnil]
  simp [parseOctets]

/-- The text `a.b.c.d` has no slash. -/
theorem slash_not_mem_dotted (a b c d : Nat) : '/' ∉ (dotted a b c d).toList := by
  have hdigit : ∀ n : Nat, '/' ∉ (toString n).toList := by
    intro n h
    have := strconv.toString_isDigit n '/' h
    exact absurd this (by decide)
  rw [dotted_toList]
  simp only [List.mem_append, List.mem_cons, List.not_mem_nil, or_false, not_or]
  exact ⟨hdigit a, by decide, hdigit b, by decide, hdigit c, by decide, hdigit d⟩

/-- Go's `ParseCIDR` reads `a.b.c.d/n` as the address `a.b.c.d` and the network
of `n` leading bits it lies in. -/
theorem ParseCIDR_cidr (a b c d n : Nat) (ha : a ≤ 255) (hb : b ≤ 255) (hc : c ≤ 255)
    (hd : d ≤ 255) (hn : n ≤ 32) :
    ParseCIDR (cidr a b c d n)
      = .ok (IPv4 a b c d, ⟨Mask (IPv4 a b c d) n, n⟩) := by
  have hlist : (cidr a b c d n).toList
      = (dotted a b c d).toList ++ '/' :: ((toString n).toList ++ []) := by
    show (cidr a b c d n).data = _
    simp only [cidr, String.data_append]
    simp [String.toList]
  have hcut := strings.cutAt_append '/' (dotted a b c d).toList ((toString n).toList ++ []) []
    (slash_not_mem_dotted a b c d)
  have hmask : dtoi ((toString n).toList ++ []) = some (n, []) :=
    dtoi_toString n [] (Nat.lt_of_le_of_lt hn (by decide))
      (fun x t h => absurd h (by simp))
  unfold ParseCIDR
  rw [hlist, hcut]
  simp only [List.reverse_nil, List.nil_append, parseIPv4_dotted a b c d ha hb hc hd, hmask,
    hn, if_true]

end net
/-! ## Theorems: the resource pool -/

namespace resource_pool

open exec net

/-- The network `a.b.c.d/n` parses to the static subnet it lies in and, when
the address is not the network address, to the static address. -/
theorem parseNetworkSpec_cidr (a b c d n : Nat) (ha : a ≤ 255) (hb : b ≤ 255)
    (hc : c ≤ 255) (hd : d ≤ 255) (hn : n ≤ 32) :
    parseNetworkSpec (cidr a b c d n) =
      .ok (.StaticSubnetSelector ⟨Mask (IPv4 a b c d) n, n⟩,
        if IPv4 a b c d = Mask (IPv4 a b c d) n then .DynamicIPSelector
        else .StaticIPSelector (IPv4 a b c d)) := by
  have hslash : '/' ∈ (cidr a b c d n).toList := by
    show '/' ∈ (cidr a b c d n).data
    simp only [cidr, String.data_append]
    simp
  have hne : cidr a b c d n ≠ "" := by
    intro h
    rw [h] at hslash
    exact absurd hslash (by decide)
  simp only [parseNetworkSpec, hne, if_false, suffixIfNeeded, hslash, if_true,
    ParseCIDR_cidr a b c d n ha hb hc hd hn]

/-- A bare `a.b.c.d` is completed to `a.b.c.d/30`. -/
theorem suffixIfNeeded_dotted (a b c d : Nat) :
    suffixIfNeeded (dotted a b c d) = cidr a b c d 30 := by
  simp only [suffixIfNeeded, slash_not_mem_dotted a b c d, if_false, cidr]
  rw [String.append_assoc]
  rfl

/-- A bare `a.b.c.d` parses as `a.b.c.d/30` does. -/
theorem parseNetworkSpec_dotted (a b c d : Nat) :
    parseNetworkSpec (dotted a b c d) = parseNetworkSpec (cidr a b c d 30) := by
  have hslash : '/' ∈ (cidr a b c d 30).toList := by
    show '/' ∈ (cidr a b c d 30).data
    simp only [cidr, String.data_append]
    simp
  have hne : cidr a b c d 30 ≠ "" := by
    intro h
    rw [h] at hslash
    exact absurd hslash (by decide)
  have hne' : dotted a b c d ≠ "" := by
    intro h
    have := strconv.toString_ne_nil a
    have hl := dotted_toList a b c d
    rw [h] at hl
    have : (toString a).toList = [] := by
      have h0 : ("" : String).toList = [] := rfl
      rw [h0] at hl
      exact (List.append_eq_nil.mp hl.symm).1
    exact absurd this (strconv.toString_ne_nil a)
  simp only [parseNetworkSpec, hne, hne', if_false, suffixIfNeeded_dotted]
  simp only [suffixIfNeeded, hslash, if_true]

/-- C14: `Acquire` maps `spec.Network` to the selectors it first asks the
subnet pool for: the empty string gives a dynamic subnet and a dynamic IP;
`a.b.c.d/n` with zero host bits gives the static subnet `a.b.c.d/n` and a
dynamic IP; `a.b.c.d/n` with non-zero host bits gives the static subnet of the
masked network and the static IP `a.b.c.d`; a bare `a.b.c.d` is handled as
`a.b.c.d/30`; and a network that does not parse is rejected with
`create container: invalid network spec: <err>` before anything is
acquired. -/
theorem Acquire_network_selectors (fails : Allocation → Option String) (handle : String) :
    (Acquire fails ⟨handle, ""⟩).events.head?
      = some (.allocate (.subnet .DynamicSubnetSelector .DynamicIPSelector)) ∧
    (∀ a b c d n, a ≤ 255 → b ≤ 255 → c ≤ 255 → d ≤ 255 → n ≤ 32 →
      Mask (IPv4 a b c d) n = IPv4 a b c d →
      (Acquire fails ⟨handle, cidr a b c d n⟩).events.head?
        = some (.allocate (.subnet (.StaticSubnetSelector ⟨IPv4 a b c d, n⟩)
            .DynamicIPSelector))) ∧
    (∀ a b c d n, a ≤ 255 → b ≤ 255 → c ≤ 255 → d ≤ 255 → n ≤ 32 →
      Mask (IPv4 a b c d) n ≠ IPv4 a b c d →
      (Acquire fails ⟨handle, cidr a b c d n⟩).events.head?
        = some (.allocate (.subnet (.StaticSubnetSelector ⟨Mask (IPv4 a b c d) n, n⟩)
            (.StaticIPSelector (IPv4 a b c d))))) ∧
    (∀ a b c d,
      Acquire fails ⟨handle, dotted a b c d⟩ = Acquire fails ⟨handle, cidr a b c d 30⟩) ∧
    (∀ network err, network ≠ "" → ParseCIDR (suffixIfNeeded network) = .error err →
      Acquire fails ⟨handle, network⟩
        = ⟨some ("create container: invalid network spec: " ++ err), []⟩) := by
  have hhead : ∀ (subnet : SubnetSelector) (ip : IPSelector) (rest : List Allocation),
      (allocateAll fails (.subnet subnet ip :: rest) []).events.head?
        = some (.allocate (.subnet subnet ip)) := by
    intro subnet ip rest
    simp only [allocateAll]
    split <;> rfl
  refine ⟨?_, ?_, ?_, ?_, ?_⟩
  · have : parseNetworkSpec "" = .ok (.DynamicSubnetSelector, .DynamicIPSelector) := by
      simp [parseNetworkSpec]
    simp only [Acquire, this]
    exact hhead _ _ _
  · intro a b c d n ha hb hc hd hn hmask
    simp only [Acquire, parseNetworkSpec_cidr a b c d n ha hb hc hd hn, hmask, if_true]
    exact hhead _ _ _
  · intro a b c d n ha hb hc hd hn hmask
    have hne : ¬ IPv4 a b c d = Mask (IPv4 a b c d) n := fun h => hmask h.symm
    simp only [Acquire, parseNetworkSpec_cidr a b c d n ha hb hc hd hn, hne, if_false]
    exact hhead _ _ _
  · intro a b c d
    simp only [Acquire, parseNetworkSpec_dotted]
  · intro network err hne herr
    simp only [Acquire, parseNetworkSpec, hne, if_false, herr]

/-- Witness of `Acquire_network_selectors`: the networks of the tests,
`1.2.3.0/24` (zero host bits), `1.2.3.1/20` (non-zero host bits, in the
network `1.2.0.0/20`) and `not a network`. -/
theorem Acquire_network_selectors_witness :
    (Acquire noFailure ⟨"some-handle", cidr 1 2 3 0 24⟩).events.head?
      = some (.allocate (.subnet (.StaticSubnetSelector ⟨IPv4 1 2 3 0, 24⟩)
          .DynamicIPSelector)) ∧
    (Acquire noFailure ⟨"some-handle", cidr 1 2 3 1 20⟩).events.head?
      = some (.allocate (.subnet (.StaticSubnetSelector ⟨Mask (IPv4 1 2 3 1) 20, 20⟩)
          (.StaticIPSelector (IPv4 1 2 3 1)))) ∧
    Mask (IPv4 1 2 3 1) 20 = IPv4 1 2 0 0 ∧
    Acquire noFailure ⟨"some-handle", "not a network"⟩
      = ⟨some ("create container: invalid network spec: "
          ++ "invalid CIDR address: not a network/30"), []⟩ :=
  have h := Acquire_network_selectors noFailure "some-handle"
  ⟨h.2.1 1 2 3 0 24 (by decide) (by decide) (by decide) (by decide) (by decide) (by decide),
    h.2.2.1 1 2 3 1 20 (by decide) (by decide) (by decide) (by decide) (by decide)
      (by decide),
    by decide,
    h.2.2.2.2 "not a network" "invalid CIDR address: not a network/30" (by decide) (by rfl)⟩

/-- The model against the tests of the requested network: the texts
`1.2.3.0/30`, `1.2.3.0`, `1.2.3.1/20` and `1.2.3.0/24` as the tests write
them, and the error for `not a network`. -/
theorem Acquire_test_networks :
    parseNetworkSpec "" = .ok (.DynamicSubnetSelector, .DynamicIPSelector) ∧
    parseNetworkSpec "1.2.3.0/30"
      = .ok (.StaticSubnetSelector ⟨IPv4 1 2 3 0, 30⟩, .DynamicIPSelector) ∧
    parseNetworkSpec "1.2.3.0"
      = .ok (.StaticSubnetSelector ⟨IPv4 1 2 3 0, 30⟩, .DynamicIPSelector) ∧
    parseNetworkSpec "1.2.3.1/20"
      = .ok (.StaticSubnetSelector ⟨IPv4 1 2 0 0, 20⟩, .StaticIPSelector (IPv4 1 2 3 1)) ∧
    parseNetworkSpec "1.2.3.0/24"
      = .ok (.StaticSubnetSelector ⟨IPv4 1 2 3 0, 24⟩, .DynamicIPSelector) ∧
    Acquire noFailure ⟨"", "not a network"⟩
      = ⟨some "create container: invalid network spec: invalid CIDR address: not a network/30",
          []⟩ := by
  refine ⟨by rfl, by rfl, by rfl, by rfl, by rfl, by decide⟩

/-- C15: when `destroy.sh` fails during `Release`, `Release` returns that
error and none of the later steps runs: the calls made are the teardown by
the iptables manager and `destroy.sh`; the rootfs provider's `Destroy` is not
called, no port and no subnet is released, the filter is not torn down and
the bridge is not released. -/
theorem Release_destroy_fails (p : LinuxResourcePool) (fails : ReleaseFailures)
    (container : LinuxContainerSpec) (err : String)
    (hteardown : fails.containerTeardown = none) (hdestroy : fails.destroy = some err) :
    (Release p fails container).err = some err ∧
    (Release p fails container).events
      = [.ContainerTeardown container.ID,
          .Run (Command (path.Join [p.rootPath, "destroy.sh"])
            [path.Join [p.depotPath, container.ID]])] ∧
    (∀ ev ∈ (Release p fails container).events, ev.afterDestroy = false) ∧
    (∀ id, ReleaseEvent.RootfsDestroy id ∉ (Release p fails container).events) ∧
    (∀ port, ReleaseEvent.PortRelease port ∉ (Release p fails container).events) ∧
    (∀ network, ReleaseEvent.SubnetRelease network ∉ (Release p fails container).events) ∧
    (∀ handle, ReleaseEvent.FilterTearDown handle ∉ (Release p fails container).events) := by
  have hrun : Release p fails container
      = ⟨some err, [.ContainerTeardown container.ID,
          .Run (Command (path.Join [p.rootPath, "destroy.sh"])
            [path.Join [p.depotPath, container.ID]])]⟩ := by
    simp only [Release, hteardown, hdestroy, List.cons_append, List.nil_append, runSteps]
  rw [hrun]
  refine ⟨rfl, rfl, ?_, ?_, ?_, ?_, ?_⟩
  · intro ev hev
    simp only [List.mem_cons, List.mem_singleton, List.not_mem_nil, or_false] at hev
    rcases hev with rfl | rfl <;> rfl
  all_goals
    intro x hx
    simp at hx

/-- Witness of `Release_destroy_fails`: the container with two ports, a bridge
and a rootfs provider, `destroy.sh` failing with `oh no!`. -/
theorem Release_destroy_fails_witness :
    (Release samplePool destroyFails sampleRecord).err = some "oh no!" ∧
    (Release samplePool destroyFails sampleRecord).events
      = [.ContainerTeardown "some-id",
          .Run (Command "/root/path/destroy.sh" ["/depot/some-id"])] ∧
    ReleaseEvent.PortRelease 123 ∉ (Release samplePool destroyFails sampleRecord).events :=
  have h := Release_destroy_fails samplePool destroyFails sampleRecord "oh no!"
    (by decide) (by decide)
  ⟨h.1, h.2.1.trans (by decide), h.2.2.2.2.1 123⟩

/-- The model against the tests of `Release`: without failure every step runs;
a failing teardown by the iptables manager keeps `destroy.sh` from running; a
failing rootfs `Destroy` keeps the filter, the ports and the subnet; a
failing bridge release is reported with the name of the bridge. -/
theorem Release_test_steps :
    Release samplePool ⟨none, none, none, none⟩ sampleRecord
      = ⟨none, [.ContainerTeardown "some-id",
          .Run (Command "/root/path/destroy.sh" ["/depot/some-id"]),
          .RootfsDestroy "some-id", .FilterTearDown "some-handle",
          .BridgeRelease "the-bridge" "some-id",
          .SubnetRelease ⟨IPv4 1 2 3 4, ⟨IPv4 1 2 3 4, 30⟩⟩,
          .PortRelease 123, .PortRelease 456]⟩ ∧
    Release samplePool ⟨some "oh no!", none, none, none⟩ sampleRecord
      = ⟨some "oh no!", [.ContainerTeardown "some-id"]⟩ ∧
    Release samplePool ⟨none, none, some "oh no!", none⟩ sampleRecord
      = ⟨some "oh no!", [.ContainerTeardown "some-id",
          .Run (Command "/root/path/destroy.sh" ["/depot/some-id"]),
          .RootfsDestroy "some-id"]⟩ ∧
    (Release samplePool ⟨none, none, none, some "jam in the bridge"⟩ sampleRecord).err
      = some "containerpool: release bridge the-bridge: jam in the bridge" := by
  decide

end resource_pool

/-! ## Theorems: wshd and user namespaces -/

namespace wshd

/-- C30: the container wshd creates runs privileged (without a user namespace)
exactly when the value of the `-userns` flag is the empty string or
`disabled`; with any other value, the default `enabled`, a misspelling or
another capitalisation among them, `Privileged` is false. With a root
directory given and every system call succeeding the container is created. -/
theorem main_privileged_iff (sys : System) (flags : Flags) :
    (∀ cz, Event.Create cz ∈ (main sys flags).events →
      (cz.Execer.Privileged = true ↔ flags.userns = "" ∨ flags.userns = "disabled")) ∧
    (∀ cz, Event.Create cz ∈ (main sys flags).events →
      flags.userns ∈ ["enabled", "Enabled", "disable", "Disabled", "DISABLED", "disabled ",
        " disabled", "false", "no", "0"] →
      cz.Execer.Privileged = false) ∧
    (flags.root ≠ "" → (∃ binPath, sys.binPath = .ok binPath) →
      (∃ p, sys.Pipe1 = .ok p) → (∃ p, sys.Pipe2 = .ok p) →
      (∀ socketPath, ∃ listener, sys.NewListenerFromPath socketPath = .ok listener) →
      (∀ listener, ∃ file, sys.ListenerFile listener = .ok file) →
      ∃ cz, Event.Create cz ∈ (main sys flags).events) := by
  have key : ∀ cz, Event.Create cz ∈ (main sys flags).events →
      cz.Execer.Privileged
        = (if flags.userns = "" ∨ flags.userns = "disabled" then true else false) := by
    intro cz hmem
    by_cases hroot : flags.root = ""
    · simp [main, hroot] at hmem
    · cases hb : sys.binPath with
      | error e => simp [main, hroot, hb] at hmem
      | ok binPath =>
        cases h1 : sys.Pipe1 with
        | error e => simp [main, hroot, hb, h1] at hmem
        | ok p1 =>
          obtain ⟨containerReader, hostWriter⟩ := p1
          cases h2 : sys.Pipe2 with
          | error e => simp [main, hroot, hb, h1, h2] at hmem
          | ok p2 =>
            obtain ⟨hostReader, containerWriter⟩ := p2
            cases hl : sys.NewListenerFromPath (path.Join [flags.run, "wshd.sock"]) with
            | error e => simp [main, hroot, hb, h1, h2, hl] at hmem
            | ok listener =>
              cases hf : sys.ListenerFile listener with
              | error e => simp [main, hroot, hb, h1, h2, hl, hf] at hmem
              | ok socketFile =>
                simp only [main, hroot, hb, h1, h2, hl, hf, if_false] at hmem
                split at hmem <;> (simp at hmem; subst hmem; simp)
  refine ⟨?_, ?_, ?_⟩
  · intro cz hmem
    rw [key cz hmem]
    by_cases h : flags.userns = "" ∨ flags.userns = "disabled" <;> simp [h]
  · intro cz hmem hv
    rw [key cz hmem]
    have hne : ¬ (flags.userns = "" ∨ flags.userns = "disabled") := by
      simp only [List.mem_cons, List.mem_singleton, List.not_mem_nil, or_false] at hv
      rcases hv with h | h | h | h | h | h | h | h | h | h <;> (rw [h]; decide)
    simp [hne]
  · rintro hroot ⟨binPath, hb⟩ ⟨⟨containerReader, hostWriter⟩, h1⟩
      ⟨⟨hostReader, containerWriter⟩, h2⟩ hl hf
    obtain ⟨listener, hl⟩ := hl (path.Join [flags.run, "wshd.sock"])
    obtain ⟨socketFile, hf⟩ := hf listener
    simp only [main, hroot, hb, h1, h2, hl, hf, if_false]
    split <;> simp

/-- Witness of `main_privileged_iff`: with the default `-userns enabled` the
container is created unprivileged, with `-userns disabled` privileged. -/
theorem main_privileged_iff_witness :
    (sampleContainerizer.Execer.Privileged = true
      ↔ sampleFlags.userns = "" ∨ sampleFlags.userns = "disabled") ∧
    sampleContainerizer.Execer.Privileged = false ∧
    (privilegedContainerizer.Execer.Privileged = true
      ↔ disabledFlags.userns = "" ∨ disabledFlags.userns = "disabled") ∧
    privilegedContainerizer.Execer.Privileged = true ∧
    (∃ cz, Event.Create cz ∈ (main okSystem sampleFlags).events) :=
  ⟨(main_privileged_iff okSystem sampleFlags).1 sampleContainerizer (by decide),
    (main_privileged_iff okSystem sampleFlags).2.1 sampleContainerizer (by decide) (by decide),
    (main_privileged_iff okSystem disabledFlags).1 privilegedContainerizer (by decide),
    by decide,
    (main_privileged_iff okSystem sampleFlags).2.2 (by decide) ⟨_, rfl⟩ ⟨_, rfl⟩ ⟨_, rfl⟩
      (fun _ => ⟨_, rfl⟩) (fun _ => ⟨_, rfl⟩)⟩

end wshd

/-! ## Theorems: chain names of the system configuration -/

namespace sysconfig

/-- Two texts built by the same `Sprintf` pattern `<p>%s<s>`: when they are
equal, one ending is an ending of the other, and with the same ending the
arguments are equal. -/
theorem sprintf_eq (p t1 t2 s1 s2 : String) (h : p ++ t1 ++ s1 = p ++ t2 ++ s2) :
    (s1.data <:+ s2.data ∨ s2.data <:+ s1.data) ∧ (s1 = s2 → t1 = t2) := by
  have hd : p.data ++ (t1.data ++ s1.data) = p.data ++ (t2.data ++ s2.data) := by
    have := congrArg String.data h
    simpa [String.data_append, List.append_assoc] using this
  have hd : t1.data ++ s1.data = t2.data ++ s2.data := List.append_cancel_left hd
  constructor
  · have h1 : s1.data <:+ t2.data ++ s2.data := hd ▸ List.suffix_append _ _
    exact List.suffix_or_suffix_of_suffix h1 (List.suffix_append _ _)
  · intro hs
    subst hs
    exact String.ext (List.append_cancel_right hd)

/-- C29: chain names of `NewConfig` never collide. For all tags `t1` and `t2`,
a chain of one kind for `t1` (input, forward, default, prerouting,
postrouting) is never a chain of another kind for `t2`, and two chains of the
same kind are equal only if `t1 = t2`; the same holds of the two
`NetworkInterfacePrefix` values and of the two `CgroupPath` values; and in
one configuration the filter and NAT `InstancePrefix` are the same text
`w-<tag>-instance-`. -/
theorem NewConfig_chains_never_collide (t1 t2 : String) (a1 a2 : Bool)
    (d1 d2 : List String) :
    (∀ i j : Nat, i < 5 → j < 5 →
      (NewConfig t1 a1 d1).chains[i]? = (NewConfig t2 a2 d2).chains[j]? →
      i = j ∧ t1 = t2) ∧
    ((NewConfig t1 a1 d1).NetworkInterfacePrefix = (NewConfig t2 a2 d2).NetworkInterfacePrefix →
      t1 = t2) ∧
    ((NewConfig t1 a1 d1).CgroupPath = (NewConfig t2 a2 d2).CgroupPath → t1 = t2) ∧
    (NewConfig t1 a1 d1).IPTables.Filter.InstancePrefix
      = (NewConfig t1 a1 d1).IPTables.NAT.InstancePrefix ∧
    (NewConfig t1 a1 d1).IPTables.Filter.InstancePrefix = "w-" ++ t1 ++ "-instance-" := by
  refine ⟨?_, ?_, ?_, rfl, rfl⟩
  · intro i j hi hj h
    interval_cases i <;> interval_cases j <;>
      simp only [Config.chains, NewConfig, List.getElem?_cons_zero, List.getElem?_cons_succ,
        Option.some.injEq] at h <;>
      have H := sprintf_eq _ _ _ _ _ h <;>
      first
        | exact ⟨rfl, H.2 rfl⟩
        | exact absurd H.1 (by decide)
  · intro h
    have h1 : "w" ++ t1 ++ "" = "w" ++ t2 ++ "" := by
      simpa [NewConfig] using h
    exact (sprintf_eq _ _ _ _ _ h1).2 rfl
  · intro h
    exact (sprintf_eq "/tmp/garden-" t1 t2 "/cgroup" "/cgroup" h).2 rfl

/-- Witness of `NewConfig_chains_never_collide`: the default chains of two
configurations with the tag `1` are the same chain, of the same kind, and the
chains of that tag are as the patterns say. -/
theorem NewConfig_chains_never_collide_witness :
    (2 = 2 ∧ "1" = "1") ∧
    (NewConfig "1" true []).chains
      = ["w-1-input", "w-1-forward", "w-1-default", "w-1-prerouting", "w-1-postrouting"] ∧
    ("1" = "1") :=
  ⟨(NewConfig_chains_never_collide "1" "1" true false [] ["8.8.8.8"]).1 2 2 (by decide)
      (by decide) (by decide),
    by decide,
    (NewConfig_chains_never_collide "1" "1" true false [] []).2.2.1 (by decide)⟩

end sysconfig

/-! ## Theorems: parsing decimal numbers -/

namespace strconv

/-- The digit loop of `ParseUint` over decimal digits whose value fits 64
bits returns that value. -/
theorem parseLoop_digits (ds : List Char) (n : Nat)
    (hd : ∀ c ∈ ds, '0' ≤ c ∧ c ≤ '9')
    (hv : ds.foldl (fun acc c => acc * 10 + (c.toNat - 48)) n < 2 ^ 64) :
    parseLoop ds n = .ok (ds.foldl (fun acc c => acc * 10 + (c.toNat - 48)) n) := by
  induction ds generalizing n with
  | nil => rfl
  | cons c ds ih =>
    have hc := hd c (List.mem_cons_self _ _)
    have hds : ∀ c ∈ ds, '0' ≤ c ∧ c ≤ '9' := fun x hx => hd x (List.mem_cons_of_mem _ hx)
    simp only [List.foldl_cons] at hv ⊢
    have hle := net.le_foldl_digits ds (n * 10 + (c.toNat - 48))
    have h0 : '0'.toNat = 48 := rfl
    have h1 : ¬ (n ≥ (2 ^ 64 - 1) / 10 + 1) := by
      norm_num at hv hle ⊢
      omega
    have h2 : ¬ (n * 10 + (c.toNat - 48) > 2 ^ 64 - 1) := by
      norm_num at hv hle ⊢
      omega
    simp only [parseLoop, hc, and_self, if_true, h0, h1, h2, if_false]
    exact ih _ hds hv

/-- The digit loop of `ParseUint` over decimal digits whose value does not fit
64 bits fails with a range error. -/
theorem parseLoop_range (ds : List Char) (n : Nat)
    (hd : ∀ c ∈ ds, '0' ≤ c ∧ c ≤ '9') (hn : n < 2 ^ 64)
    (hv : 2 ^ 64 ≤ ds.foldl (fun acc c => acc * 10 + (c.toNat - 48)) n) :
    parseLoop ds n = .error .ErrRange := by
  induction ds generalizing n with
  | nil =>
    simp only [List.foldl_nil] at hv
    omega
  | cons c ds ih =>
    have hc := hd c (List.mem_cons_self _ _)
    have hds : ∀ c ∈ ds, '0' ≤ c ∧ c ≤ '9' := fun x hx => hd x (List.mem_cons_of_mem _ hx)
    simp only [List.foldl_cons] at hv
    have h0 : '0'.toNat = 48 := rfl
    simp only [parseLoop, hc, and_self, if_true, h0]
    split
    · rfl
    · split
      · rfl
      · rename_i h1 h2
        exact ih _ hds (by norm_num at h2 ⊢; omega) hv

/-- The function `ParseUint` reads back the decimal text of a 64-bit number. -/
theorem ParseUint_toString (n : Nat) (h : n < 2 ^ 64) : ParseUint (toString n) = .ok n := by
  have hv := decimalValue_toString n
  unfold decimalValue at hv
  simp only [ParseUint, toString_ne_nil n, if_false]
  rw [parseLoop_digits _ 0 (toString_isDigit n) (by rw [hv]; exact h), hv]

/-- The function `ParseUint` fails with a range error on decimal digits that
denote a number of more than 64 bits. -/
theorem ParseUint_range (s : String) (hd : ∀ c ∈ s.toList, '0' ≤ c ∧ c ≤ '9')
    (hv : 2 ^ 64 ≤ decimalValue s.toList) : ParseUint s = .error .ErrRange := by
  have hne : s.toList ≠ [] := by
    intro h
    rw [h] at hv
    simp [decimalValue] at hv
  simp only [ParseUint, hne, if_false]
  exact parseLoop_range _ 0 hd (by norm_num) hv

end strconv

/-! ## Theorems: joining paths -/

namespace path

/-- A component without `/` is read as a whole. -/
theorem splitSlash_no_slash (cs cur : List Char) (h : '/' ∉ cs) :
    splitSlash cs cur = [cur.reverse ++ cs] := by
  induction cs generalizing cur with
  | nil => simp [splitSlash]
  | cons c cs ih =>
    have hc : c ≠ '/' := fun hc => h (by simp [hc])
    have hcs : '/' ∉ cs := fun hcs => h (List.mem_cons_of_mem _ hcs)
    simp [splitSlash, hc, ih _ hcs]

/-- Splitting a text followed by `/` and more text. -/
theorem splitSlash_append (cs q cur : List Char) :
    splitSlash (cs ++ '/' :: q) cur = splitSlash cs cur ++ splitSlash q [] := by
  induction cs generalizing cur with
  | nil => simp [splitSlash]
  | cons c cs ih =>
    by_cases hc : c = '/'
    · simp [splitSlash, hc, ih]
    · simp [splitSlash, hc, ih]

/-- Joining one more component. -/
theorem intercalate_append_singleton (sep : List Char) (xs : List (List Char))
    (n : List Char) (h : xs ≠ []) :
    List.intercalate sep (xs ++ [n]) = List.intercalate sep xs ++ sep ++ n := by
  induction xs with
  | nil => exact absurd rfl h
  | cons x xs ih =>
    cases xs with
    | nil => simp [List.intercalate, List.intersperse]
    | cons y ys =>
      have := ih (by simp)
      simp only [List.intercalate, List.cons_append, List.intersperse, List.flatten_cons]
        at this ⊢
      show x ++ (sep ++ (List.intersperse sep (y :: (ys ++ [n]))).flatten) = _
      rw [this]
      simp

/-- Joining a clean directory path, other than `/` and `.`, and a file name
gives the directory, a `/` and the name. -/
theorem Join_clean (p name : String) (hp : Clean p = p) (h1 : p ≠ "/") (h2 : p ≠ ".")
    (hn : '/' ∉ name.toList) (hn0 : name ≠ "") (hn1 : name ≠ ".") (hn2 : name ≠ "..") :
    Join [p, name] = p ++ "/" ++ name := by
  have hp0 : p ≠ "" := by
    intro h
    rw [h] at hp
    exact absurd hp (by decide)
  have hcs : p.toList ≠ [] := fun h => hp0 (String.ext h)
  have hnl0 : name.toList ≠ [] := fun h => hn0 (String.ext h)
  have hnl1 : name.toList ≠ ['.'] := fun h => hn1 (String.ext h)
  have hnl2 : name.toList ≠ ['.', '.'] := fun h => hn2 (String.ext h)
  have hjoin : Join [p, name] = Clean (p ++ "/" ++ name) := by
    simp [Join, List.filter, hp0, hn0, String.intercalate, String.intercalate.go]
  rw [hjoin]
  have hP : (p ++ "/" ++ name).toList = p.toList ++ '/' :: name.toList := by
    show (p ++ "/" ++ name).data = p.data ++ '/' :: name.data
    simp [String.data_append]
  have hPne : (p ++ "/" ++ name).toList ≠ [] := by
    rw [hP]
    simp
  have hhead : (p ++ "/" ++ name).toList.head? = p.toList.head? := by
    rw [hP]
    cases h : p.toList with
    | nil => exact absurd h hcs
    | cons c cs => rfl
  simp only [Clean, hcs, hPne, if_false, hhead] at hp ⊢
  rw [hP, splitSlash_append, splitSlash_no_slash _ _ hn, List.foldl_append]
  simp only [List.reverse_nil, List.nil_append, List.foldl_cons, List.foldl_nil]
  have hstep : ∀ b stack, cleanStep b stack name.toList = name.toList :: stack := by
    intro b stack
    simp only [cleanStep]
    rw [if_neg (not_or.mpr ⟨hnl0, hnl1⟩), if_neg hnl2]
  rw [hstep, List.reverse_cons]
  generalize hcomps : (List.foldl (cleanStep (decide (p.toList.head? = some '/'))) []
    (splitSlash p.toList [])).reverse = comps at hp ⊢
  have hne : comps ++ [name.toList] ≠ [] := by simp
  by_cases hc : comps = []
  · subst hc
    by_cases hr : p.toList.head? = some '/'
    · simp only [hr, if_true] at hp
      exact absurd hp.symm h1
    · simp only [hr, if_false, if_true] at hp
      exact absurd hp.symm h2
  · rw [intercalate_append_singleton _ _ _ hc]
    have hmk : String.mk (['/'].intercalate comps ++ ['/'] ++ name.toList)
        = String.mk (['/'].intercalate comps) ++ "/" ++ name := by
      apply String.ext
      simp [String.data_append]
    rw [hmk]
    by_cases hr : p.toList.head? = some '/'
    · simp only [hr, if_true] at hp ⊢
      rw [← String.append_assoc, ← String.append_assoc, hp]
    · simp only [hr, if_false, hc, hne] at hp ⊢
      rw [hp]

end path

/-! ## Theorems: commands and parse errors of the bandwidth manager -/

namespace bandwidth_manager

open exec regexp strconv

/-- When the first command runs without error and its output matches the
`qdisc tbf` pattern with digits that parse, the In fields are computed from
the captures, whatever happens afterwards. -/
theorem GetLimits_in_fields (m : ContainerBandwidthManager) (runner : Cmd → RunResult)
    (whole rateS rateUnit burstS burstUnit : String) (rate burst : Nat)
    (he : (runner (netCmd m "get_egress_info")).err = none)
    (hm : IN_RATE_PATTERN.FindStringSubmatch (runner (netCmd m "get_egress_info")).stdout
      = some [whole, rateS, rateUnit, burstS, burstUnit])
    (hr : ParseUint rateS = .ok rate) (hb : ParseUint burstS = .ok burst) :
    (GetLimits m runner).limits.InRate = convertUnits rate rateUnit / 8 ∧
    (GetLimits m runner).limits.InBurst = convertUnits burst burstUnit := by
  simp only [GetLimits, he, hm, sub, List.getD_cons_succ, List.getD_cons_zero, hr, hb]
  cases h2 : (runner (netCmd m "get_ingress_info")).err <;> simp only []
  · split
    · simp
    · split
      · simp
      · split <;> simp
  · simp

/-- When the first command runs without error and its output matches the
`qdisc tbf` pattern with a rate or a burst that does not parse, `GetLimits`
stops there. -/
theorem GetLimits_in_parse_error (m : ContainerBandwidthManager) (runner : Cmd → RunResult)
    (whole rateS rateUnit burstS burstUnit : String)
    (he : (runner (netCmd m "get_egress_info")).err = none)
    (hm : IN_RATE_PATTERN.FindStringSubmatch (runner (netCmd m "get_egress_info")).stdout
      = some [whole, rateS, rateUnit, burstS, burstUnit]) :
    (∀ e, ParseUint rateS = .error e →
      GetLimits m runner = ⟨⟨0, 0, 0, 0⟩, some (.parse e), [netCmd m "get_egress_info"]⟩) ∧
    (∀ rate e, ParseUint rateS = .ok rate → ParseUint burstS = .error e →
      GetLimits m runner = ⟨⟨0, 0, 0, 0⟩, some (.parse e), [netCmd m "get_egress_info"]⟩) := by
  constructor
  · intro e hr
    simp only [GetLimits, he, hm, sub, List.getD_cons_succ, List.getD_cons_zero, hr]
  · intro rate e hr hb
    simp only [GetLimits, he, hm, sub, List.getD_cons_succ, List.getD_cons_zero, hr, hb]

/-- C21, as stated, fails: for the container path `.` the command name is
`path.Join(".", "net.sh")`, which is `net.sh` and not `./net.sh`, and for the
empty container path it is `net.sh` and not `/net.sh`. -/
theorem GetLimits_command_name_is_joined :
    (GetLimits dotManager tcRunner).ran
      = [⟨["net.sh", "get_egress_info"], ["ID=abc"]⟩,
          ⟨["net.sh", "get_ingress_info"], ["ID=abc"]⟩] ∧
    dotManager.containerPath ++ "/net.sh" = "./net.sh" ∧
    (∀ cmd ∈ (GetLimits dotManager tcRunner).ran,
      cmd.Args.head? ≠ some (dotManager.containerPath ++ "/net.sh")) ∧
    (GetLimits emptyPathManager tcRunner).ran
      = [⟨["net.sh", "get_egress_info"], ["ID=abc"]⟩,
          ⟨["net.sh", "get_ingress_info"], ["ID=abc"]⟩] ∧
    emptyPathManager.containerPath ++ "/net.sh" = "/net.sh" ∧
    (∀ cmd ∈ (GetLimits emptyPathManager tcRunner).ran,
      cmd.Args.head? ≠ some (emptyPathManager.containerPath ++ "/net.sh")) := by
  decide

/-- C21, amended: the commands `GetLimits` runs are, in order, net.sh with the
one argument `get_egress_info` and then net.sh with the one argument
`get_ingress_info`, net.sh being named by `path.Join(containerPath, "net.sh")`,
which for every clean container path other than `/` and `.` is
`<containerPath>/net.sh`; each has the environment of the single entry
`ID=<containerID>`. What is run is the first command alone or the first and
then the second; the second is run whenever the first runs without error and
its output does not match the `qdisc tbf` pattern or matches it with numbers
that parse, and so whenever `GetLimits` returns no error. -/
theorem GetLimits_commands (m : ContainerBandwidthManager) (runner : Cmd → RunResult) :
    ((GetLimits m runner).ran
        = [⟨[path.Join [m.containerPath, "net.sh"], "get_egress_info"],
            ["ID=" ++ m.containerID]⟩] ∨
      (GetLimits m runner).ran
        = [⟨[path.Join [m.containerPath, "net.sh"], "get_egress_info"],
              ["ID=" ++ m.containerID]⟩,
            ⟨[path.Join [m.containerPath, "net.sh"], "get_ingress_info"],
              ["ID=" ++ m.containerID]⟩]) ∧
    ((GetLimits m runner).err = none → (GetLimits m runner).ran.length = 2) ∧
    ((runner ⟨[path.Join [m.containerPath, "net.sh"], "get_egress_info"],
          ["ID=" ++ m.containerID]⟩).err = none →
      IN_RATE_PATTERN.FindStringSubmatch
          (runner ⟨[path.Join [m.containerPath, "net.sh"], "get_egress_info"],
            ["ID=" ++ m.containerID]⟩).stdout = none →
      (GetLimits m runner).ran.length = 2) ∧
    (∀ (whole rateS rateUnit burstS burstUnit : String) (rate burst : Nat),
      (runner ⟨[path.Join [m.containerPath, "net.sh"], "get_egress_info"],
          ["ID=" ++ m.containerID]⟩).err = none →
      IN_RATE_PATTERN.FindStringSubmatch
          (runner ⟨[path.Join [m.containerPath, "net.sh"], "get_egress_info"],
            ["ID=" ++ m.containerID]⟩).stdout
        = some [whole, rateS, rateUnit, burstS, burstUnit] →
      ParseUint rateS = .ok rate → ParseUint burstS = .ok burst →
      (GetLimits m runner).ran.length = 2) ∧
    (∀ cmd ∈ (GetLimits m runner).ran,
      cmd.Args.head? = some (path.Join [m.containerPath, "net.sh"]) ∧
      cmd.Args.length = 2 ∧ cmd.Env = ["ID=" ++ m.containerID]) ∧
    (path.Clean m.containerPath = m.containerPath → m.containerPath ≠ "/" →
      m.containerPath ≠ "." →
      ∀ cmd ∈ (GetLimits m runner).ran,
        cmd.Args.head? = some (m.containerPath ++ "/" ++ "net.sh")) := by
  have hE : netCmd m "get_egress_info"
      = ⟨[path.Join [m.containerPath, "net.sh"], "get_egress_info"],
          ["ID=" ++ m.containerID]⟩ := rfl
  have hI : netCmd m "get_ingress_info"
      = ⟨[path.Join [m.containerPath, "net.sh"], "get_ingress_info"],
          ["ID=" ++ m.containerID]⟩ := rfl
  have hran : ((GetLimits m runner).ran = [netCmd m "get_egress_info"] ∨
      (GetLimits m runner).ran = [netCmd m "get_egress_info", netCmd m "get_ingress_info"]) ∧
    ((GetLimits m runner).err = none → (GetLimits m runner).ran.length = 2) := by
    cases h1 : (runner (netCmd m "get_egress_info")).err with
    | some e => simp [GetLimits, h1]
    | none =>
      simp only [GetLimits, h1]
      split
      · simp
      · split
        · simp
        · split
          · simp
          · split
            · simp
            · split <;> simp
  have hnone : (runner (netCmd m "get_egress_info")).err = none →
      IN_RATE_PATTERN.FindStringSubmatch (runner (netCmd m "get_egress_info")).stdout = none →
      (GetLimits m runner).ran.length = 2 := by
    intro he hm
    simp only [GetLimits, he, hm]
    split
    · simp
    · split
      · simp
      · split
        · simp
        · split <;> simp
  have hsome : ∀ (whole rateS rateUnit burstS burstUnit : String) (rate burst : Nat),
      (runner (netCmd m "get_egress_info")).err = none →
      IN_RATE_PATTERN.FindStringSubmatch (runner (netCmd m "get_egress_info")).stdout
        = some [whole, rateS, rateUnit, burstS, burstUnit] →
      ParseUint rateS = .ok rate → ParseUint burstS = .ok burst →
      (GetLimits m runner).ran.length = 2 := by
    intro whole rateS rateUnit burstS burstUnit rate burst he hm hr hb
    simp only [GetLimits, he, hm, sub, List.getD_cons_succ, List.getD_cons_zero, hr, hb]
    split
    · simp
    · split
      · simp
      · split
        · simp
        · split <;> simp
  rw [hE, hI] at hran
  rw [hE] at hnone hsome
  have hall : ∀ cmd ∈ (GetLimits m runner).ran,
      cmd.Args.head? = some (path.Join [m.containerPath, "net.sh"]) ∧
      cmd.Args.length = 2 ∧ cmd.Env = ["ID=" ++ m.containerID] := by
    intro cmd hcmd
    rcases hran.1 with h | h <;> rw [h] at hcmd <;> simp at hcmd
    · subst hcmd
      simp
    · rcases hcmd with hcmd | hcmd <;> subst hcmd <;> simp
  refine ⟨hran.1, hran.2, hnone, hsome, hall, ?_⟩
  intro hclean h1 h2 cmd hcmd
  rw [(hall cmd hcmd).1]
  exact congrArg some
    (path.Join_clean _ _ hclean h1 h2 (by decide) (by decide) (by decide) (by decide))

/-- Witness of `GetLimits_commands`: for the container `abc` in `/depot/abc`
both commands are run, `/depot/abc/net.sh get_egress_info` and then
`/depot/abc/net.sh get_ingress_info`, each with the environment `ID=abc`;
with a runner that fails the first command is run alone. -/
theorem GetLimits_commands_witness :
    (GetLimits sampleManager tcRunner).ran
      = [⟨["/depot/abc/net.sh", "get_egress_info"], ["ID=abc"]⟩,
          ⟨["/depot/abc/net.sh", "get_ingress_info"], ["ID=abc"]⟩] ∧
    (GetLimits sampleManager tcRunner).ran.length = 2 ∧
    (∀ cmd ∈ (GetLimits sampleManager tcRunner).ran,
      cmd.Args.head? = some (sampleManager.containerPath ++ "/" ++ "net.sh")) ∧
    (GetLimits sampleManager failingRunner).ran
      = [⟨["/depot/abc/net.sh", "get_egress_info"], ["ID=abc"]⟩] :=
  ⟨by decide, (GetLimits_commands sampleManager tcRunner).2.1 (by decide),
    (GetLimits_commands sampleManager tcRunner).2.2.2.2.2 (by decide) (by decide)
      (by decide),
    by decide⟩

/-- C27: `SetLimits` runs one command, whose environment is `BURST=<burst>`
and `RATE=<rate * 8 modulo 2 ^ 64>`; the text of that rate parses back to the
same number; and for every rate `r`, the rate `GetLimits` derives from a
report of that number without a unit, `convertUnits (r * 8 mod 2 ^ 64) "" / 8`,
is `r` if and only if `r < 2 ^ 61`. -/
theorem SetLimits_GetLimits_rate_round_trip (m : ContainerBandwidthManager)
    (runner : Cmd → RunResult) :
    (∀ limits : BandwidthLimits,
      (SetLimits m runner limits).ran.map (fun cmd => cmd.Env)
        = [["BURST=" ++ toString limits.BurstRateInBytesPerSecond,
            "RATE=" ++ toString (limits.RateInBytesPerSecond * 8 % 2 ^ 64)]]) ∧
    (∀ r : Nat, convertUnits (r * 8 % 2 ^ 64) "" / 8 = r ↔ r < 2 ^ 61) ∧
    (∀ r : Nat, ParseUint (toString (r * 8 % 2 ^ 64)) = .ok (r * 8 % 2 ^ 64)) ∧
    (∀ (r : Nat) (whole burstS burstUnit : String) (burst : Nat),
      (runner (netCmd m "get_egress_info")).err = none →
      IN_RATE_PATTERN.FindStringSubmatch (runner (netCmd m "get_egress_info")).stdout
        = some [whole, toString (r * 8 % 2 ^ 64), "", burstS, burstUnit] →
      ParseUint burstS = .ok burst →
      ((GetLimits m runner).limits.InRate = r ↔ r < 2 ^ 61)) := by
  have hiff : ∀ r : Nat, convertUnits (r * 8 % 2 ^ 64) "" / 8 = r ↔ r < 2 ^ 61 := by
    intro r
    have hc : convertUnits (r * 8 % 2 ^ 64) "" = r * 8 % 2 ^ 64 := by
      simp [convertUnits]
    rw [hc]
    norm_num
    omega
  have hparse : ∀ r : Nat, ParseUint (toString (r * 8 % 2 ^ 64)) = .ok (r * 8 % 2 ^ 64) :=
    fun r => ParseUint_toString _ (Nat.mod_lt _ (by norm_num))
  refine ⟨fun limits => rfl, hiff, hparse, ?_⟩
  intro r whole burstS burstUnit burst he hm hb
  rw [(GetLimits_in_fields m runner _ _ _ _ _ _ _ he hm (hparse r) hb).1]
  exact hiff r

/-- Witness of `SetLimits_GetLimits_rate_round_trip`: for the rate `2 ^ 61`
`SetLimits` emits `RATE=0`, and from the report `rate 0bit` `GetLimits` derives
the rate 0, not `2 ^ 61`. -/
theorem SetLimits_GetLimits_rate_round_trip_witness :
    ((GetLimits sampleManager wrappedRateRunner).limits.InRate = 2305843009213693952
      ↔ 2305843009213693952 < 2 ^ 61) ∧
    (GetLimits sampleManager wrappedRateRunner).limits.InRate = 0 ∧
    (SetLimits sampleManager tcRunner ⟨2305843009213693952, 1600⟩).ran
      = [⟨["/depot/abc/net_rate.sh"], ["BURST=1600", "RATE=0"]⟩] :=
  ⟨(SetLimits_GetLimits_rate_round_trip sampleManager wrappedRateRunner).2.2.2
      2305843009213693952 "qdisc tbf 8002: root refcnt 2 rate 0bit burst 1600b" "1600" "" 1600
      (by decide) (by decide) (by rfl),
    by decide, by decide⟩

/-- C28: when the first net.sh run succeeds and its output matches the
`qdisc tbf` pattern with a rate or a burst whose digits denote a number of
`2 ^ 64` or more, `GetLimits` returns a parse error (the range error of
`ParseUint` when both captures are digits) with a stat whose four fields are
zero, and the second net.sh command is not run; when the first run itself
fails the same holds with the error of that run. -/
theorem GetLimits_first_command_errors (m : ContainerBandwidthManager)
    (runner : Cmd → RunResult) :
    (∀ whole rateS rateUnit burstS burstUnit : String,
      (runner (netCmd m "get_egress_info")).err = none →
      IN_RATE_PATTERN.FindStringSubmatch (runner (netCmd m "get_egress_info")).stdout
        = some [whole, rateS, rateUnit, burstS, burstUnit] →
      ((∀ c ∈ rateS.toList, '0' ≤ c ∧ c ≤ '9') ∧ 2 ^ 64 ≤ decimalValue rateS.toList) ∨
        ((∀ c ∈ burstS.toList, '0' ≤ c ∧ c ≤ '9') ∧ 2 ^ 64 ≤ decimalValue burstS.toList) →
      (∃ e, (GetLimits m runner).err = some (.parse e)) ∧
      ((∀ c ∈ rateS.toList, '0' ≤ c ∧ c ≤ '9') → rateS ≠ "" →
        (GetLimits m runner).err = some (.parse .ErrRange)) ∧
      (GetLimits m runner).limits = ⟨0, 0, 0, 0⟩ ∧
      (GetLimits m runner).ran = [netCmd m "get_egress_info"]) ∧
    (∀ e, (runner (netCmd m "get_egress_info")).err = some e →
      GetLimits m runner = ⟨⟨0, 0, 0, 0⟩, some (.run e), [netCmd m "get_egress_info"]⟩) := by
  constructor
  · intro whole rateS rateUnit burstS burstUnit he hm hbig
    have hpe := GetLimits_in_parse_error m runner whole rateS rateUnit burstS burstUnit he hm
    have hrate : (∀ c ∈ rateS.toList, '0' ≤ c ∧ c ≤ '9') → rateS ≠ "" →
        ∀ e, ParseUint rateS = .error e → e = .ErrRange := by
      intro hd hne e he'
      by_cases hv : 2 ^ 64 ≤ decimalValue rateS.toList
      · rw [ParseUint_range rateS hd hv] at he'
        cases he'
        rfl
      · have hne' : rateS.toList ≠ [] := fun h => hne (String.ext h)
        simp only [ParseUint, hne', if_false] at he'
        rw [parseLoop_digits _ 0 hd (Nat.lt_of_not_le hv)] at he'
        cases he'
    cases hr : ParseUint rateS with
    | error e =>
      rw [hpe.1 e hr]
      refine ⟨⟨e, rfl⟩, ?_, rfl, rfl⟩
      intro hd hne
      rw [hrate hd hne e hr]
    | ok rate =>
      rcases hbig with ⟨hd, hv⟩ | ⟨hd, hv⟩
      · rw [ParseUint_range rateS hd hv] at hr
        cases hr
      · rw [hpe.2 rate _ hr (ParseUint_range burstS hd hv)]
        exact ⟨⟨_, rfl⟩, fun _ _ => rfl, rfl, rfl⟩
  · intro e he
    simp only [GetLimits, he]

/-- Witness of `GetLimits_first_command_errors`: a reported rate of `2 ^ 64`,
and likewise a reported burst of `2 ^ 64`, gives the range error, no limits
and no second command; a failing first command gives its error. -/
theorem GetLimits_first_command_errors_witness :
    ((∃ e, (GetLimits sampleManager overflowRunner).err = some (.parse e)) ∧
      ((∀ c ∈ "18446744073709551616".toList, '0' ≤ c ∧ c ≤ '9') →
        "18446744073709551616" ≠ "" →
        (GetLimits sampleManager overflowRunner).err = some (.parse .ErrRange)) ∧
      (GetLimits sampleManager overflowRunner).limits = ⟨0, 0, 0, 0⟩ ∧
      (GetLimits sampleManager overflowRunner).ran
        = [netCmd sampleManager "get_egress_info"]) ∧
    GetLimits sampleManager burstOverflowRunner
      = ⟨⟨0, 0, 0, 0⟩, some (.parse .ErrRange), [netCmd sampleManager "get_egress_info"]⟩ ∧
    GetLimits sampleManager failingRunner
      = ⟨⟨0, 0, 0, 0⟩, some (.run "exit status 1"), [netCmd sampleManager "get_egress_info"]⟩ :=
  ⟨(GetLimits_first_command_errors sampleManager overflowRunner).1
      "qdisc tbf 8002: root refcnt 2 rate 18446744073709551616bit burst 1600b"
      "18446744073709551616" "" "1600" "" (by decide) (by decide)
      (Or.inl ⟨by decide, by decide⟩),
    by decide,
    (GetLimits_first_command_errors sampleManager failingRunner).2 "exit status 1"
      (by decide)⟩

end bandwidth_manager

/-! ## Theorems: the quota loop of `fetchFromEndpoint` -/

namespace repository_fetcher

/-- Reducing twice is reducing once. -/
theorem int64_sub_int64 (a b : Int) : int64 (int64 a - b) = int64 (a - b) := by
  unfold int64
  omega

/-- An `int64` value is its own reduction. -/
theorem int64_of_range (x : Int) (h1 : -2 ^ 63 ≤ x) (h2 : x < 2 ^ 63) : int64 x = x := by
  unfold int64
  omega

/-- The quota left after at least one layer is the initial quota minus the
total size, in `int64` arithmetic. -/
theorem remainingAfter_cons (q size : Int) (sizes : List Int) :
    remainingAfter q (size :: sizes) = int64 (q - (size :: sizes).sum) := by
  induction sizes generalizing q size with
  | nil => simp [remainingAfter]
  | cons x xs ih =>
    have h := ih (int64 (q - size)) x
    simp only [remainingAfter, List.foldl_cons, List.sum_cons] at h ⊢
    rw [h, int64_sub_int64]
    congr 1
    ring

/-- The quota left is the initial quota minus the total size, in `int64`
arithmetic, when the initial quota is an `int64` value. -/
theorem remainingAfter_eq (q : Int) (sizes : List Int) (h1 : -2 ^ 63 ≤ q) (h2 : q < 2 ^ 63) :
    remainingAfter q sizes = int64 (q - sizes.sum) := by
  cases sizes with
  | nil => simp [remainingAfter, int64_of_range q h1 h2]
  | cons x xs => exact remainingAfter_cons q x xs

/-- One more layer. -/
theorem remainingAfter_append (q size : Int) (sizes : List Int) :
    remainingAfter q (sizes ++ [size]) = int64 (remainingAfter q sizes - size) := by
  simp [remainingAfter, List.foldl_append]

/-- The loop when `fetchLayer` fails. -/
theorem fetchLayers_cons_error {σ : Type} (c : Collaborators σ) (e id : String)
    (rest : List String) (allLayers : List dockerLayer) (q : Int) (w : σ) (tr : List Call)
    (err : String) (h : (fetchLayer c e id q w).result = .error err) :
    fetchLayers c e (id :: rest) allLayers q w tr
      = ⟨.error (.other err), (fetchLayer c e id q w).world,
          tr ++ [.fetchLayer e id q (.error err) (fetchLayer c e id q w).trace]⟩ := by
  simp only [fetchLayers, h]

/-- The loop when the layer fetched exceeds the quota left. -/
theorem fetchLayers_cons_quota {σ : Type} (c : Collaborators σ) (e id : String)
    (rest : List String) (allLayers : List dockerLayer) (q : Int) (w : σ) (tr : List Call)
    (layer : dockerLayer) (h : (fetchLayer c e id q w).result = .ok layer)
    (hq : int64 (q - layer.size) < 0) :
    fetchLayers c e (id :: rest) allLayers q w tr
      = ⟨.error .ErrQuotaExceeded, (fetchLayer c e id q w).world,
          tr ++ [.fetchLayer e id q (.ok layer) (fetchLayer c e id q w).trace]⟩ := by
  simp only [fetchLayers, h, hq, if_true]

/-- The loop when the layer fetched fits the quota left. -/
theorem fetchLayers_cons_ok {σ : Type} (c : Collaborators σ) (e id : String)
    (rest : List String) (allLayers : List dockerLayer) (q : Int) (w : σ) (tr : List Call)
    (layer : dockerLayer) (h : (fetchLayer c e id q w).result = .ok layer)
    (hq : ¬ int64 (q - layer.size) < 0) :
    fetchLayers c e (id :: rest) allLayers q w tr
      = fetchLayers c e rest (allLayers ++ [layer]) (int64 (q - layer.size))
          (fetchLayer c e id q w).world
          (tr ++ [.fetchLayer e id q (.ok layer) (fetchLayer c e id q w).trace]) := by
  simp only [fetchLayers, h, hq, if_false]

/-- What the loop of `fetchFromEndpoint` does: it adds to the trace calls of
`fetchLayer`, one after the other, for the ids in order, each with the quota
left after the layers returned before it, which is not negative from the
second call on; when it succeeds there is a call for every id and the layers
of the image are those the calls returned, in order. -/
theorem fetchLayers_spec {σ : Type} (c : Collaborators σ) (e : String) (ids : List String) :
    ∀ (allLayers : List dockerLayer) (q : Int) (w : σ) (tr : List Call),
    ∃ new : List Call,
      (fetchLayers c e ids allLayers q w tr).trace = tr ++ new ∧
      new.length ≤ ids.length ∧
      successiveLayers c w new ∧
      (∀ (j : Nat) (call : Call), new[j]? = some call → ∃ id res ev, ids[j]? = some id ∧
        call = Call.fetchLayer e id (remainingAfter q ((new.take j).map Call.size)) res ev) ∧
      (∀ j, 0 < j → j < new.length →
        0 ≤ remainingAfter q ((new.take j).map Call.size)) ∧
      (∀ image, (fetchLayers c e ids allLayers q w tr).result = .ok image →
        new.length = ids.length ∧
        ∃ layers, image.layers = allLayers ++ layers ∧ layers.length = ids.length ∧
          ∀ (j : Nat) (layer : dockerLayer), layers[j]? = some layer →
            ∃ id rem ev, new[j]? = some (Call.fetchLayer e id rem (.ok layer) ev)) := by
  induction ids with
  | nil =>
    intro allLayers q w tr
    refine ⟨[], by simp [fetchLayers], by simp, trivial, by simp, by simp, ?_⟩
    intro image h
    simp only [fetchLayers, Except.ok.injEq] at h
    subst h
    exact ⟨rfl, [], by simp, rfl, by simp⟩
  | cons id rest ih =>
    intro allLayers q w tr
    cases hr : (fetchLayer c e id q w).result with
    | error err =>
      rw [fetchLayers_cons_error c e id rest allLayers q w tr err hr]
      refine ⟨[.fetchLayer e id q (.error err) (fetchLayer c e id q w).trace], rfl, by simp,
        ⟨hr.symm, rfl, trivial⟩, ?_, ?_, ?_⟩
      · intro j call hj
        cases j with
        | zero =>
          simp only [List.getElem?_cons_zero, Option.some.injEq] at hj
          subst hj
          exact ⟨id, .error err, (fetchLayer c e id q w).trace, by simp,
            by simp [remainingAfter]⟩
        | succ j => simp at hj
      · intro j h0 hj
        simp at hj
        omega
      · intro image h
        simp at h
    | ok layer =>
      by_cases hq : int64 (q - layer.size) < 0
      · rw [fetchLayers_cons_quota c e id rest allLayers q w tr layer hr hq]
        refine ⟨[.fetchLayer e id q (.ok layer) (fetchLayer c e id q w).trace], rfl, by simp,
          ⟨hr.symm, rfl, trivial⟩, ?_, ?_, ?_⟩
        · intro j call hj
          cases j with
          | zero =>
            simp only [List.getElem?_cons_zero, Option.some.injEq] at hj
            subst hj
            exact ⟨id, .ok layer, (fetchLayer c e id q w).trace, by simp,
              by simp [remainingAfter]⟩
          | succ j => simp at hj
        · intro j h0 hj
          simp at hj
          omega
        · intro image h
          simp at h
      · rw [fetchLayers_cons_ok c e id rest allLayers q w tr layer hr hq]
        obtain ⟨new, htr, hlen, hsucc, hcall, hnn, hok⟩ :=
          ih (allLayers ++ [layer]) (int64 (q - layer.size)) (fetchLayer c e id q w).world
            (tr ++ [.fetchLayer e id q (.ok layer) (fetchLayer c e id q w).trace])
        have hstep : ∀ j, remainingAfter q
            (((Call.fetchLayer e id q (.ok layer) (fetchLayer c e id q w).trace :: new).take
              (j + 1)).map Call.size)
            = remainingAfter (int64 (q - layer.size)) ((new.take j).map Call.size) := by
          intro j
          simp [remainingAfter, Call.size]
        refine ⟨.fetchLayer e id q (.ok layer) (fetchLayer c e id q w).trace :: new,
          by rw [htr]; simp, by simp; omega, ⟨hr.symm, rfl, hsucc⟩, ?_, ?_, ?_⟩
        · intro j call hj
          cases j with
          | zero =>
            simp only [List.getElem?_cons_zero, Option.some.injEq] at hj
            subst hj
            exact ⟨id, .ok layer, (fetchLayer c e id q w).trace, by simp,
              by simp [remainingAfter]⟩
          | succ j =>
            simp only [List.getElem?_cons_succ] at hj
            obtain ⟨id', res, ev, hid, hc⟩ := hcall j call hj
            exact ⟨id', res, ev, by simpa using hid, by rw [hstep]; exact hc⟩
        · intro j h0 hj
          cases j with
          | zero => omega
          | succ j =>
            rw [hstep]
            cases j with
            | zero =>
              simp only [List.take_zero, List.map_nil, remainingAfter, List.foldl_nil]
              omega
            | succ j =>
              exact hnn (j + 1) (by omega) (by simp at hj; omega)
        · intro image h
          obtain ⟨hl, layers, himg, hll, hlayers⟩ := hok image h
          refine ⟨by simp [hl], layer :: layers, by simp [himg], by simp [hll], ?_⟩
          intro j l hj
          cases j with
          | zero =>
            simp only [List.getElem?_cons_zero, Option.some.injEq] at hj
            subst hj
            exact ⟨id, q, (fetchLayer c e id q w).trace, by simp⟩
          | succ j =>
            simp only [List.getElem?_cons_succ] at hj ⊢
            exact hlayers j l hj

/-- The quota left after the first `k` of some layers, for `k` at least 1, is
the initial quota minus their total size, in `int64` arithmetic. -/
theorem remainingAfter_take (q : Int) (sizes : List Int) (k : Nat) (h1 : 1 ≤ k)
    (h2 : k ≤ sizes.length) :
    remainingAfter q (sizes.take k) = int64 (q - (sizes.take k).sum) := by
  cases sizes with
  | nil => simp at h2; omega
  | cons x xs =>
    obtain ⟨k', rfl⟩ : ∃ k', k = k' + 1 := ⟨k - 1, by omega⟩
    rw [List.take_succ_cons]
    exact remainingAfter_cons q x _

/-- When every call of `fetchLayer` returns a layer, of the size `size` gives
for its id, the loop of `fetchFromEndpoint` ends with `ErrQuotaExceeded` or
with an image, and it ends with `ErrQuotaExceeded` exactly when the quota left
is negative after one of the layers. -/
theorem fetchLayers_quota {σ : Type} (c : Collaborators σ) (e : String) (size : String → Int)
    (ids : List String) :
    ∀ (allLayers : List dockerLayer) (q : Int) (w : σ) (tr : List Call),
    (∀ id ∈ ids, ∀ (remaining : Int) (w' : σ), ∃ layer,
      (fetchLayer c e id remaining w').result = .ok layer ∧ layer.size = size id) →
    ((fetchLayers c e ids allLayers q w tr).result = .error .ErrQuotaExceeded ∨
      ∃ image, (fetchLayers c e ids allLayers q w tr).result = .ok image) ∧
    ((fetchLayers c e ids allLayers q w tr).result = .error .ErrQuotaExceeded ↔
      ∃ k, 1 ≤ k ∧ k ≤ ids.length ∧ remainingAfter q ((ids.map size).take k) < 0) := by
  induction ids with
  | nil =>
    intro allLayers q w tr _
    simp [fetchLayers]
    intro k h1 h2
    omega
  | cons id rest ih =>
    intro allLayers q w tr hsucc
    obtain ⟨layer, hr, hsize⟩ := hsucc id (List.mem_cons_self _ _) q w
    have hrest : ∀ id ∈ rest, ∀ (remaining : Int) (w' : σ), ∃ layer,
        (fetchLayer c e id remaining w').result = .ok layer ∧ layer.size = size id :=
      fun id' h => hsucc id' (List.mem_cons_of_mem _ h)
    by_cases hq : int64 (q - layer.size) < 0
    · rw [fetchLayers_cons_quota c e id rest allLayers q w tr layer hr hq]
      refine ⟨Or.inl rfl, fun _ => ⟨1, le_refl _, by simp, ?_⟩, fun _ => rfl⟩
      simpa [remainingAfter, hsize] using hq
    · rw [fetchLayers_cons_ok c e id rest allLayers q w tr layer hr hq]
      obtain ⟨h1, h2⟩ := ih (allLayers ++ [layer]) (int64 (q - layer.size))
        (fetchLayer c e id q w).world
        (tr ++ [.fetchLayer e id q (.ok layer) (fetchLayer c e id q w).trace]) hrest
      refine ⟨h1, h2.trans ?_⟩
      constructor
      · rintro ⟨k, hk1, hk2, hk⟩
        refine ⟨k + 1, by omega, by simp; omega, ?_⟩
        simpa [remainingAfter, hsize] using hk
      · rintro ⟨k, hk1, hk2, hk⟩
        obtain ⟨k', rfl⟩ : ∃ k', k = k' + 1 := ⟨k - 1, by omega⟩
        have hk' : remainingAfter (int64 (q - layer.size)) ((rest.map size).take k') < 0 := by
          simpa [remainingAfter, hsize] using hk
        cases k' with
        | zero =>
          simp [remainingAfter] at hk'
          exact absurd hk' hq
        | succ k'' => exact ⟨k'' + 1, by omega, by simp at hk2; omega, hk'⟩

/-- With a quota that is not negative and sizes that are not negative, the
quota left becomes negative exactly when the total size exceeds the quota. -/
theorem remainingAfter_neg_iff (sizes : List Int) :
    ∀ q : Int, 0 ≤ q → q < 2 ^ 63 → (∀ x ∈ sizes, 0 ≤ x ∧ x < 2 ^ 63) →
    ((∃ k, 1 ≤ k ∧ k ≤ sizes.length ∧ remainingAfter q (sizes.take k) < 0) ↔ q < sizes.sum) := by
  induction sizes with
  | nil =>
    intro q h0 _ _
    simp
    constructor
    · rintro ⟨k, h1, h2, _⟩
      omega
    · intro h
      omega
  | cons x xs ih =>
    intro q h0 h1 hs
    have hx := hs x (List.mem_cons_self _ _)
    have hxs : ∀ y ∈ xs, 0 ≤ y ∧ y < 2 ^ 63 := fun y h => hs y (List.mem_cons_of_mem _ h)
    have hsum : 0 ≤ xs.sum := List.sum_nonneg (fun y h => (hxs y h).1)
    have hex : int64 (q - x) = q - x := int64_of_range _ (by omega) (by omega)
    by_cases hq : q - x < 0
    · constructor
      · intro _
        simp only [List.sum_cons]
        omega
      · intro _
        refine ⟨1, le_refl _, by simp, ?_⟩
        simpa [remainingAfter, hex] using hq
    · have hih := ih (q - x) (by omega) (by omega) hxs
      constructor
      · rintro ⟨k, hk1, hk2, hk⟩
        obtain ⟨k', rfl⟩ : ∃ k', k = k' + 1 := ⟨k - 1, by omega⟩
        have hk' : remainingAfter (q - x) (xs.take k') < 0 := by
          simpa [remainingAfter, hex] using hk
        cases k' with
        | zero =>
          simp [remainingAfter] at hk'
          omega
        | succ k'' =>
          have := hih.mp ⟨k'' + 1, by omega, by simp at hk2; omega, hk'⟩
          simp only [List.sum_cons]
          omega
      · intro h
        simp only [List.sum_cons] at h
        obtain ⟨k, hk1, hk2, hk⟩ := hih.mpr (by omega)
        refine ⟨k + 1, by omega, by simp; omega, ?_⟩
        simpa [remainingAfter, hex] using hk

/-- With a quota that is not negative, the quota left is the exact difference
as long as it has not become negative. -/
theorem remainingAfter_exact (sizes : List Int) :
    ∀ q : Int, 0 ≤ q → q < 2 ^ 63 → (∀ x ∈ sizes, -2 ^ 63 ≤ x ∧ x < 2 ^ 63) →
    (∀ j, 0 < j → j ≤ sizes.length → 0 ≤ remainingAfter q (sizes.take j)) →
    remainingAfter q sizes = q - sizes.sum := by
  induction sizes with
  | nil =>
    intro q _ _ _ _
    simp [remainingAfter]
  | cons x xs ih =>
    intro q h0 h1 hs hnn
    have hx := hs x (List.mem_cons_self _ _)
    have hxs : ∀ y ∈ xs, -2 ^ 63 ≤ y ∧ y < 2 ^ 63 := fun y h => hs y (List.mem_cons_of_mem _ h)
    have h1' : 0 ≤ int64 (q - x) := by
      have := hnn 1 (by omega) (by simp)
      simpa [remainingAfter] using this
    have hex : int64 (q - x) = q - x := by
      unfold int64 at h1' ⊢
      omega
    have hih := ih (q - x) (by omega) (by unfold int64 at h1'; omega) hxs (by
      intro j hj0 hj
      have := hnn (j + 1) (by omega) (by simp; omega)
      simpa [remainingAfter, hex] using this)
    have : remainingAfter q (x :: xs) = remainingAfter (q - x) xs := by
      simp [remainingAfter, hex]
    rw [this, hih]
    simp only [List.sum_cons]
    ring

/-- C22, as stated, fails: with the quota `MaxSize = -2 ^ 63` and a history of
one layer of 1 byte, every call of `fetchLayer` succeeding, `MaxSize` minus
the size of the first layer is negative and the total size exceeds `MaxSize`,
yet `fetchFromEndpoint` returns the image: the `int64` subtraction
`remainingQuota - layer.size` wraps around to `2 ^ 63 - 1`. -/
theorem fetchFromEndpoint_quota_underflow :
    (fetchFromEndpoint (cachedRegistry ["a"]) (sampleRequest (-2 ^ 63)) "https://registry"
        "a" ()).result = .ok ⟨[⟨[], [], 1⟩]⟩ ∧
    (sampleRequest (-2 ^ 63)).MaxSize - 1 < 0 ∧
    (sampleRequest (-2 ^ 63)).MaxSize < 1 ∧
    int64 ((sampleRequest (-2 ^ 63)).MaxSize - 1) = 2 ^ 63 - 1 ∧
    (∀ (id : String) (remaining : Int),
      (fetchLayer (cachedRegistry ["a"]).toCollaborators "https://registry" id remaining
        ()).result = .ok ⟨[], [], id.length⟩) := by
  refine ⟨by rfl, by decide, by decide, by decide, fun id remaining => rfl⟩

/-- How the loop of `fetchFromEndpoint` ends: with the error of a call of
`fetchLayer` that failed; or with `ErrQuotaExceeded`, every call having
succeeded and the quota left after the last of them being negative; or with
an image, every call having succeeded, one for every id, and the quota left
after the last of them not being negative. -/
theorem fetchLayers_result {σ : Type} (c : Collaborators σ) (e : String) (ids : List String) :
    ∀ (allLayers : List dockerLayer) (q : Int) (w : σ) (tr : List Call),
    ∃ new : List Call,
      (fetchLayers c e ids allLayers q w tr).trace = tr ++ new ∧
      ((∃ err, (fetchLayers c e ids allLayers q w tr).result = .error (.other err) ∧
          ∃ call ∈ new, call.succeeded = false) ∨
        ((fetchLayers c e ids allLayers q w tr).result = .error .ErrQuotaExceeded ∧
          (∀ call ∈ new, call.succeeded = true) ∧ 1 ≤ new.length ∧
          remainingAfter q (new.map Call.size) < 0) ∨
        (∃ image, (fetchLayers c e ids allLayers q w tr).result = .ok image ∧
          (∀ call ∈ new, call.succeeded = true) ∧ new.length = ids.length ∧
          (new = [] ∨ 0 ≤ remainingAfter q (new.map Call.size)))) := by
  induction ids with
  | nil =>
    intro allLayers q w tr
    exact ⟨[], by simp [fetchLayers], Or.inr (Or.inr ⟨⟨allLayers⟩, rfl, by simp, rfl, Or.inl rfl⟩)⟩
  | cons id rest ih =>
    intro allLayers q w tr
    cases hr : (fetchLayer c e id q w).result with
    | error err =>
      rw [fetchLayers_cons_error c e id rest allLayers q w tr err hr]
      exact ⟨[.fetchLayer e id q (.error err) (fetchLayer c e id q w).trace], rfl,
        Or.inl ⟨err, rfl, _, List.mem_singleton.mpr rfl, rfl⟩⟩
    | ok layer =>
      by_cases hq : int64 (q - layer.size) < 0
      · rw [fetchLayers_cons_quota c e id rest allLayers q w tr layer hr hq]
        refine ⟨[.fetchLayer e id q (.ok layer) (fetchLayer c e id q w).trace], rfl,
          Or.inr (Or.inl ⟨rfl, ?_, by simp, ?_⟩)⟩
        · intro call hcall
          rw [List.mem_singleton.mp hcall]
          rfl
        · simpa [remainingAfter, Call.size] using hq
      · rw [fetchLayers_cons_ok c e id rest allLayers q w tr layer hr hq]
        obtain ⟨new, htr, hcase⟩ :=
          ih (allLayers ++ [layer]) (int64 (q - layer.size)) (fetchLayer c e id q w).world
            (tr ++ [.fetchLayer e id q (.ok layer) (fetchLayer c e id q w).trace])
        have hstep : remainingAfter q
            ((Call.fetchLayer e id q (.ok layer) (fetchLayer c e id q w).trace :: new).map
              Call.size)
            = remainingAfter (int64 (q - layer.size)) (new.map Call.size) := by
          simp [remainingAfter, Call.size]
        have hall : (∀ call ∈ new, call.succeeded = true) →
            ∀ call ∈ Call.fetchLayer e id q (.ok layer) (fetchLayer c e id q w).trace :: new,
              call.succeeded = true := by
          intro h call hcall
          rcases List.mem_cons.mp hcall with hc | hc
          · rw [hc]
            rfl
          · exact h call hc
        refine ⟨.fetchLayer e id q (.ok layer) (fetchLayer c e id q w).trace :: new,
          by rw [htr]; simp, ?_⟩
        rcases hcase with ⟨err, hres, call, hmem, hfail⟩ | ⟨hres, hsucc, hlen, hneg⟩ |
          ⟨image, hres, hsucc, hlen, hnn⟩
        · exact Or.inl ⟨err, hres, call, List.mem_cons_of_mem _ hmem, hfail⟩
        · exact Or.inr (Or.inl ⟨hres, hall hsucc, by simp, by rw [hstep]; exact hneg⟩)
        · refine Or.inr (Or.inr ⟨image, hres, hall hsucc, by simp [hlen], Or.inr ?_⟩)
          rw [hstep]
          rcases hnn with hnil | hnn
          · subst hnil
            simpa [remainingAfter] using hq
          · exact hnn

/-- The sizes of the layers that successful calls of `fetchLayer` for the
first ids returned are the sizes `size` gives for these ids, when `size`
gives the size of every layer returned. -/
theorem sizes_of_calls (e : String) (ids : List String) (size : String → Int) (q : Int) :
    ∀ (calls : List Call), calls.length ≤ ids.length →
    (∀ call ∈ calls, call.succeeded = true) →
    (∀ (j : Nat) (call : Call), calls[j]? = some call → ∃ id res ev, ids[j]? = some id ∧
      call = Call.fetchLayer e id (remainingAfter q ((calls.take j).map Call.size)) res ev) →
    (∀ (id : String) (layer : dockerLayer) (remaining : Int) (ev : List Event),
      Call.fetchLayer e id remaining (.ok layer) ev ∈ calls → layer.size = size id) →
    calls.map Call.size = (ids.take calls.length).map size := by
  intro calls hlen hsucc hcall hsize
  apply List.ext_getElem
  · simp [hlen]
  · intro j h1 h2
    have hj : j < calls.length := by simpa using h1
    obtain ⟨id, res, ev, hid, hc⟩ := hcall j calls[j] (List.getElem?_eq_getElem hj)
    have hmem : calls[j] ∈ calls := List.getElem_mem hj
    have hs := hsucc _ hmem
    have hji : j < ids.length := by omega
    have hidj : ids[j] = id := by
      have := List.getElem?_eq_getElem hji
      rw [this] at hid
      exact Option.some.inj hid
    cases res with
    | error err =>
      rw [hc] at hs
      exact absurd hs (by simp [Call.succeeded])
    | ok layer =>
      have hl := hsize id layer _ ev (hc ▸ hmem)
      simp only [List.getElem_map, List.getElem_take, hidj]
      rw [hc]
      exact hl

/-- C22, amended: when the history is obtained and every call of `fetchLayer`
that `fetchFromEndpoint` makes succeeds, `fetchFromEndpoint` returns
`ErrQuotaExceeded` or an image, and on success it has made a call for every
entry of the history. It returns `ErrQuotaExceeded` if and only if for some
`k ≥ 1` the `int64` value of `MaxSize` minus the total size of the first `k`
layers fetched is negative; so, when these differences are `int64` values (no
subtraction wraps around), if and only if for some `k ≥ 1` `MaxSize` minus the
total size of the first `k` layers fetched is negative. With `0 ≤ MaxSize` and
layer sizes that are not negative it fails exactly when the total size of the
layers fetched exceeds `MaxSize`, a total equal to `MaxSize` being accepted;
the same holds of the total size of the layers of the history, when `size`
gives for every id the size of the layer fetched for it and a size that is
not negative; and with an empty history it succeeds for every `MaxSize`. -/
theorem fetchFromEndpoint_quota {σ : Type} (s : Registry σ) (request : FetchRequest)
    (endpointURL imgID : String) (w w1 : σ) (history : List String)
    (hhist : s.GetRemoteHistory imgID endpointURL w = (.ok history, w1))
    (hcalls : ∀ call ∈ (fetchFromEndpoint s request endpointURL imgID w).trace,
      call.succeeded = true) :
    ∃ calls : List Call,
      (fetchFromEndpoint s request endpointURL imgID w).trace
        = Call.GetRemoteHistory imgID endpointURL :: calls ∧
      successiveLayers s.toCollaborators w1 calls ∧
      calls.length ≤ history.length ∧
      ((fetchFromEndpoint s request endpointURL imgID w).result = .error .ErrQuotaExceeded ∨
        ∃ image, (fetchFromEndpoint s request endpointURL imgID w).result = .ok image) ∧
      (∀ image, (fetchFromEndpoint s request endpointURL imgID w).result = .ok image →
        calls.length = history.length) ∧
      ((fetchFromEndpoint s request endpointURL imgID w).result = .error .ErrQuotaExceeded ↔
        ∃ k, 1 ≤ k ∧ k ≤ calls.length ∧
          int64 (request.MaxSize - fetchedSize (calls.take k)) < 0) ∧
      ((∀ k, k ≤ calls.length →
          -2 ^ 63 ≤ request.MaxSize - fetchedSize (calls.take k) ∧
          request.MaxSize - fetchedSize (calls.take k) < 2 ^ 63) →
        ((fetchFromEndpoint s request endpointURL imgID w).result = .error .ErrQuotaExceeded ↔
          ∃ k, 1 ≤ k ∧ k ≤ calls.length ∧
            request.MaxSize - fetchedSize (calls.take k) < 0)) ∧
      (0 ≤ request.MaxSize → request.MaxSize < 2 ^ 63 →
        (∀ call ∈ calls, 0 ≤ call.size ∧ call.size < 2 ^ 63) →
        ((fetchFromEndpoint s request endpointURL imgID w).result = .error .ErrQuotaExceeded ↔
          request.MaxSize < fetchedSize calls) ∧
        (request.MaxSize = fetchedSize calls →
          ∃ image, (fetchFromEndpoint s request endpointURL imgID w).result = .ok image)) ∧
      (∀ size : String → Int,
        (∀ (id : String) (layer : dockerLayer) (remaining : Int) (ev : List Event),
          Call.fetchLayer endpointURL id remaining (.ok layer) ev ∈ calls →
            layer.size = size id) →
        0 ≤ request.MaxSize → request.MaxSize < 2 ^ 63 →
        (∀ id ∈ history, 0 ≤ size id ∧ size id < 2 ^ 63) →
        ((fetchFromEndpoint s request endpointURL imgID w).result = .error .ErrQuotaExceeded ↔
          request.MaxSize < (history.map size).sum) ∧
        (request.MaxSize = (history.map size).sum →
          ∃ image, (fetchFromEndpoint s request endpointURL imgID w).result = .ok image)) ∧
      (history = [] →
        (fetchFromEndpoint s request endpointURL imgID w).result = .ok ⟨[]⟩) := by
  have hdef : fetchFromEndpoint s request endpointURL imgID w
      = fetchLayers s.toCollaborators endpointURL history.reverse [] request.MaxSize w1
          [Call.GetRemoteHistory imgID endpointURL] := by
    simp only [fetchFromEndpoint, hhist]
  obtain ⟨calls, htr, hlen, hsucc, hcall, hnn, -⟩ :=
    fetchLayers_spec s.toCollaborators endpointURL history.reverse [] request.MaxSize w1
      [Call.GetRemoteHistory imgID endpointURL]
  obtain ⟨calls', htr', hcase⟩ :=
    fetchLayers_result s.toCollaborators endpointURL history.reverse [] request.MaxSize w1
      [Call.GetRemoteHistory imgID endpointURL]
  have hsame : calls' = calls := List.append_cancel_left (htr'.symm.trans htr)
  subst hsame
  rw [← hdef] at htr hcase
  have htr2 : (fetchFromEndpoint s request endpointURL imgID w).trace
      = Call.GetRemoteHistory imgID endpointURL :: calls' := by simpa using htr
  have hlen' : calls'.length ≤ history.length := by simpa using hlen
  have hall : ∀ call ∈ calls', call.succeeded = true := by
    intro call hmem
    exact hcalls call (by rw [htr2]; exact List.mem_cons_of_mem _ hmem)
  have hfetched : ∀ k, fetchedSize (calls'.take k) = ((calls'.map Call.size).take k).sum := by
    intro k
    simp [fetchedSize, List.map_take]
  have hrem : ∀ k, 1 ≤ k → k ≤ calls'.length →
      remainingAfter request.MaxSize ((calls'.map Call.size).take k)
        = int64 (request.MaxSize - fetchedSize (calls'.take k)) := by
    intro k hk1 hk2
    rw [remainingAfter_take _ _ k hk1 (by simpa using hk2), hfetched]
  have hnn' : ∀ k, 0 < k → k < calls'.length →
      0 ≤ remainingAfter request.MaxSize ((calls'.map Call.size).take k) := by
    intro k hk1 hk2
    have := hnn k hk1 hk2
    simpa [List.map_take] using this
  have hres : (fetchFromEndpoint s request endpointURL imgID w).result = .error .ErrQuotaExceeded ∨
      ∃ image, (fetchFromEndpoint s request endpointURL imgID w).result = .ok image := by
    rcases hcase with ⟨err, _, call, hmem, hfail⟩ | ⟨hres, _⟩ | ⟨image, hres, _⟩
    · rw [hall call hmem] at hfail
      exact absurd hfail (by decide)
    · exact Or.inl hres
    · exact Or.inr ⟨image, hres⟩
  have hoklen : ∀ image, (fetchFromEndpoint s request endpointURL imgID w).result = .ok image →
      calls'.length = history.length := by
    intro image himg
    rcases hcase with ⟨err, hres, _⟩ | ⟨hres, _⟩ | ⟨image', _, _, hl, _⟩
    · rw [hres] at himg
      cases himg
    · rw [hres] at himg
      cases himg
    · simpa using hl
  have hkey : (fetchFromEndpoint s request endpointURL imgID w).result = .error .ErrQuotaExceeded ↔
      ∃ k, 1 ≤ k ∧ k ≤ calls'.length ∧
        remainingAfter request.MaxSize ((calls'.map Call.size).take k) < 0 := by
    rcases hcase with ⟨err, _, call, hmem, hfail⟩ | ⟨hres, _, hl, hneg⟩ | ⟨image, hres, _, _, hlast⟩
    · rw [hall call hmem] at hfail
      exact absurd hfail (by decide)
    · refine ⟨fun _ => ⟨calls'.length, hl, le_refl _, ?_⟩, fun _ => hres⟩
      rw [← List.length_map calls' Call.size, List.take_length]
      exact hneg
    · constructor
      · intro h
        rw [hres] at h
        cases h
      · rintro ⟨k, hk1, hk2, hk⟩
        exfalso
        rcases Nat.lt_or_ge k calls'.length with hlt | hge
        · have := hnn' k hk1 hlt
          omega
        · have hk3 : k = calls'.length := by omega
          subst hk3
          rw [← List.length_map calls' Call.size, List.take_length] at hk
          rcases hlast with hnil | h0
          · subst hnil
            simp at hk1
          · omega
  have hint : (fetchFromEndpoint s request endpointURL imgID w).result = .error .ErrQuotaExceeded ↔
      ∃ k, 1 ≤ k ∧ k ≤ calls'.length ∧
        int64 (request.MaxSize - fetchedSize (calls'.take k)) < 0 := by
    rw [hkey]
    constructor
    · rintro ⟨k, hk1, hk2, hk⟩
      exact ⟨k, hk1, hk2, by rw [← hrem k hk1 hk2]; exact hk⟩
    · rintro ⟨k, hk1, hk2, hk⟩
      exact ⟨k, hk1, hk2, by rw [hrem k hk1 hk2]; exact hk⟩
  have htotal : 0 ≤ request.MaxSize → request.MaxSize < 2 ^ 63 →
      (∀ call ∈ calls', 0 ≤ call.size ∧ call.size < 2 ^ 63) →
      ((fetchFromEndpoint s request endpointURL imgID w).result = .error .ErrQuotaExceeded ↔
        request.MaxSize < fetchedSize calls') := by
    intro h0 hmax hsizes
    rw [hkey]
    have := remainingAfter_neg_iff (calls'.map Call.size) request.MaxSize h0 hmax (by
      intro x hx
      obtain ⟨call, hmem, rfl⟩ := List.mem_map.mp hx
      exact hsizes call hmem)
    simpa [fetchedSize] using this
  refine ⟨calls', htr2, hsucc, hlen', hres, hoklen, hint, ?_, ?_, ?_, ?_⟩
  · intro hrange
    rw [hint]
    constructor
    · rintro ⟨k, hk1, hk2, hk⟩
      rw [int64_of_range _ (hrange k hk2).1 (hrange k hk2).2] at hk
      exact ⟨k, hk1, hk2, hk⟩
    · rintro ⟨k, hk1, hk2, hk⟩
      refine ⟨k, hk1, hk2, ?_⟩
      rw [int64_of_range _ (hrange k hk2).1 (hrange k hk2).2]
      exact hk
  · intro h0 hmax hsizes
    have hiff := htotal h0 hmax hsizes
    refine ⟨hiff, fun heq => ?_⟩
    rcases hres with h | h
    · have := hiff.mp h
      omega
    · exact h
  · intro size hsize h0 hmax hsizes
    have hmap : calls'.map Call.size = ((history.reverse).take calls'.length).map size :=
      sizes_of_calls endpointURL history.reverse size request.MaxSize calls' hlen hall hcall hsize
    have hin : ∀ call ∈ calls', 0 ≤ call.size ∧ call.size < 2 ^ 63 := by
      intro call hmem
      have hx : call.size ∈ calls'.map Call.size := List.mem_map.mpr ⟨call, hmem, rfl⟩
      rw [hmap] at hx
      obtain ⟨id, hid, hidsize⟩ := List.mem_map.mp hx
      rw [← hidsize]
      exact hsizes id (List.mem_reverse.mp (List.mem_of_mem_take hid))
    have hiff := htotal h0 hmax hin
    have hsum : (history.map size).sum
        = fetchedSize calls' + (((history.reverse).drop calls'.length).map size).sum := by
      rw [fetchedSize, hmap, ← List.sum_append, ← List.map_append, List.take_append_drop,
        List.map_reverse, List.sum_reverse]
    have hdrop : 0 ≤ (((history.reverse).drop calls'.length).map size).sum := by
      apply List.sum_nonneg
      intro x hx
      obtain ⟨id, hid, hidsize⟩ := List.mem_map.mp hx
      rw [← hidsize]
      exact (hsizes id (List.mem_reverse.mp (List.mem_of_mem_drop hid))).1
    have hokall : ∀ image, (fetchFromEndpoint s request endpointURL imgID w).result = .ok image →
        (history.map size).sum = fetchedSize calls' := by
      intro image himg
      have hl := hoklen image himg
      rw [hsum, List.drop_of_length_le (by simp [hl])]
      simp
    have hne : ∀ image, (fetchFromEndpoint s request endpointURL imgID w).result = .ok image →
        ¬ (fetchFromEndpoint s request endpointURL imgID w).result = .error .ErrQuotaExceeded := by
      intro image himg h
      rw [himg] at h
      cases h
    have hiff2 : (fetchFromEndpoint s request endpointURL imgID w).result
          = .error .ErrQuotaExceeded ↔ request.MaxSize < (history.map size).sum := by
      constructor
      · intro h
        have := hiff.mp h
        omega
      · intro h
        rcases hres with hq | ⟨image, himg⟩
        · exact hq
        · rw [hokall image himg] at h
          exact hiff.mpr h
    refine ⟨hiff2, fun heq => ?_⟩
    rcases hres with h | h
    · have := hiff2.mp h
      omega
    · exact h
  · intro hnil
    subst hnil
    rw [hdef]
    rfl

/-- Witness of `fetchFromEndpoint_quota`: with the history
`layer3, layer2, layer1`, an empty graph and layers of 10 bytes, every call
of `fetchLayer` succeeds; the quota 25 is exceeded by the third layer and the
quota 30 is not exceeded. -/
theorem fetchFromEndpoint_quota_witness :
    (∀ call ∈ (fetchFromEndpoint sampleRegistry (sampleRequest 25) "https://registry" "layer3"
        []).trace, call.succeeded = true) ∧
    (∃ calls : List Call,
      (fetchFromEndpoint sampleRegistry (sampleRequest 25) "https://registry" "layer3" []).trace
        = Call.GetRemoteHistory "layer3" "https://registry" :: calls ∧
      calls.length ≤ ["layer3", "layer2", "layer1"].length ∧
      ((fetchFromEndpoint sampleRegistry (sampleRequest 25) "https://registry" "layer3"
          []).result = .error .ErrQuotaExceeded ↔
        ∃ k, 1 ≤ k ∧ k ≤ calls.length ∧
          int64 ((sampleRequest 25).MaxSize - fetchedSize (calls.take k)) < 0)) ∧
    (fetchFromEndpoint sampleRegistry (sampleRequest 25) "https://registry" "layer3" []).result
      = .error .ErrQuotaExceeded ∧
    (fetchFromEndpoint sampleRegistry (sampleRequest 25) "https://registry" "layer3"
        []).trace.map Call.size = [0, 10, 10, 10] ∧
    (fetchFromEndpoint sampleRegistry (sampleRequest 30) "https://registry" "layer3" []).result
      = .ok ⟨[⟨[], [], 10⟩, ⟨[], [], 10⟩, ⟨[], [], 10⟩]⟩ :=
  ⟨by decide,
    (fetchFromEndpoint_quota sampleRegistry (sampleRequest 25) "https://registry" "layer3" [] []
      ["layer3", "layer2", "layer1"] rfl (by decide)).imp
      (fun _ h => ⟨h.1, h.2.2.1, h.2.2.2.2.2.1⟩),
    by rfl, by decide, by rfl⟩

/-- C26, as stated, fails: with `MaxSize = -2 ^ 63`, the history `ab, a` and
the cached layers `a` (1 byte) and `ab` (2 bytes), the call of `fetchLayer`
for `a` receives `-2 ^ 63` and returns the layer of 1 byte, and the call for
`ab` then receives `2 ^ 63 - 1`, which is not `MaxSize` minus the size of the
layer fetched before it: the `int64` subtraction wraps around. -/
theorem fetchFromEndpoint_remaining_wraps :
    (fetchFromEndpoint (cachedRegistry ["ab", "a"]) (sampleRequest (-2 ^ 63))
        "https://registry" "ab" ()).trace
      = [Call.GetRemoteHistory "ab" "https://registry",
          Call.fetchLayer "https://registry" "a" (-2 ^ 63) (.ok ⟨[], [], 1⟩)
            [.LockAcquire "a", .GraphGet "a", .LockRelease "a"],
          Call.fetchLayer "https://registry" "ab" (2 ^ 63 - 1) (.ok ⟨[], [], 2⟩)
            [.LockAcquire "ab", .GraphGet "ab", .LockRelease "ab"]] ∧
    (sampleRequest (-2 ^ 63)).MaxSize - 1 ≠ 2 ^ 63 - 1 ∧
    int64 ((sampleRequest (-2 ^ 63)).MaxSize - 1) = 2 ^ 63 - 1 := by
  refine ⟨by rfl, by decide, by decide⟩

/-- C26, amended: `fetchFromEndpoint` fetches the layers in reverse history
order, the last history entry first. After `GetRemoteHistory` its calls are
successive calls of `fetchLayer`; the call number `j` (from 0) is for
`history[len(history) - 1 - j]`, and the `remaining` quota passed to it is
`MaxSize` after the subtraction, in the `int64` arithmetic of the source, of
the sizes of the layers fetched before it: `MaxSize` minus their sum modulo
`2 ^ 64`, which is exactly `MaxSize` minus their sum when that difference is
an `int64` value, and always when `MaxSize` is not negative. On success there
is a call for every history entry, the image has exactly `len(history)`
layers, and its layer number `j` is the one the call for
`history[len(history) - 1 - j]` returned. -/
theorem fetchFromEndpoint_reverse_history {σ : Type} (s : Registry σ)
    (request : FetchRequest) (endpointURL imgID : String) (w w1 : σ)
    (history : List String)
    (hhist : s.GetRemoteHistory imgID endpointURL w = (.ok history, w1)) :
    ∃ calls : List Call,
      (fetchFromEndpoint s request endpointURL imgID w).trace
        = Call.GetRemoteHistory imgID endpointURL :: calls ∧
      calls.length ≤ history.length ∧
      successiveLayers s.toCollaborators w1 calls ∧
      (∀ (j : Nat) (call : Call), calls[j]? = some call →
        ∃ id res ev, j < history.length ∧ history[history.length - 1 - j]? = some id ∧
          call = Call.fetchLayer endpointURL id
            (remainingAfter request.MaxSize ((calls.take j).map Call.size)) res ev ∧
          (-2 ^ 63 ≤ request.MaxSize → request.MaxSize < 2 ^ 63 →
            remainingAfter request.MaxSize ((calls.take j).map Call.size)
              = int64 (request.MaxSize - fetchedSize (calls.take j))) ∧
          (-2 ^ 63 ≤ request.MaxSize → request.MaxSize < 2 ^ 63 →
            -2 ^ 63 ≤ request.MaxSize - fetchedSize (calls.take j) →
            request.MaxSize - fetchedSize (calls.take j) < 2 ^ 63 →
            remainingAfter request.MaxSize ((calls.take j).map Call.size)
              = request.MaxSize - fetchedSize (calls.take j)) ∧
          (0 ≤ request.MaxSize → request.MaxSize < 2 ^ 63 →
            (∀ c ∈ calls, -2 ^ 63 ≤ c.size ∧ c.size < 2 ^ 63) →
            remainingAfter request.MaxSize ((calls.take j).map Call.size)
              = request.MaxSize - fetchedSize (calls.take j))) ∧
      (∀ image, (fetchFromEndpoint s request endpointURL imgID w).result = .ok image →
        image.layers.length = history.length ∧ calls.length = history.length ∧
        ∀ (j : Nat) (layer : dockerLayer), image.layers[j]? = some layer →
          ∃ id rem ev, history[history.length - 1 - j]? = some id ∧
            calls[j]? = some (Call.fetchLayer endpointURL id rem (.ok layer) ev)) := by
  have hdef : fetchFromEndpoint s request endpointURL imgID w
      = fetchLayers s.toCollaborators endpointURL history.reverse [] request.MaxSize w1
          [Call.GetRemoteHistory imgID endpointURL] := by
    simp only [fetchFromEndpoint, hhist]
  obtain ⟨calls, htr, hlen, hsucc, hcall, hnn, hok⟩ :=
    fetchLayers_spec s.toCollaborators endpointURL history.reverse [] request.MaxSize w1
      [Call.GetRemoteHistory imgID endpointURL]
  rw [← hdef] at htr hok
  have hlen' : calls.length ≤ history.length := by simpa using hlen
  have hrev : ∀ (j : Nat) (id : String), history.reverse[j]? = some id →
      j < history.length ∧ history[history.length - 1 - j]? = some id := by
    intro j id h
    have hj : j < history.length := by
      have := (List.getElem?_eq_some_iff.mp h).1
      simpa using this
    exact ⟨hj, by rw [← List.getElem?_reverse hj]; exact h⟩
  refine ⟨calls, by simpa using htr, hlen', hsucc, ?_, ?_⟩
  · intro j call hj
    obtain ⟨id, res, ev, hid, hc⟩ := hcall j call hj
    have hjlt : j < calls.length := (List.getElem?_eq_some_iff.mp hj).1
    refine ⟨id, res, ev, (hrev j id hid).1, (hrev j id hid).2, hc, ?_, ?_, ?_⟩
    · intro h1 h2
      exact remainingAfter_eq _ _ h1 h2
    · intro h1 h2 h3 h4
      rw [remainingAfter_eq _ _ h1 h2]
      exact int64_of_range _ h3 h4
    · intro h0 h2 hsizes
      have := remainingAfter_exact ((calls.take j).map Call.size) request.MaxSize h0 h2 (by
        intro x hx
        obtain ⟨c, hc', rfl⟩ := List.mem_map.mp hx
        exact hsizes c (List.mem_of_mem_take hc')) (by
        intro i hi0 hi
        have hij : i ≤ j := by
          simp only [List.length_map, List.length_take] at hi
          omega
        have := hnn i hi0 (by omega)
        rw [← List.map_take, List.take_take, Nat.min_eq_left hij]
        exact this)
      rw [this]
      rfl
  · intro image himg
    obtain ⟨hl, layers, hlayers, hll, hget⟩ := hok image himg
    simp only [List.nil_append] at hlayers
    refine ⟨by rw [hlayers, hll]; simp, by simpa using hl, ?_⟩
    intro j layer hj
    rw [hlayers] at hj
    obtain ⟨id, rem, ev, hnew⟩ := hget j layer hj
    obtain ⟨id', res', ev', hid', hc'⟩ := hcall j _ hnew
    have hidEq : id = id' := by
      injection hc' with _ h _ _ _
    subst hidEq
    exact ⟨id, rem, ev, (hrev j id hid').2, hnew⟩

/-- Witness of `fetchFromEndpoint_reverse_history`: with the history
`layer3, layer2, layer1`, an empty graph, layers of 10 bytes and the quota
100, the layers are fetched in the order `layer1, layer2, layer3` with 100, 90
and 80 bytes remaining. -/
theorem fetchFromEndpoint_reverse_history_witness :
    (∃ calls : List Call,
      (fetchFromEndpoint sampleRegistry (sampleRequest 100) "https://registry" "layer3" []).trace
        = Call.GetRemoteHistory "layer3" "https://registry" :: calls ∧
      calls.length ≤ ["layer3", "layer2", "layer1"].length) ∧
    (fetchFromEndpoint sampleRegistry (sampleRequest 100) "https://registry" "layer3" []).result
      = .ok ⟨[⟨[], [], 10⟩, ⟨[], [], 10⟩, ⟨[], [], 10⟩]⟩ ∧
    (fetchFromEndpoint sampleRegistry (sampleRequest 100) "https://registry" "layer3" []).trace.map
        (fun call => match call with
          | .fetchLayer _ layerID remaining _ _ => (layerID, remaining)
          | _ => ("", 0))
      = [("", 0), ("layer1", 100), ("layer2", 90), ("layer3", 80)] :=
  ⟨(fetchFromEndpoint_reverse_history sampleRegistry (sampleRequest 100) "https://registry"
      "layer3" [] [] ["layer3", "layer2", "layer1"] rfl).imp (fun _ h => ⟨h.1, h.2.1⟩),
    by rfl, by decide⟩

end repository_fetcher

/-! ## Theorems: the endpoint loop of `Fetch` -/

namespace repository_fetcher

/-- The loop when the fetch from the endpoint succeeds. -/
theorem tryEndpoints_cons_ok {σ : Type} (s : Registry σ) (im : dockerImageMethods)
    (request : FetchRequest) (imgID e : String) (rest : List String) (err0 : Option Error)
    (w : σ) (tr : List Call) (att : List (String × EndpointResult σ)) (image : dockerImage)
    (h : (fetchFromEndpoint s request e imgID w).result = .ok image) :
    tryEndpoints s im request imgID (e :: rest) err0 w tr att
      = ⟨some ⟨imgID, im.Vols image, im.Env image⟩, none,
          (fetchFromEndpoint s request e imgID w).world,
          tr ++ (fetchFromEndpoint s request e imgID w).trace,
          att ++ [(e, fetchFromEndpoint s request e imgID w)]⟩ := by
  simp only [tryEndpoints, h]

/-- The loop when the fetch from the endpoint exceeds the quota. -/
theorem tryEndpoints_cons_quota {σ : Type} (s : Registry σ) (im : dockerImageMethods)
    (request : FetchRequest) (imgID e : String) (rest : List String) (err0 : Option Error)
    (w : σ) (tr : List Call) (att : List (String × EndpointResult σ))
    (h : (fetchFromEndpoint s request e imgID w).result = .error .ErrQuotaExceeded) :
    tryEndpoints s im request imgID (e :: rest) err0 w tr att
      = ⟨none, some .ErrQuotaExceeded, (fetchFromEndpoint s request e imgID w).world,
          tr ++ (fetchFromEndpoint s request e imgID w).trace,
          att ++ [(e, fetchFromEndpoint s request e imgID w)]⟩ := by
  simp only [tryEndpoints, h]

/-- The loop when the fetch from the endpoint fails with another error. -/
theorem tryEndpoints_cons_error {σ : Type} (s : Registry σ) (im : dockerImageMethods)
    (request : FetchRequest) (imgID e : String) (rest : List String) (err0 : Option Error)
    (w : σ) (tr : List Call) (att : List (String × EndpointResult σ)) (err : Error)
    (h : (fetchFromEndpoint s request e imgID w).result = .error err)
    (hne : err ≠ .ErrQuotaExceeded) :
    tryEndpoints s im request imgID (e :: rest) err0 w tr att
      = tryEndpoints s im request imgID rest (some err)
          (fetchFromEndpoint s request e imgID w).world
          (tr ++ (fetchFromEndpoint s request e imgID w).trace)
          (att ++ [(e, fetchFromEndpoint s request e imgID w)]) := by
  cases err with
  | ErrQuotaExceeded => exact absurd rfl hne
  | other msg => simp only [tryEndpoints, h]
  | Errorf format arg => simp only [tryEndpoints, h]
  | FetchError context registry reponame cause => simp only [tryEndpoints, h]

/-- What the endpoint loop of `Fetch` does: it makes successive calls of
`fetchFromEndpoint` for the endpoints in list order; a call that succeeds or
fails with `ErrQuotaExceeded` is the last one and decides the result; a call
that fails with another error is followed by the call for the next endpoint,
and when there is none the loop ends with the `fetchFromEndPoint` error. -/
theorem tryEndpoints_spec {σ : Type} (s : Registry σ) (im : dockerImageMethods)
    (request : FetchRequest) (imgID : String) (endpoints : List String) :
    ∀ (err0 : Option Error) (w : σ) (tr : List Call) (att : List (String × EndpointResult σ)),
    ∃ new : List (String × EndpointResult σ),
      (tryEndpoints s im request imgID endpoints err0 w tr att).attempts = att ++ new ∧
      (tryEndpoints s im request imgID endpoints err0 w tr att).trace
        = tr ++ new.flatMap (fun a => a.2.trace) ∧
      new.map Prod.fst <+: endpoints ∧
      successive s request imgID w new ∧
      (endpoints ≠ [] → new ≠ []) ∧
      (∀ (i : Nat) (endpoint : String) (r : EndpointResult σ), new[i]? = some (endpoint, r) →
        (∀ image, r.result = .ok image →
          new.length = i + 1 ∧
          (tryEndpoints s im request imgID endpoints err0 w tr att).response
            = some ⟨imgID, im.Vols image, im.Env image⟩ ∧
          (tryEndpoints s im request imgID endpoints err0 w tr att).err = none) ∧
        (r.result = .error .ErrQuotaExceeded →
          new.length = i + 1 ∧
          (tryEndpoints s im request imgID endpoints err0 w tr att).response = none ∧
          (tryEndpoints s im request imgID endpoints err0 w tr att).err
            = some .ErrQuotaExceeded) ∧
        (∀ err, r.result = .error err → err ≠ .ErrQuotaExceeded →
          (i + 1 < endpoints.length → i + 1 < new.length) ∧
          (i + 1 = endpoints.length →
            (tryEndpoints s im request imgID endpoints err0 w tr att).response = none ∧
            (tryEndpoints s im request imgID endpoints err0 w tr att).err
              = some (.FetchError "fetchFromEndPoint" request.Endpoint.URL.Host request.Path
                  (.Errorf "all endpoints failed: %v" (some err))))) ∧
        (∀ j, j < i → ∃ e' r' err', new[j]? = some (e', r') ∧ r'.result = .error err' ∧
          err' ≠ .ErrQuotaExceeded)) ∧
      (∀ resp, (tryEndpoints s im request imgID endpoints err0 w tr att).response = some resp →
        ∃ endpoint r image, new.getLast? = some (endpoint, r) ∧ r.result = .ok image ∧
          resp = ⟨imgID, im.Vols image, im.Env image⟩) := by
  induction endpoints with
  | nil =>
    intro err0 w tr att
    refine ⟨[], by simp [tryEndpoints], by simp [tryEndpoints], by simp, trivial,
      fun h => absurd rfl h, by simp, by simp [tryEndpoints]⟩
  | cons e rest ih =>
    intro err0 w tr att
    cases hr : (fetchFromEndpoint s request e imgID w).result with
    | ok image =>
      rw [tryEndpoints_cons_ok s im request imgID e rest err0 w tr att image hr]
      refine ⟨[(e, fetchFromEndpoint s request e imgID w)], rfl, by simp, by simp,
        ⟨rfl, trivial⟩, fun _ => by simp, ?_, ?_⟩
      · intro i endpoint r hi
        cases i with
        | succ i => simp at hi
        | zero =>
          simp only [List.getElem?_cons_zero, Option.some.injEq, Prod.mk.injEq] at hi
          obtain ⟨rfl, rfl⟩ := hi
          refine ⟨?_, ?_, ?_, ?_⟩
          · intro image' h'
            rw [hr] at h'
            cases h'
            exact ⟨rfl, rfl, rfl⟩
          · intro h'
            rw [hr] at h'
            cases h'
          · intro err h'
            rw [hr] at h'
            cases h'
          · intro j hj
            omega
      · intro resp hresp
        simp only [Option.some.injEq] at hresp
        exact ⟨e, _, image, by simp, hr, hresp.symm⟩
    | error err =>
      by_cases hq : err = .ErrQuotaExceeded
      · subst hq
        rw [tryEndpoints_cons_quota s im request imgID e rest err0 w tr att hr]
        refine ⟨[(e, fetchFromEndpoint s request e imgID w)], rfl, by simp, by simp,
          ⟨rfl, trivial⟩, fun _ => by simp, ?_, by simp⟩
        intro i endpoint r hi
        cases i with
        | succ i => simp at hi
        | zero =>
          simp only [List.getElem?_cons_zero, Option.some.injEq, Prod.mk.injEq] at hi
          obtain ⟨rfl, rfl⟩ := hi
          refine ⟨?_, ?_, ?_, ?_⟩
          · intro image' h'
            rw [hr] at h'
            cases h'
          · intro _
            exact ⟨rfl, rfl, rfl⟩
          · intro err h' hne
            rw [hr] at h'
            cases h'
            exact absurd rfl hne
          · intro j hj
            omega
      · rw [tryEndpoints_cons_error s im request imgID e rest err0 w tr att err hr hq]
        obtain ⟨new, hatt, htr, hpre, hsucc, hne, hidx, hresp⟩ :=
          ih (some err) (fetchFromEndpoint s request e imgID w).world
            (tr ++ (fetchFromEndpoint s request e imgID w).trace)
            (att ++ [(e, fetchFromEndpoint s request e imgID w)])
        refine ⟨(e, fetchFromEndpoint s request e imgID w) :: new, by rw [hatt]; simp,
          by rw [htr]; simp, ?_, ⟨rfl, hsucc⟩, fun _ => by simp, ?_, ?_⟩
        · simp only [List.map_cons]
          exact (List.prefix_cons_inj e).mpr hpre
        · intro i endpoint r hi
          cases i with
          | zero =>
            simp only [List.getElem?_cons_zero, Option.some.injEq, Prod.mk.injEq] at hi
            obtain ⟨rfl, rfl⟩ := hi
            refine ⟨?_, ?_, ?_, ?_⟩
            · intro image' h'
              rw [hr] at h'
              cases h'
            · intro h'
              rw [hr] at h'
              cases h'
              exact absurd rfl hq
            · intro err' h' _
              rw [hr] at h'
              cases h'
              constructor
              · intro hlt
                have : rest ≠ [] := by
                  intro h
                  subst h
                  simp at hlt
                have := List.length_pos.mpr (hne this)
                simp only [List.length_cons]
                omega
              · intro heq
                have hnil : rest = [] := by
                  cases rest with
                  | nil => rfl
                  | cons a l => simp at heq
                subst hnil
                simp [tryEndpoints]
            · intro j hj
              omega
          | succ i =>
            simp only [List.getElem?_cons_succ] at hi
            obtain ⟨h1, h2, h3, h4⟩ := hidx i endpoint r hi
            refine ⟨?_, ?_, ?_, ?_⟩
            · intro image' h'
              obtain ⟨a, b, c⟩ := h1 image' h'
              exact ⟨by simp [a], b, c⟩
            · intro h'
              obtain ⟨a, b, c⟩ := h2 h'
              exact ⟨by simp [a], b, c⟩
            · intro err' h' hne'
              obtain ⟨a, b⟩ := h3 err' h' hne'
              exact ⟨fun hlt => by simp only [List.length_cons] at hlt ⊢; omega,
                fun heq => b (by simp only [List.length_cons] at heq; omega)⟩
            · intro j hj
              cases j with
              | zero => exact ⟨e, _, err, by simp, hr, hq⟩
              | succ j =>
                obtain ⟨e', r', err', ha, hb, hc⟩ := h4 j (by omega)
                exact ⟨e', r', err', by simpa using ha, hb, hc⟩
        · intro resp hr'
          obtain ⟨endpoint, r, image, hlast, hres, heq⟩ := hresp resp hr'
          refine ⟨endpoint, r, image, ?_, hres, heq⟩
          cases new with
          | nil => simp at hlast
          | cons a l => simpa [List.getLast?_cons_cons] using hlast

/-- A tag that is not a key of the tag list is not found. -/
theorem lookup_none_of_not_key (tag : String) (tagsList : List (String × String))
    (h : tag ∉ tagsList.map Prod.fst) : tagsList.lookup tag = none := by
  induction tagsList with
  | nil => rfl
  | cons p l ih =>
    obtain ⟨k, v⟩ := p
    simp only [List.map_cons, List.mem_cons, not_or] at h
    have hk : (tag == k) = false := by simpa using h.1
    simp only [List.lookup, hk]
    exact ih h.2

/-- When the repository data and the tag list are obtained and the tag is
known, `Fetch` is its endpoint loop. -/
theorem Fetch_eq_tryEndpoints {σ : Type} (s : Registry σ) (im : dockerImageMethods)
    (request : FetchRequest) (w w1 w2 : σ) (repoData : RepositoryData)
    (tagsList : List (String × String)) (imgID : String)
    (hrepo : s.GetRepositoryData request.Path w = (.ok repoData, w1))
    (htags : s.GetRemoteTags repoData.Endpoints request.Path w1 = (.ok tagsList, w2))
    (hlookup : tagsList.lookup request.Tag = some imgID) :
    Fetch s im request w
      = tryEndpoints s im request imgID repoData.Endpoints none w2
          [Call.GetRepositoryData request.Path,
            Call.GetRemoteTags repoData.Endpoints request.Path] [] := by
  simp only [Fetch, hrepo, htags, hlookup, List.singleton_append]

/-- The attempts of `Fetch` are for the endpoints of the repository, in list
order. -/
theorem endpoint_of_attempt {σ : Type} (attempts : List (String × EndpointResult σ))
    (endpoints : List String) (h : attempts.map Prod.fst <+: endpoints) (i : Nat) :
    (∀ endpoint r, attempts[i]? = some (endpoint, r) → endpoints[i]? = some endpoint) ∧
    (i < attempts.length → ∀ next, endpoints[i]? = some next →
      ∃ r, attempts[i]? = some (next, r)) := by
  obtain ⟨t, ht⟩ := h
  constructor
  · intro endpoint r hi
    have hlt : i < attempts.length := (List.getElem?_eq_some_iff.mp hi).1
    rw [← ht, List.getElem?_append_left (by simpa using hlt), List.getElem?_map, hi]
    rfl
  · intro hlt next hnext
    rw [← ht, List.getElem?_append_left (by simpa using hlt), List.getElem?_map] at hnext
    cases ha : attempts[i]? with
    | none => simp [ha] at hnext
    | some a =>
      obtain ⟨e, r⟩ := a
      simp only [ha, Option.map_some', Option.some.injEq] at hnext
      subst hnext
      exact ⟨r, rfl⟩

/-- C25: for every request whose tag is not a key of the tag list that
`GetRemoteTags` returned, `Fetch` returns no response and the `looking up tag`
`FetchError` built from the error `unknown tag: <tag>`, and it contacts no
endpoint: its only calls are `GetRepositoryData` and `GetRemoteTags`, so
`GetRemoteHistory`, the graph and the graph lock are not used. -/
theorem Fetch_unknown_tag {σ : Type} (s : Registry σ) (im : dockerImageMethods)
    (request : FetchRequest) (w w1 w2 : σ) (repoData : RepositoryData)
    (tagsList : List (String × String))
    (hrepo : s.GetRepositoryData request.Path w = (.ok repoData, w1))
    (htags : s.GetRemoteTags repoData.Endpoints request.Path w1 = (.ok tagsList, w2))
    (htag : request.Tag ∉ tagsList.map Prod.fst) :
    (Fetch s im request w).response = none ∧
    (Fetch s im request w).err
      = some (.FetchError "looking up tag" request.Endpoint.URL.Host request.Path
          (.other ("unknown tag: " ++ request.Tag))) ∧
    (Fetch s im request w).trace
      = [Call.GetRepositoryData request.Path,
          Call.GetRemoteTags repoData.Endpoints request.Path] ∧
    (Fetch s im request w).attempts = [] ∧
    (Fetch s im request w).world = w2 ∧
    (∀ call ∈ (Fetch s im request w).trace, call.onEndpoint = false) := by
  have h : Fetch s im request w
      = ⟨none, some (.FetchError "looking up tag" request.Endpoint.URL.Host request.Path
          (.other ("unknown tag: " ++ request.Tag))), w2,
        [Call.GetRepositoryData request.Path,
          Call.GetRemoteTags repoData.Endpoints request.Path], []⟩ := by
    simp only [Fetch, hrepo, htags, lookup_none_of_not_key _ _ htag, List.singleton_append]
  rw [h]
  refine ⟨rfl, rfl, rfl, rfl, rfl, ?_⟩
  intro call hcall
  simp only [List.mem_cons, List.mem_singleton, List.not_mem_nil, or_false] at hcall
  rcases hcall with rfl | rfl <;> rfl

/-- Witness of `Fetch_unknown_tag`: the sample repository has no tag `v2`. -/
theorem Fetch_unknown_tag_witness :
    (Fetch sampleRegistry sampleMethods ⟨⟨⟨"registry.example"⟩⟩, "some/repo", "v2", 100⟩
      []).response = none ∧
    (Fetch sampleRegistry sampleMethods ⟨⟨⟨"registry.example"⟩⟩, "some/repo", "v2", 100⟩
      []).err = some (.FetchError "looking up tag" "registry.example" "some/repo"
        (.other ("unknown tag: " ++ "v2"))) ∧
    (Fetch sampleRegistry sampleMethods ⟨⟨⟨"registry.example"⟩⟩, "some/repo", "v2", 100⟩
      []).trace = [Call.GetRepositoryData "some/repo",
        Call.GetRemoteTags ["https://mirror", "https://registry", "https://backup"]
          "some/repo"] :=
  have h := Fetch_unknown_tag sampleRegistry sampleMethods
    ⟨⟨⟨"registry.example"⟩⟩, "some/repo", "v2", 100⟩ [] [] []
    ⟨["https://mirror", "https://registry", "https://backup"]⟩ [("latest", "layer3")]
    rfl rfl (by decide)
  ⟨h.1, h.2.1, h.2.2.1⟩

/-- C23: when the repository data and the tag list are obtained and the tag is
known, the calls of `Fetch` after those two are its attempts, successive
calls of `fetchFromEndpoint` for the endpoints in list order. If an attempt
fails with `ErrQuotaExceeded`, `Fetch` returns no response and
`ErrQuotaExceeded` itself, not wrapped, and that attempt is the last: no
later endpoint is contacted. If an attempt fails with any other error, the
next endpoint of the list is tried, and when there is none `Fetch` returns
the `fetchFromEndPoint` error built from that last error. -/
theorem Fetch_quota_exceeded_stops {σ : Type} (s : Registry σ) (im : dockerImageMethods)
    (request : FetchRequest) (w w1 w2 : σ) (repoData : RepositoryData)
    (tagsList : List (String × String)) (imgID : String)
    (hrepo : s.GetRepositoryData request.Path w = (.ok repoData, w1))
    (htags : s.GetRemoteTags repoData.Endpoints request.Path w1 = (.ok tagsList, w2))
    (hlookup : tagsList.lookup request.Tag = some imgID) :
    (Fetch s im request w).trace
      = [Call.GetRepositoryData request.Path,
          Call.GetRemoteTags repoData.Endpoints request.Path]
        ++ (Fetch s im request w).attempts.flatMap (fun a => a.2.trace) ∧
    (Fetch s im request w).attempts.map Prod.fst <+: repoData.Endpoints ∧
    successive s request imgID w2 (Fetch s im request w).attempts ∧
    (∀ (i : Nat) (endpoint : String) (r : EndpointResult σ),
      (Fetch s im request w).attempts[i]? = some (endpoint, r) →
      r.result = .error .ErrQuotaExceeded →
      (Fetch s im request w).response = none ∧
      (Fetch s im request w).err = some .ErrQuotaExceeded ∧
      (Fetch s im request w).attempts.length = i + 1) ∧
    (∀ (i : Nat) (endpoint : String) (r : EndpointResult σ) (err : Error),
      (Fetch s im request w).attempts[i]? = some (endpoint, r) →
      r.result = .error err → err ≠ .ErrQuotaExceeded →
      (∀ next, repoData.Endpoints[i + 1]? = some next →
        ∃ r', (Fetch s im request w).attempts[i + 1]? = some (next, r')) ∧
      (repoData.Endpoints.length = i + 1 →
        (Fetch s im request w).response = none ∧
        (Fetch s im request w).err
          = some (.FetchError "fetchFromEndPoint" request.Endpoint.URL.Host request.Path
              (.Errorf "all endpoints failed: %v" (some err))))) := by
  rw [Fetch_eq_tryEndpoints s im request w w1 w2 repoData tagsList imgID hrepo htags hlookup]
  obtain ⟨new, hatt, htr, hpre, hsucc, _, hidx, _⟩ :=
    tryEndpoints_spec s im request imgID repoData.Endpoints none w2
      [Call.GetRepositoryData request.Path,
        Call.GetRemoteTags repoData.Endpoints request.Path] []
  rw [List.nil_append] at hatt
  rw [hatt]
  refine ⟨htr, hpre, hsucc, ?_, ?_⟩
  · intro i endpoint r hi hres
    obtain ⟨a, b, c⟩ := (hidx i endpoint r hi).2.1 hres
    exact ⟨b, c, a⟩
  · intro i endpoint r err hi hres hne
    obtain ⟨a, b⟩ := (hidx i endpoint r hi).2.2.1 err hres hne
    refine ⟨?_, fun h => b h.symm⟩
    intro next hnext
    have hlt : i + 1 < repoData.Endpoints.length := (List.getElem?_eq_some_iff.mp hnext).1
    exact (endpoint_of_attempt new repoData.Endpoints hpre (i + 1)).2 (a hlt) next hnext

/-- Witness of `Fetch_quota_exceeded_stops`: with the quota 25 the mirror
fails with another error, so the registry is tried; there the third layer of
10 bytes exceeds the quota, so `Fetch` returns `ErrQuotaExceeded` and the
backup is not tried. -/
theorem Fetch_quota_exceeded_stops_witness :
    ((Fetch sampleRegistry sampleMethods (sampleRequest 25) []).response = none ∧
      (Fetch sampleRegistry sampleMethods (sampleRequest 25) []).err
        = some .ErrQuotaExceeded ∧
      (Fetch sampleRegistry sampleMethods (sampleRequest 25) []).attempts.length = 1 + 1) ∧
    (∃ r', (Fetch sampleRegistry sampleMethods (sampleRequest 25) []).attempts[0 + 1]?
      = some ("https://registry", r')) ∧
    (Fetch sampleRegistry sampleMethods (sampleRequest 25) []).attempts.map Prod.fst
      = ["https://mirror", "https://registry"] :=
  have h := Fetch_quota_exceeded_stops sampleRegistry sampleMethods (sampleRequest 25)
    [] [] [] ⟨["https://mirror", "https://registry", "https://backup"]⟩
    [("latest", "layer3")] "layer3" rfl rfl rfl
  ⟨h.2.2.2.1 1 "https://registry"
      (fetchFromEndpoint sampleRegistry (sampleRequest 25) "https://registry" "layer3" [])
      rfl rfl,
    (h.2.2.2.2 0 "https://mirror"
      (fetchFromEndpoint sampleRegistry (sampleRequest 25) "https://mirror" "layer3" [])
      (.other "connection refused") rfl rfl (by simp)).1 "https://registry" rfl,
    by decide⟩

/-- C24: when the repository data and the tag list are obtained and the tag is
known, `Fetch` tries the endpoints in list order, by successive calls of
`fetchFromEndpoint`, the first endpoint first and the next one after each
failure other than `ErrQuotaExceeded`, and returns the result of the first
one that succeeds: every attempt before it has failed, the response carries
the image id the tag maps to and the `Env` and `Vols` of the image that
attempt assembled, the error is nil, and that attempt is the last, so no
later endpoint is contacted. A response is returned in no other way. -/
theorem Fetch_first_success {σ : Type} (s : Registry σ) (im : dockerImageMethods)
    (request : FetchRequest) (w w1 w2 : σ) (repoData : RepositoryData)
    (tagsList : List (String × String)) (imgID : String)
    (hrepo : s.GetRepositoryData request.Path w = (.ok repoData, w1))
    (htags : s.GetRemoteTags repoData.Endpoints request.Path w1 = (.ok tagsList, w2))
    (hlookup : tagsList.lookup request.Tag = some imgID) :
    (Fetch s im request w).trace
      = [Call.GetRepositoryData request.Path,
          Call.GetRemoteTags repoData.Endpoints request.Path]
        ++ (Fetch s im request w).attempts.flatMap (fun a => a.2.trace) ∧
    (Fetch s im request w).attempts.map Prod.fst <+: repoData.Endpoints ∧
    successive s request imgID w2 (Fetch s im request w).attempts ∧
    (repoData.Endpoints ≠ [] → (Fetch s im request w).attempts ≠ []) ∧
    (∀ (i : Nat) (endpoint : String) (r : EndpointResult σ) (err : Error),
      (Fetch s im request w).attempts[i]? = some (endpoint, r) →
      r.result = .error err → err ≠ .ErrQuotaExceeded →
      ∀ next, repoData.Endpoints[i + 1]? = some next →
        ∃ r', (Fetch s im request w).attempts[i + 1]? = some (next, r')) ∧
    (∀ (i : Nat) (endpoint : String) (r : EndpointResult σ) (image : dockerImage),
      (Fetch s im request w).attempts[i]? = some (endpoint, r) → r.result = .ok image →
      (Fetch s im request w).response = some ⟨imgID, im.Vols image, im.Env image⟩ ∧
      (Fetch s im request w).err = none ∧
      (Fetch s im request w).attempts.length = i + 1 ∧
      repoData.Endpoints[i]? = some endpoint ∧
      (∀ j, j < i → ∃ e' r' err', (Fetch s im request w).attempts[j]? = some (e', r') ∧
        r'.result = .error err' ∧ err' ≠ .ErrQuotaExceeded)) ∧
    (∀ resp, (Fetch s im request w).response = some resp →
      ∃ endpoint r image, (Fetch s im request w).attempts.getLast? = some (endpoint, r) ∧
        r.result = .ok image ∧ resp = ⟨imgID, im.Vols image, im.Env image⟩) := by
  rw [Fetch_eq_tryEndpoints s im request w w1 w2 repoData tagsList imgID hrepo htags hlookup]
  obtain ⟨new, hatt, htr, hpre, hsucc, hne, hidx, hresp⟩ :=
    tryEndpoints_spec s im request imgID repoData.Endpoints none w2
      [Call.GetRepositoryData request.Path,
        Call.GetRemoteTags repoData.Endpoints request.Path] []
  rw [List.nil_append] at hatt
  rw [hatt]
  refine ⟨htr, hpre, hsucc, hne, ?_, ?_, hresp⟩
  · intro i endpoint r err hi hres hq next hnext
    have hlt : i + 1 < repoData.Endpoints.length := (List.getElem?_eq_some_iff.mp hnext).1
    exact (endpoint_of_attempt new repoData.Endpoints hpre (i + 1)).2
      (((hidx i endpoint r hi).2.2.1 err hres hq).1 hlt) next hnext
  intro i endpoint r image hi hres
  obtain ⟨a, b, c⟩ := (hidx i endpoint r hi).1 image hres
  exact ⟨b, c, a, (endpoint_of_attempt new repoData.Endpoints hpre i).1 endpoint r hi,
    (hidx i endpoint r hi).2.2.2⟩

/-- Witness of `Fetch_first_success`: with the quota 100 the mirror fails, the
registry serves the three layers, and `Fetch` answers with the image `layer3`
without trying the backup. -/
theorem Fetch_first_success_witness :
    ((Fetch sampleRegistry sampleMethods (sampleRequest 100) []).response
        = some ⟨"layer3",
            sampleMethods.Vols ⟨[⟨[], [], 10⟩, ⟨[], [], 10⟩, ⟨[], [], 10⟩]⟩,
            sampleMethods.Env ⟨[⟨[], [], 10⟩, ⟨[], [], 10⟩, ⟨[], [], 10⟩]⟩⟩ ∧
      (Fetch sampleRegistry sampleMethods (sampleRequest 100) []).err = none ∧
      (Fetch sampleRegistry sampleMethods (sampleRequest 100) []).attempts.length = 1 + 1 ∧
      (sampleRegistry.GetRepositoryData "some/repo" []).1
        = .ok ⟨["https://mirror", "https://registry", "https://backup"]⟩) ∧
    (Fetch sampleRegistry sampleMethods (sampleRequest 100) []).attempts.map Prod.fst
      = ["https://mirror", "https://registry"] :=
  have h := Fetch_first_success sampleRegistry sampleMethods (sampleRequest 100)
    [] [] [] ⟨["https://mirror", "https://registry", "https://backup"]⟩
    [("latest", "layer3")] "layer3" rfl rfl rfl
  have h1 := h.2.2.2.2.2.1 1 "https://registry"
    (fetchFromEndpoint sampleRegistry (sampleRequest 100) "https://registry" "layer3" [])
    ⟨[⟨[], [], 10⟩, ⟨[], [], 10⟩, ⟨[], [], 10⟩]⟩ rfl rfl
  ⟨⟨h1.1, h1.2.1, h1.2.2.1, rfl⟩, by decide⟩

end repository_fetcher

end GardenLinux
